import Mathlib

/-!
Shallow embedding of the Zialloc heap engine (C++ sources: the OS layer in
`os` / `types.h`, the core engine `Page` / `Segment` / `HeapState` in
`zialloc::memory`, and the host-facing `zialloc::Allocator`).

Machine integers (`size_t`, `uint64_t`, ...) are modelled as `Nat`, with an
explicit `% 2^64` at the spots where the C++ arithmetic can wrap.  Addresses
are `Nat`, with `0` playing the role of the null pointer.  Memory-resident
chunk headers and XL headers are made explicit as partial maps from header
addresses to header records (the engine itself only ever reads headers it has
previously written; a read of an address that was never written is modelled as
"no valid header there").  The development is single-threaded: stripe locks,
atomics and memory orderings disappear, and the multi-threaded / single-
threaded branches of the C++ (which perform the same state transformation and
differ only in locking) are embedded once.
-/

namespace Zialloc

/-! ### Constants (`types.h`) -/

def KB : Nat := 1024
def MB : Nat := KB * KB
def GB : Nat := MB * KB

def SMALL_PAGE_SHIFT : Nat := 20
def MEDIUM_PAGE_SHIFT : Nat := 23
def LARGE_PAGE_SHIFT : Nat := 24
def SEGMENT_SHIFT : Nat := 27

def SMALL_PAGE_SIZE : Nat := 2 ^ SMALL_PAGE_SHIFT
def MEDIUM_PAGE_SIZE : Nat := 2 ^ MEDIUM_PAGE_SHIFT
def LARGE_PAGE_SIZE : Nat := 2 ^ LARGE_PAGE_SHIFT
def SEGMENT_SIZE : Nat := 2 ^ SEGMENT_SHIFT
def SEGMENT_ALIGN : Nat := SEGMENT_SIZE

def HEAP_RESERVED_DEFAULT : Nat := 100 * GB

/-- `SIZE_MAX` for the 64-bit `size_t`. -/
def SIZE_MAX : Nat := 2 ^ 64 - 1

/-- Per-class maximum chunk sizes (`chunk_max_t` in `types.h`). -/
def CHUNK_SM : Nat := 0x7FFF0
def CHUNK_MD : Nat := 0x3FFFF0
def CHUNK_LG : Nat := 0x7FFFF0

/-- `sizeof(ChunkHeader)`: a pointer, two `uint32_t`. -/
def CHUNK_HEADER_SIZE : Nat := 16
/-- `sizeof(XLHeader)`: `uint64_t`, two `size_t`, `uint64_t`. -/
def XL_HEADER_SIZE : Nat := 32

def CHUNK_MAGIC : Nat := 0xC47A110C
def XL_MAGIC : Nat := 0x584C4F43484B4559

/-- Deferred-ring capacity (`DeferredRing::CAP`). -/
def RING_CAP : Nat := 256
/-- `MAX_QUEUE_PROBES_PER_ALLOC`. -/
def MAX_QUEUE_PROBES_PER_ALLOC : Nat := 64
/-- `MAX_FALLBACK_SCANS_PER_ALLOC`. -/
def MAX_FALLBACK_SCANS_PER_ALLOC : Nat := 128

inductive page_kind where
  | PAGE_SM
  | PAGE_MED
  | PAGE_LG
  | PAGE_XL
deriving DecidableEq, Repr

inductive segment_kind where
  | SEGMENT_NORM
  | SEGMENT_HUGE
  | SEGMENT_GUARD
deriving DecidableEq, Repr

inductive page_status where
  | FULL
  | ACTIVE
  | EMPTY
deriving DecidableEq, Repr

open page_kind page_status segment_kind

/-- `page_kind_size` (`types.h`). -/
def page_kind_size (kind : page_kind) : Nat :=
  match kind with
  | PAGE_SM => SMALL_PAGE_SIZE
  | PAGE_MED => MEDIUM_PAGE_SIZE
  | PAGE_LG => LARGE_PAGE_SIZE
  | PAGE_XL => SEGMENT_SIZE

/-- `align_up` (`os` namespace): `(size + alignment - 1) & ~(alignment - 1)` on
`size_t`.  For the power-of-two alignments the engine uses, the mask clears the
low bits, i.e. subtracts the remainder; the `% 2^64` makes the `size_t`
wraparound of the addition explicit. -/
def align_up (size alignment : Nat) : Nat :=
  (size + alignment - 1) % 2 ^ 64 - ((size + alignment - 1) % 2 ^ 64) % alignment

/-- Binary logarithm by structural recursion on a fuel bound (the fuel keeps
the definition kernel-evaluable); with fuel 64 it agrees with `Nat.log2` on
every `uint64_t` value, proved below. -/
def log2_aux : Nat → Nat → Nat
  | 0, _ => 0
  | fuel + 1, n => if 2 ≤ n then log2_aux fuel (n / 2) + 1 else 0

def log2_64 (n : Nat) : Nat := log2_aux 64 n

/-- `ceil_pow2_at_least_16`: `1 << (64 - clz(n - 1))` for `n > 16`; for a
nonzero 64-bit `x`, `64 - clz(x) = log2 x + 1`. -/
def ceil_pow2_at_least_16 (n : Nat) : Nat :=
  if n ≤ 16 then 16 else 2 ^ (log2_64 (n - 1) + 1)

/-- `class_for_size`. -/
def class_for_size (size : Nat) : page_kind :=
  if size ≤ CHUNK_SM then PAGE_SM
  else if size ≤ CHUNK_MD then PAGE_MED
  else if size ≤ CHUNK_LG then PAGE_LG
  else PAGE_XL

/-- `page_size_for_kind`. -/
def page_size_for_kind (kind : page_kind) : Nat := page_kind_size kind

/-- `norm_chunk_req`. -/
def norm_chunk_req (kind : page_kind) (req : Nat) : Nat :=
  if kind ≠ PAGE_SM ∧ kind ≠ PAGE_MED then align_up req 16
  else
    let norm := ceil_pow2_at_least_16 req
    let cap := if kind = PAGE_SM then CHUNK_SM else CHUNK_MD
    align_up (if norm > cap then cap else norm) 16

/-- `class_index_for_kind`: the enum value as an index. -/
def class_index_for_kind (kind : page_kind) : Nat :=
  match kind with
  | PAGE_SM => 0
  | PAGE_MED => 1
  | PAGE_LG => 2
  | PAGE_XL => 3

/-! ### 64-bit-word bitmap (`Page::used_bitmap` plus `bit_is_set` / `bit_set` /
`bit_clear` and the first-free-slot scan of `Page::allocate`).

A bitmap is a `List Nat` of 64-bit words (each `< 2^64`); slot `idx` lives at
bit `idx % 64` of word `idx / 64`, exactly as in the C++ (`idx >> 6`,
`idx & 63`). -/

def MASK64 : Nat := 2 ^ 64 - 1

/-- `__builtin_ctzll`: index of the lowest set bit, by structural recursion on
a fuel bound of 64 so the kernel can evaluate it (returns 64 for zero input,
which the C++ never passes). -/
def ctz_aux : Nat → Nat → Nat
  | 0, _ => 0
  | fuel + 1, x => if x % 2 = 1 then 0 else ctz_aux fuel (x / 2) + 1

def ctz (x : Nat) : Nat := ctz_aux 64 x

/-- `Page::bit_is_set`. -/
def bit_is_set (bm : List Nat) (idx : Nat) : Bool :=
  (bm.getD (idx / 64) 0).testBit (idx % 64)

/-- `Page::bit_set`: `word |= 1 << bit`. -/
def bit_set (bm : List Nat) (idx : Nat) : List Nat :=
  bm.set (idx / 64) (bm.getD (idx / 64) 0 ||| 1 <<< (idx % 64))

/-- `Page::bit_clear`: `word &= ~(1 << bit)`. -/
def bit_clear (bm : List Nat) (idx : Nat) : List Nat :=
  bm.set (idx / 64) (bm.getD (idx / 64) 0 &&& (MASK64 ^^^ 1 <<< (idx % 64)))

/-- The first-free-slot scan of `Page::allocate`: starting with the word
holding `first_hint`, visit each word at most once (wrapping exactly once), and
take the lowest clear bit (`ctz(~word)`) of the first word that has one at a
valid slot index. -/
def scan_words (bm : List Nat) (capacity : Nat) : Nat → Nat → Option Nat
  | word_idx, steps + 1 =>
    if bm.getD word_idx 0 ≠ MASK64 then
      if word_idx * 64 + ctz (MASK64 ^^^ bm.getD word_idx 0) < capacity then
        some (word_idx * 64 + ctz (MASK64 ^^^ bm.getD word_idx 0))
      else scan_words bm capacity ((word_idx + 1) % bm.length) steps
    else scan_words bm capacity ((word_idx + 1) % bm.length) steps
  | _, 0 => none

/-- Word `w` of the bitmap has every valid slot set. -/
def word_full (bm : List Nat) (cap w : Nat) : Prop :=
  ∀ b, b < 64 → w * 64 + b < cap → (bm.getD w 0).testBit b = true

/-- The number of set bits among the valid slots (`popcount` of the bitmap
restricted below `capacity`; with the out-of-range bits clear this equals the
full popcount, proved below). -/
def set_count (bm : List Nat) (cap : Nat) : Nat :=
  (List.range cap).countP (fun s => bit_is_set bm s)

/-- `popcount` of one 64-bit word. -/
def word_popcount (w : Nat) : Nat := (List.range 64).countP (fun b => w.testBit b)

/-- `popcount(used_bitmap)`: the sum of the word popcounts. -/
def bm_popcount (bm : List Nat) : Nat := (bm.map word_popcount).sum

/-! ### Chunk headers (`ChunkHeader`, written into the 16 bytes before each
user pointer).  A `Page*` is modelled as the pair (segment index, page index)
of the owning page in the heap's layout; the null owner pointer is `none`. -/

structure ChunkHeader where
  owner : Option (Nat × Nat)
  slot : Nat
  magic : Nat
deriving DecidableEq, Repr

/-- Chunk-header memory: a partial map from header addresses to headers.
Uninitialized memory is `none` (no valid header can be read there). -/
def HdrMap : Type := Nat → Option ChunkHeader

def hdr_write (hdrs : HdrMap) (addr : Nat) (h : ChunkHeader) : HdrMap :=
  fun a => if a = addr then some h else hdrs a

def hdr_empty : HdrMap := fun _ => none

/-! ### `Page` (`zialloc::memory::Page`) -/

structure Page where
  owner_segment_idx : Nat
  base : Nat
  size_class : page_kind
  page_span : Nat
  chunk_stride : Nat
  chunk_usable : Nat
  capacity : Nat
  used : Nat
  first_hint : Nat
  owner_tid : Nat
  status : page_status
  initialized : Bool
  used_bitmap : List Nat
  deferred_frees : List Nat
deriving Repr

/-- The `Page()` default constructor. -/
def Page.mk0 : Page :=
  { owner_segment_idx := 0, base := 0, size_class := PAGE_SM, page_span := 0,
    chunk_stride := 0, chunk_usable := 0, capacity := 0, used := 0,
    first_hint := 0, owner_tid := 0, status := EMPTY, initialized := false,
    used_bitmap := [], deferred_frees := [] }

/-- `Page::slot_header`: address of slot `slot`'s chunk header. -/
def Page.slot_header_addr (pg : Page) (slot : Nat) : Nat :=
  pg.base + slot * pg.chunk_stride

/-- `Page::slot_user_ptr`. -/
def Page.slot_user_ptr (pg : Page) (slot : Nat) : Nat :=
  pg.slot_header_addr slot + CHUNK_HEADER_SIZE

/-- The field assignments at the end of `Page::init` (shared by both the
large-class and the bucketed branch). -/
def Page.init_fill (pg : Page) (page_base : Nat) (kind : page_kind)
    (stride cap : Nat) : Page :=
  { pg with
    base := page_base, size_class := kind, page_span := page_size_for_kind kind,
    chunk_stride := stride, chunk_usable := stride - CHUNK_HEADER_SIZE,
    capacity := cap, used := 0, first_hint := 0, owner_tid := 0,
    status := EMPTY, initialized := true,
    used_bitmap := List.replicate ((cap + 63) / 64) 0 }

/-- `Page::init`.  For the large class the geometry is fixed (one chunk per
page, stride = span) and the `cap == 0 || cap > UINT32_MAX` check trivially
passes with `cap = 1`; for small/medium the stride is the 16-aligned
normalized request plus header, and the capacity `span / stride` must be
nonzero and fit `uint32_t` (`2^32 - 1`). -/
def Page.init (pg : Page) (page_base : Nat) (kind : page_kind) (req_sz : Nat) :
    Option Page :=
  if page_base = 0 ∨ req_sz = 0 then none
  else if kind = PAGE_LG then
    some (pg.init_fill page_base kind (page_size_for_kind kind) 1)
  else if align_up (norm_chunk_req kind req_sz + CHUNK_HEADER_SIZE) 16 = 0 then none
  else if page_size_for_kind kind
        / align_up (norm_chunk_req kind req_sz + CHUNK_HEADER_SIZE) 16 = 0
      ∨ page_size_for_kind kind
        / align_up (norm_chunk_req kind req_sz + CHUNK_HEADER_SIZE) 16 > 2 ^ 32 - 1
    then none
  else some (pg.init_fill page_base kind
    (align_up (norm_chunk_req kind req_sz + CHUNK_HEADER_SIZE) 16)
    (page_size_for_kind kind / align_up (norm_chunk_req kind req_sz + CHUNK_HEADER_SIZE) 16))

/-- `Page::retune_if_empty`. -/
def Page.retune_if_empty (pg : Page) (req_sz : Nat) : Option Page :=
  if pg.initialized = false then none
  else if pg.used ≠ 0 then none
  else if req_sz = 0 then none
  else pg.init pg.base pg.size_class req_sz

def Page.is_initialized (pg : Page) : Bool := pg.initialized

/-- `Page::can_hold`. -/
def Page.can_hold (pg : Page) (req : Nat) : Bool :=
  pg.initialized && decide (req ≤ pg.chunk_usable)

/-- `Page::contains_ptr`. -/
def Page.contains_ptr (pg : Page) (ptr : Nat) : Bool :=
  pg.initialized && decide (ptr ≠ 0) && decide (pg.base ≤ ptr) &&
    decide (ptr < pg.base + pg.page_span)

/-- The field checks of `Page::validate_header` on an already-read header. -/
def Page.hdr_ok (pg : Page) (self : Nat × Nat) (h : ChunkHeader) (ptr : Nat) : Bool :=
  decide (h.magic = CHUNK_MAGIC) && decide (h.owner = some self) &&
    decide (h.slot < pg.capacity) && decide (pg.slot_user_ptr h.slot = ptr)

/-- `Page::validate_header`: read the 16 bytes before `ptr` and check them. -/
def Page.validate_header (pg : Page) (self : Nat × Nat) (hdrs : HdrMap) (ptr : Nat) :
    Bool :=
  match hdrs (ptr - CHUNK_HEADER_SIZE) with
  | none => false
  | some h => pg.hdr_ok self h ptr

/-- Result of `Page::free_local`: `false` return, double-free `std::abort`, or
success with the reported usable size and the before/after statuses. -/
inductive FreeRes where
  | notOurs
  | dfAbort
  | ok (usable : Nat) (before after : page_status) (pg : Page)

/-- `Page::free_local`.  `zero_on_free` only touches the chunk's user bytes,
which are not part of the page metadata modelled here. -/
def Page.free_local (pg : Page) (self : Nat × Nat) (hdrs : HdrMap) (ptr : Nat) :
    FreeRes :=
  if pg.contains_ptr ptr = false then .notOurs
  else
    match hdrs (ptr - CHUNK_HEADER_SIZE) with
    | none => .notOurs
    | some h =>
      if pg.hdr_ok self h ptr = false then .notOurs
      else
        let before := pg.status
        if bit_is_set pg.used_bitmap h.slot = false then .dfAbort
        else
          let bm := bit_clear pg.used_bitmap h.slot
          let used' := pg.used - 1
          let fh := if h.slot < pg.first_hint then h.slot else pg.first_hint
          let st := if used' = 0 then EMPTY else ACTIVE
          .ok pg.chunk_usable before st
            { pg with used_bitmap := bm, used := used', first_hint := fh, status := st }

/-- `Page::drain_deferred_locked`: pop and `free_local` up to `max_to_drain`
entries; a double free among them aborts (`none`), other failures are ignored. -/
def Page.drain_deferred_locked (pg : Page) (self : Nat × Nat) (hdrs : HdrMap) :
    Nat → Option Page
  | 0 => some pg
  | m + 1 =>
    match pg.deferred_frees with
    | [] => some pg
    | p :: rest =>
      let pg1 := { pg with deferred_frees := rest }
      match pg1.free_local self hdrs p with
      | .dfAbort => none
      | .notOurs => pg1.drain_deferred_locked self hdrs m
      | .ok _ _ _ pg2 => pg2.drain_deferred_locked self hdrs m

/-- Result of `Page::allocate`: abort (from draining a double free), null
(`fail`, with the possibly-drained page state), or a user pointer with the
before/after statuses, the updated page and the updated header memory. -/
inductive AllocRes where
  | dfAbort
  | fail (pg : Page)
  | ok (ptr : Nat) (before after : page_status) (pg : Page) (hdrs : HdrMap)

/-- `Page::allocate`. -/
def Page.allocate (pg : Page) (self : Nat × Nat) (hdrs : HdrMap) (req tid : Nat) :
    AllocRes :=
  if pg.can_hold req = false ∨ pg.used = pg.capacity then .fail pg
  else
    match (if pg.deferred_frees.length ≥ 32 then pg.drain_deferred_locked self hdrs 16
           else some pg) with
    | none => .dfAbort
    | some pg0 =>
      let before := pg0.status
      let words := pg0.used_bitmap.length
      if words = 0 then .fail pg0
      else
        match scan_words pg0.used_bitmap pg0.capacity (pg0.first_hint / 64) words with
        | some slot =>
          let bm := bit_set pg0.used_bitmap slot
          let used' := pg0.used + 1
          let tid' := if pg0.owner_tid = 0 then tid else pg0.owner_tid
          let st := if used' = pg0.capacity then FULL else ACTIVE
          let pg' := { pg0 with
            used_bitmap := bm, used := used', first_hint := slot,
            owner_tid := tid', status := st }
          let hdrs' := hdr_write hdrs (pg0.slot_header_addr slot)
            ⟨some self, slot, CHUNK_MAGIC⟩
          .ok (pg0.slot_user_ptr slot) before st pg' hdrs'
        | none => .fail { pg0 with status := FULL }

/-- Result of `Page::enqueue_deferred_free`. -/
inductive EnqRes where
  | notOurs
  | pushed (usable : Nat) (pg : Page)
  | ringFull (usable : Nat)

/-- `Page::enqueue_deferred_free`: validate, report the usable size, then try
to push onto the deferred ring (a bounded FIFO of capacity 256). -/
def Page.enqueue_deferred_free (pg : Page) (self : Nat × Nat) (hdrs : HdrMap)
    (ptr : Nat) : EnqRes :=
  if pg.contains_ptr ptr = false then .notOurs
  else if pg.validate_header self hdrs ptr = false then .notOurs
  else if pg.deferred_frees.length < RING_CAP then
    .pushed pg.chunk_usable { pg with deferred_frees := pg.deferred_frees ++ [ptr] }
  else .ringFull pg.chunk_usable

/-- Result of `Page::usable_size`: a size (0 for a pointer that is not ours),
or the use-after-free `std::abort`. -/
inductive SizeRes where
  | ok (n : Nat)
  | uafAbort
deriving DecidableEq, Repr

/-- `Page::usable_size`. -/
def Page.usable_size (pg : Page) (self : Nat × Nat) (hdrs : HdrMap) (ptr : Nat)
    (uaf_check : Bool) : SizeRes :=
  if pg.contains_ptr ptr = false then .ok 0
  else
    match hdrs (ptr - CHUNK_HEADER_SIZE) with
    | none => .ok 0
    | some h =>
      if pg.hdr_ok self h ptr = false then .ok 0
      else if uaf_check && !(bit_is_set pg.used_bitmap h.slot) then .uafAbort
      else .ok pg.chunk_usable

/-! ### The page metadata invariant (claim C9) -/

/-- Invariant of an initialized page: the claimed clauses
(`used = popcount(used_bitmap)` and the status law) together with the
structural facts that make them inductive: the bitmap has the word count
`init` gives it, every word is a 64-bit value, the bits at or above
`capacity` are clear, `first_hint` is a valid slot, and `capacity ≥ 1`. -/
structure PageInvI (pg : Page) : Prop where
  cap_pos : 0 < pg.capacity
  bm_len : pg.used_bitmap.length = (pg.capacity + 63) / 64
  words_lt : ∀ w ∈ pg.used_bitmap, w < 2 ^ 64
  above_clear : ∀ s, pg.capacity ≤ s → bit_is_set pg.used_bitmap s = false
  used_eq : pg.used = set_count pg.used_bitmap pg.capacity
  hint_lt : pg.first_hint < pg.capacity
  status_empty : pg.used = 0 → pg.status = EMPTY
  status_full : pg.used = pg.capacity → pg.status = FULL
  status_active : 0 < pg.used → pg.used < pg.capacity → pg.status = ACTIVE

/-- The page invariant, trivial for an uninitialized page. -/
def PageInv (pg : Page) : Prop := pg.initialized = true → PageInvI pg

/-- Geometry equalities preserved by the free/drain path. -/
def geomEq (pg1 pg : Page) : Prop :=
  pg1.initialized = pg.initialized ∧ pg1.capacity = pg.capacity ∧
    pg1.chunk_usable = pg.chunk_usable ∧ pg1.base = pg.base ∧
    pg1.chunk_stride = pg.chunk_stride ∧ pg1.page_span = pg.page_span ∧
    pg1.size_class = pg.size_class ∧ pg1.owner_segment_idx = pg.owner_segment_idx

/-- Witness page for the page-level claims: a freshly initialized small page at
base 4096, with its slot-0 chunk header written by hand. -/
def pageW : Page := Page.init_fill Page.mk0 4096 PAGE_SM 65552 15

def hdrsW : HdrMap := hdr_write hdr_empty 4096 ⟨some (0, 0), 0, CHUNK_MAGIC⟩

/-! ### Sequences of page operations (claim C9) -/

/-- One page operation, with the inputs the C++ member function reads from the
outside world (the header memory at call time, the request, the caller tid). -/
inductive PageOp where
  | opInit (page_base : Nat) (kind : page_kind) (req : Nat)
  | opAlloc (hdrs : HdrMap) (req tid : Nat)
  | opFree (hdrs : HdrMap) (ptr : Nat)

/-- Run one operation to its lock-release boundary.  `none` means the process
aborted (no boundary is reached); a failed `init` / null `allocate` /
`false`-returning `free_local` still releases the lock with the current
state. -/
def Page.step (pg : Page) (self : Nat × Nat) : PageOp → Option Page
  | .opInit page_base kind req =>
    match pg.init page_base kind req with
    | some pg' => some pg'
    | none => some pg
  | .opAlloc hdrs req tid =>
    match pg.allocate self hdrs req tid with
    | .dfAbort => none
    | .fail pg' => some pg'
    | .ok _ _ _ pg' _ => some pg'
  | .opFree hdrs ptr =>
    match pg.free_local self hdrs ptr with
    | .dfAbort => none
    | .notOurs => some pg
    | .ok _ _ _ pg' => some pg'

def Page.run (pg : Page) (self : Nat × Nat) : List PageOp → Option Page
  | [] => some pg
  | op :: ops =>
    match pg.step self op with
    | none => none
    | some pg' => pg'.run self ops

/-- The final page of the witness run for C9: init a small page at 4096, serve
a 40000-byte allocation on thread 7, then free it. -/
def pageW9 : Page :=
  { owner_segment_idx := 0, base := 4096, size_class := PAGE_SM,
    page_span := 1048576, chunk_stride := 65552, chunk_usable := 65536,
    capacity := 15, used := 0, first_hint := 0, owner_tid := 7, status := EMPTY,
    initialized := true, used_bitmap := [0], deferred_frees := [] }

/-! ### `Segment` (`zialloc::memory::Segment`) -/

structure Segment where
  base : Nat
  size_class : page_kind
  page_size : Nat
  page_count : Nat
  pages : List Page
  next_candidate_idx : Nat
  full_pages : Nat
  queued_non_full : Bool
  fixed_chunk_set : Bool
  fixed_chunk_usable : Nat
  key : Nat
  canary : Nat
  /-- The `seg_idx` passed to `init`; every page's `owner_segment` back-pointer
  is modelled as this index. -/
  self_idx : Nat
deriving Repr

/-- `Segment::init`.  `generate_canary()` (a random 64-bit draw) is modelled by
the `rng` input. -/
def Segment.init (segment_base : Nat) (kind : page_kind) (seg_idx : Nat)
    (rng : Nat) : Option Segment :=
  if segment_base = 0 then none
  else
    let psize := page_size_for_kind kind
    let pcount := SEGMENT_SIZE / psize
    if pcount = 0 then none
    else some {
      base := segment_base, size_class := kind, page_size := psize,
      page_count := pcount,
      pages := List.replicate pcount { Page.mk0 with owner_segment_idx := seg_idx },
      next_candidate_idx := 0, full_pages := 0, queued_non_full := false,
      fixed_chunk_set := false, fixed_chunk_usable := 0,
      key := rng, canary := rng, self_idx := seg_idx }

def Segment.get_size_class (seg : Segment) : page_kind := seg.size_class

def Segment.check_canary (seg : Segment) (expected : Nat) : Bool :=
  decide (seg.canary = expected)

def Segment.get_key (seg : Segment) : Nat := seg.key

def Segment.num_pages (seg : Segment) : Nat := seg.page_count

/-- `Segment::contains`. -/
def Segment.contains (seg : Segment) (ptr : Nat) : Bool :=
  decide (seg.base ≤ ptr) && decide (ptr < seg.base + SEGMENT_SIZE)

/-- `Segment::has_free_pages`. -/
def Segment.has_free_pages (seg : Segment) : Bool :=
  decide (seg.full_pages < seg.page_count)

/-- `Segment::can_hold_request`. -/
def Segment.can_hold_request (seg : Segment) (req : Nat) : Bool :=
  if seg.size_class = PAGE_LG then true
  else if seg.fixed_chunk_set = false then true
  else decide (req ≤ seg.fixed_chunk_usable)

/-- `Segment::try_mark_enqueued` (CAS on `queued_non_full`). -/
def Segment.try_mark_enqueued (seg : Segment) : Bool × Segment :=
  if seg.queued_non_full then (false, seg)
  else (true, { seg with queued_non_full := true })

/-- `Segment::clear_enqueued`. -/
def Segment.clear_enqueued (seg : Segment) : Segment :=
  { seg with queued_non_full := false }

/-- Result of `Segment::allocate`. -/
inductive SegAllocRes where
  | dfAbort
  | fail (seg : Segment)
  | ok (ptr pageIdx : Nat) (seg : Segment) (hdrs : HdrMap)

/-- The lazy-init block of the `Segment::allocate` loop body: if the page at
`idx` is uninitialized, init it with the request or the pinned
`fixed_chunk_usable`, and on the first non-large init pin `fixed_chunk_usable`.
`none` means the `continue` on a failed init. -/
def seg_init_phase (seg : Segment) (idx req : Nat) : Option (Page × Segment) :=
  let page := seg.pages.getD idx Page.mk0
  let target_req := if seg.size_class ≠ PAGE_LG ∧ seg.fixed_chunk_set then
      seg.fixed_chunk_usable else req
  if page.is_initialized then some (page, seg)
  else match page.init (seg.base + idx * seg.page_size) seg.size_class target_req with
    | none => none
    | some pinit =>
      let seg1 := { seg with pages := seg.pages.set idx pinit }
      if seg.size_class ≠ PAGE_LG ∧ seg.fixed_chunk_set = false then
        some (pinit, { seg1 with
          fixed_chunk_usable := pinit.chunk_usable, fixed_chunk_set := true })
      else some (pinit, seg1)

/-- The `can_hold` / large-class `retune_if_empty` block of the loop body; the
returned flag says whether to proceed to the page allocation (false is the
`continue`). -/
def seg_fit_phase (pgA : Page) (segA : Segment) (idx req : Nat) :
    Page × Segment × Bool :=
  if pgA.can_hold req then (pgA, segA, true)
  else if segA.size_class ≠ PAGE_LG then (pgA, segA, false)
  else match pgA.retune_if_empty req with
    | none => (pgA, segA, false)
    | some pg2 => (pg2, { segA with pages := segA.pages.set idx pg2 }, pg2.can_hold req)

/-- The page walk of `Segment::allocate`
(`for (step = 0; step < page_count; ++step)`), with the fuel counting the
remaining steps.  The multi-threaded and single-threaded branches of the C++
perform the same state transformation and are embedded once. -/
def seg_alloc_loop (req tid start : Nat) : Nat → Nat → Segment → HdrMap → SegAllocRes
  | _, 0, seg, _ => .fail seg
  | step, fuel + 1, seg, hdrs =>
    let idx := (start + step) % seg.page_count
    match seg_init_phase seg idx req with
    | none => seg_alloc_loop req tid start (step + 1) fuel seg hdrs
    | some (pgA, segA) =>
      match seg_fit_phase pgA segA idx req with
      | (pgB, segB, proceed) =>
        if proceed = false then seg_alloc_loop req tid start (step + 1) fuel segB hdrs
        else
          match pgB.allocate (segB.self_idx, idx) hdrs req tid with
          | .dfAbort => .dfAbort
          | .fail pgf =>
            seg_alloc_loop req tid start (step + 1) fuel
              { segB with pages := segB.pages.set idx pgf } hdrs
          | .ok ptr before after pgs hdrs' =>
            let segC := { segB with pages := segB.pages.set idx pgs }
            let segD := if before ≠ FULL ∧ after = FULL then
                { segC with full_pages := segC.full_pages + 1 } else segC
            let segE := { segD with next_candidate_idx :=
                if after = FULL then (idx + 1) % segD.page_count else idx }
            .ok ptr idx segE hdrs'

/-- `Segment::allocate`. -/
def Segment.allocate (seg : Segment) (hdrs : HdrMap) (req tid : Nat) : SegAllocRes :=
  if seg.can_hold_request req = false then .fail seg
  else seg_alloc_loop req tid (seg.next_candidate_idx % seg.page_count) 0
    seg.page_count seg hdrs

/-- Result of `Segment::free_on_page`. -/
inductive SegFreeRes where
  | dfAbort
  | failed (seg : Segment)
  | ok (usable : Nat) (before after : page_status) (seg : Segment)

/-- `Segment::free_on_page` (the page is identified by its index in this
segment; the C++ takes the `Page*`). -/
def Segment.free_on_page (seg : Segment) (hdrs : HdrMap) (pageIdx : Nat)
    (ptr : Nat) : SegFreeRes :=
  let page := seg.pages.getD pageIdx Page.mk0
  match page.free_local (seg.self_idx, pageIdx) hdrs ptr with
  | .notOurs => .failed seg
  | .dfAbort => .dfAbort
  | .ok usable before after pg' =>
    let seg1 := { seg with pages := seg.pages.set pageIdx pg' }
    let seg2 := if before = FULL ∧ after ≠ FULL then
        { seg1 with full_pages := seg1.full_pages - 1 } else seg1
    .ok usable before after seg2

/-! ### Geometric well-formedness (used for claims C1 and C4) -/

/-- Geometry of an initialized page: 16-aligned nonzero base, 16-divisible
stride, the usable size is the stride minus the header, and all chunks fit in
the page span. -/
def PageGeom (pg : Page) : Prop :=
  pg.initialized = true →
    16 ∣ pg.base ∧ pg.base ≠ 0 ∧ 16 ∣ pg.chunk_stride ∧
      pg.chunk_usable = pg.chunk_stride - CHUNK_HEADER_SIZE ∧
      pg.capacity * pg.chunk_stride ≤ pg.page_span

/-- Segment well-formedness: 16-aligned nonzero base, consistent page sizing,
and every page well-formed. -/
def SegWF (seg : Segment) : Prop :=
  16 ∣ seg.base ∧ seg.base ≠ 0 ∧ seg.page_size = page_size_for_kind seg.size_class ∧
    0 < seg.page_count ∧ seg.pages.length = seg.page_count ∧
    ∀ pg ∈ seg.pages, PageGeom pg ∧ PageInv pg

/-- All deferred rings shorter than the drain threshold (32): allocations then
never drain and so never abort. -/
def RingsSmall (seg : Segment) : Prop :=
  ∀ pg ∈ seg.pages, pg.deferred_frees.length < 32

/-- What a successful segment allocation guarantees about the returned pointer
`ptr` on page `pidx`: it is 16-aligned and nonzero, the chunk header written
just below it names the owner `(si, pidx)` and a slot that the page's bitmap
now marks used, the header re-validates against the page, and the request fits
the page's chunk size. -/
def GoodAlloc (si req ptr pidx : Nat) (pages : List Page) (hdrs hdrs1 : HdrMap) :
    Prop :=
  ptr % 16 = 0 ∧ ptr ≠ 0 ∧ pidx < pages.length ∧
  ∃ slot,
    hdrs1 = hdr_write hdrs (ptr - CHUNK_HEADER_SIZE)
      ⟨some (si, pidx), slot, CHUNK_MAGIC⟩ ∧
    req ≤ (pages.getD pidx Page.mk0).chunk_usable ∧
    (pages.getD pidx Page.mk0).contains_ptr ptr = true ∧
    (pages.getD pidx Page.mk0).hdr_ok (si, pidx)
      ⟨some (si, pidx), slot, CHUNK_MAGIC⟩ ptr = true ∧
    bit_is_set (pages.getD pidx Page.mk0).used_bitmap slot = true

/-! ### XL chunks, the thread cache, class shards, and the heap
(`HeapState`, `ThreadCache`, `ClassShard` in the engine). -/

/-- The default-constructed `Segment` (used as the out-of-range placeholder for
the `layout` vector of owning pointers). -/
def Segment.mk0 : Segment :=
  { base := 0, size_class := PAGE_SM, page_size := 0, page_count := 0, pages := [],
    next_candidate_idx := 0, full_pages := 0, queued_non_full := false,
    fixed_chunk_set := false, fixed_chunk_usable := 0, key := 0, canary := 0,
    self_idx := 0 }

structure XLHeader where
  magic : Nat
  mapping_size : Nat
  usable_size : Nat
deriving DecidableEq, Repr

/-- XL-header memory: a partial map from XL-header base addresses.  `none`
means no valid XL header is stored there. -/
def XLMap : Type := Nat → Option XLHeader

def xl_write (m : XLMap) (addr : Nat) (h : XLHeader) : XLMap :=
  fun a => if a = addr then some h else m a

def xl_erase (m : XLMap) (addr : Nat) : XLMap :=
  fun a => if a = addr then none else m a

def xl_empty : XLMap := fun _ => none

/-- `os_mmap_aligned(size, SEGMENT_ALIGN)` given the raw address the kernel
returns for the over-allocation (`0` = `MAP_FAILED`): the leading slop is
trimmed to `align_up(raw, SEGMENT_ALIGN)`. -/
def alloc_segment_base (raw : Nat) : Nat :=
  if raw = 0 then 0 else align_up raw SEGMENT_ALIGN

structure ClassShard where
  segments : List Nat
  non_full_segments : List Nat
deriving Repr

/-- `ThreadCache`.  A cached `Page*` is the (segment index, page index) pair;
`preferred_seg_valid[i]`/`preferred_seg_idx[i]` are combined into an
`Option`.  The `cached_page_bases`/`ends` mirrors are not read on the
allocate/free paths modelled here. -/
structure ThreadCache where
  tid : Nat
  is_active : Bool
  cached_pages : List (Option (Nat × Nat))
  preferred_seg : List (Option Nat)
deriving Repr

/-- `ThreadCache::get_cached_page` (`kind > PAGE_LG` means `PAGE_XL`). -/
def ThreadCache.get_cached_page (tc : ThreadCache) (kind : page_kind) :
    Option (Nat × Nat) :=
  if kind = PAGE_XL then none
  else tc.cached_pages.getD (class_index_for_kind kind) none

/-- `ThreadCache::cache_page`. -/
def ThreadCache.cache_page (tc : ThreadCache) (kind : page_kind)
    (pref : Nat × Nat) : ThreadCache :=
  if kind = PAGE_XL then tc
  else { tc with cached_pages :=
    tc.cached_pages.set (class_index_for_kind kind) (some pref) }

/-- `ThreadCache::clear_cached_page`. -/
def ThreadCache.clear_cached_page (tc : ThreadCache) (kind : page_kind)
    (pref : Nat × Nat) : ThreadCache :=
  if kind = PAGE_XL then tc
  else if tc.cached_pages.getD (class_index_for_kind kind) none = some pref then
    { tc with cached_pages :=
      tc.cached_pages.set (class_index_for_kind kind) none }
  else tc

/-- `ThreadCache::get_preferred_segment`. -/
def ThreadCache.get_preferred_segment (tc : ThreadCache) (kind : page_kind) :
    Option Nat :=
  if kind = PAGE_XL then none
  else tc.preferred_seg.getD (class_index_for_kind kind) none

/-- `ThreadCache::set_preferred_segment`. -/
def ThreadCache.set_preferred_segment (tc : ThreadCache) (kind : page_kind)
    (seg_idx : Nat) : ThreadCache :=
  if kind = PAGE_XL then tc
  else { tc with preferred_seg :=
    tc.preferred_seg.set (class_index_for_kind kind) (some seg_idx) }

/-- `HeapState` (the `memid`/`mem_kind` bookkeeping and mutexes are not part of
the modelled state; chunk and XL header memory is carried here). -/
structure HeapState where
  base : Nat
  reserved_size : Nat
  reserved_cursor : Nat
  num_segments : Nat
  layout : List Segment
  seg_kind : List segment_kind
  seg_bases : List Nat
  seg_page_kind : List page_kind
  canary : Nat
  class_shards : List ClassShard
  hdrs : HdrMap
  xl_hdrs : XLMap

/-- The default-constructed `HeapState` (3 empty class shards). -/
def HeapState.empty : HeapState :=
  { base := 0, reserved_size := 0, reserved_cursor := 0, num_segments := 0,
    layout := [], seg_kind := [], seg_bases := [], seg_page_kind := [],
    canary := 0, class_shards := [⟨[], []⟩, ⟨[], []⟩, ⟨[], []⟩],
    hdrs := hdr_empty, xl_hdrs := xl_empty }

/-- `HeapState::enqueue_non_full_segment`. -/
def HeapState.enqueue_non_full_segment (hp : HeapState) (kind : page_kind)
    (seg_idx : Nat) : HeapState :=
  if seg_idx ≥ hp.layout.length then hp
  else
    let seg := hp.layout.getD seg_idx Segment.mk0
    if seg.has_free_pages = false then hp
    else
      match seg.try_mark_enqueued with
      | (false, _) => hp
      | (true, seg1) =>
        let ci := class_index_for_kind kind
        let shard := hp.class_shards.getD ci ⟨[], []⟩
        { hp with
          layout := hp.layout.set seg_idx seg1,
          class_shards := hp.class_shards.set ci
            { shard with non_full_segments := shard.non_full_segments ++ [seg_idx] } }

/-- `HeapState::add_segment_nolock` (`generate_canary` modelled by `rng`). -/
def HeapState.add_segment_nolock (hp : HeapState) (segment_base : Nat)
    (kind : segment_kind) (pk : page_kind) (rng : Nat) : Option HeapState :=
  if segment_base = 0 then none
  else
    match Segment.init segment_base pk hp.layout.length rng with
    | none => none
    | some seg =>
      let idx := hp.layout.length
      let ci := class_index_for_kind pk
      let shard := hp.class_shards.getD ci ⟨[], []⟩
      let hp1 := { hp with
        layout := hp.layout ++ [seg],
        seg_kind := hp.seg_kind ++ [kind],
        seg_bases := hp.seg_bases ++ [segment_base],
        seg_page_kind := hp.seg_page_kind ++ [pk],
        num_segments := hp.layout.length + 1,
        class_shards := hp.class_shards.set ci
          { shard with segments := shard.segments ++ [idx] } }
      let hp2 := hp1.enqueue_non_full_segment pk idx
      some (if hp2.base = 0 ∨ segment_base < hp2.base then
        { hp2 with base := segment_base } else hp2)

/-- `HeapState::add_segment_from_reserved_nolock` (`commit_region` outcome is
the oracle input `commit_ok`). -/
def HeapState.add_segment_from_reserved_nolock (hp : HeapState)
    (kind : segment_kind) (pk : page_kind) (rng : Nat) (commit_ok : Bool) :
    Option HeapState :=
  if hp.base = 0 ∨ hp.reserved_size = 0 then none
  else if hp.reserved_cursor + SEGMENT_SIZE > hp.reserved_size then none
  else if commit_ok = false then none
  else
    ({ hp with reserved_cursor := hp.reserved_cursor + SEGMENT_SIZE
      }).add_segment_nolock (hp.base + hp.reserved_cursor) kind pk rng

/-- `HeapState::init_reserved`. -/
def HeapState.init_reserved (hp : HeapState) (reserved_base size rng : Nat) :
    Option HeapState :=
  if reserved_base = 0 ∨ size = 0 then none
  else some { hp with
    base := reserved_base
    reserved_size := size
    reserved_cursor := 0
    canary := rng
    class_shards := [⟨[], []⟩, ⟨[], []⟩, ⟨[], []⟩] }

/-- `HeapState::alloc_xl` (`raw` is the kernel's address for this mapping). -/
def HeapState.alloc_xl (hp : HeapState) (size raw : Nat) :
    Option Nat × HeapState :=
  if size ≥ SIZE_MAX - 4096 then (none, hp)
  else if size > HEAP_RESERVED_DEFAULT then (none, hp)
  else
    let map_size := align_up (align_up size 16 + XL_HEADER_SIZE) 4096
    let mbase := alloc_segment_base raw
    if mbase = 0 then (none, hp)
    else
      (some (mbase + XL_HEADER_SIZE),
       { hp with xl_hdrs :=
          (xl_write hp.xl_hdrs mbase ⟨XL_MAGIC, map_size, map_size - XL_HEADER_SIZE⟩) })

/-- `HeapState::free_xl` (`none` = returned `false`; unmapping erases the
header). -/
def HeapState.free_xl (hp : HeapState) (ptr : Nat) :
    Option (Nat × HeapState) :=
  if ptr = 0 then none
  else
    match hp.xl_hdrs (ptr - XL_HEADER_SIZE) with
    | none => none
    | some hdr =>
      if hdr.magic ≠ XL_MAGIC then none
      else some (hdr.usable_size,
        { hp with xl_hdrs := xl_erase hp.xl_hdrs (ptr - XL_HEADER_SIZE) })

/-- `HeapState::usable_xl`. -/
def HeapState.usable_xl (hp : HeapState) (ptr : Nat) : Nat :=
  if ptr = 0 then 0
  else
    match hp.xl_hdrs (ptr - XL_HEADER_SIZE) with
    | none => 0
    | some hdr => if hdr.magic ≠ XL_MAGIC then 0 else hdr.usable_size

/-- Outcome of one attempt inside `HeapState::allocate`: the `std::abort`
raised by draining a double free, or a pointer option with the updated heap
and thread cache. -/
inductive TryRes where
  | dfAbort
  | res (ptr : Option Nat) (hp : HeapState) (tc : ThreadCache)

/-- The `try_segment` lambda of `HeapState::allocate`. -/
def HeapState.try_segment (hp : HeapState) (tc : ThreadCache) (kind : page_kind)
    (need seg_idx : Nat) : TryRes :=
  if seg_idx ≥ hp.layout.length then .res none hp tc
  else
    let seg := hp.layout.getD seg_idx Segment.mk0
    if seg.get_size_class ≠ kind then .res none hp tc
    else if seg.can_hold_request need = false then .res none hp tc
    else
      match seg.allocate hp.hdrs need tc.tid with
      | .dfAbort => .dfAbort
      | .fail seg1 =>
        let hp1 := { hp with layout := hp.layout.set seg_idx seg1 }
        let hp2 := if seg1.has_free_pages && seg1.can_hold_request need then
            hp1.enqueue_non_full_segment kind seg_idx else hp1
        .res none hp2 tc
      | .ok ptr pidx seg1 hdrs1 =>
        let hp1 := { hp with layout := hp.layout.set seg_idx seg1, hdrs := hdrs1 }
        let hp2 := if seg1.has_free_pages && seg1.can_hold_request need then
            hp1.enqueue_non_full_segment kind seg_idx else hp1
        let tc1 := if tc.is_active then
            (tc.set_preferred_segment kind seg_idx).cache_page kind (seg_idx, pidx)
          else tc
        .res (some ptr) hp2 tc1

/-- The thread-cached-page fast path of `HeapState::allocate`
(`.res none` is the fall-through to the segment walk). -/
def heap_fast_path (kind : page_kind) (need : Nat) (hp : HeapState)
    (tc : ThreadCache) : TryRes :=
  if tc.is_active = false then .res none hp tc
  else
    match tc.get_cached_page kind with
    | none => .res none hp tc
    | some (si, pi) =>
      let pg := (hp.layout.getD si Segment.mk0).pages.getD pi Page.mk0
      if pg.is_initialized = false then
        .res none hp (tc.clear_cached_page kind (si, pi))
      else
        match pg.allocate (si, pi) hp.hdrs need tc.tid with
        | .dfAbort => .dfAbort
        | .fail pg1 =>
          let seg := hp.layout.getD si Segment.mk0
          .res none { hp with
            layout := hp.layout.set si { seg with pages := seg.pages.set pi pg1 } } tc
        | .ok ptr b a pg1 hdrs1 =>
          let seg := hp.layout.getD si Segment.mk0
          .res (some ptr) { hp with
            layout := hp.layout.set si { seg with pages := seg.pages.set pi pg1 },
            hdrs := hdrs1 } tc

/-- The preferred-segment stage of `HeapState::allocate`. -/
def heap_preferred (kind : page_kind) (need : Nat) (hp : HeapState)
    (tc : ThreadCache) : TryRes :=
  if tc.is_active = false then .res none hp tc
  else
    match tc.get_preferred_segment kind with
    | none => .res none hp tc
    | some pidx => hp.try_segment tc kind need pidx

/-- Pop the front of the class shard's non-full queue
(`shard.non_full_segments.front()` + `pop_front()`). -/
def heap_queue_pop (kind : page_kind) (hp : HeapState) :
    Option (Nat × HeapState) :=
  let ci := class_index_for_kind kind
  let shard := hp.class_shards.getD ci ⟨[], []⟩
  match shard.non_full_segments with
  | [] => none
  | idx :: rest =>
    some (idx, { hp with class_shards :=
      (hp.class_shards.set ci { shard with non_full_segments := rest }) })

/-- `seg->clear_enqueued()` on the segment at `idx`. -/
def heap_clear_enqueued (hp : HeapState) (idx : Nat) : HeapState :=
  { hp with layout :=
    (hp.layout.set idx (hp.layout.getD idx Segment.mk0).clear_enqueued) }

/-- The shard-queue probe loop of `HeapState::allocate` (fuel =
`MAX_QUEUE_PROBES_PER_ALLOC`). -/
def heap_queue_loop (kind : page_kind) (need : Nat) :
    Nat → HeapState → ThreadCache → TryRes
  | 0, hp, tc => .res none hp tc
  | probes + 1, hp, tc =>
    match heap_queue_pop kind hp with
    | none => .res none hp tc
    | some (idx, hp1) =>
      if idx ≥ hp1.layout.length then heap_queue_loop kind need probes hp1 tc
      else if (hp1.layout.getD idx Segment.mk0).get_size_class ≠ kind then
        heap_queue_loop kind need probes hp1 tc
      else
        match (heap_clear_enqueued hp1 idx).try_segment tc kind need idx with
        | .dfAbort => .dfAbort
        | .res (some ptr) hp3 tc3 => .res (some ptr) hp3 tc3
        | .res none hp3 tc3 => heap_queue_loop kind need probes hp3 tc3

/-- The snapshot fallback scan of `HeapState::allocate` (fuel =
`MAX_FALLBACK_SCANS_PER_ALLOC`). -/
def heap_scan_loop (kind : page_kind) (need : Nat) :
    List Nat → Nat → HeapState → ThreadCache → TryRes
  | [], _, hp, tc => .res none hp tc
  | _ :: _, 0, hp, tc => .res none hp tc
  | idx :: rest, scans + 1, hp, tc =>
    match hp.try_segment tc kind need idx with
    | .dfAbort => .dfAbort
    | .res (some ptr) hp1 tc1 => .res (some ptr) hp1 tc1
    | .res none hp1 tc1 => heap_scan_loop kind need rest scans hp1 tc1

/-- `HeapState::allocate`: XL guard and demotion, fast path, preferred
segment, queue probes, snapshot scan, then growth from the reserved region or
a fresh mapping.  `rng`, `raw` and `commit_ok` are the OS/canary oracle inputs
for the at-most-one mapping and commit this call can perform. -/
def HeapState.allocate (hp : HeapState) (tc : ThreadCache) (size : Nat)
    (rng raw : Nat) (commit_ok : Bool) : TryRes :=
  if class_for_size size = PAGE_XL ∧ size > LARGE_PAGE_SIZE - CHUNK_HEADER_SIZE then
    match hp.alloc_xl size raw with
    | (ptr, hp1) => .res ptr hp1 tc
  else
    let kind := if class_for_size size = PAGE_XL then PAGE_LG else class_for_size size
    let need := align_up size 16
    match heap_fast_path kind need hp tc with
    | .dfAbort => .dfAbort
    | .res (some ptr) hp1 tc1 => .res (some ptr) hp1 tc1
    | .res none hp1 tc1 =>
      match heap_preferred kind need hp1 tc1 with
      | .dfAbort => .dfAbort
      | .res (some ptr) hp2 tc2 => .res (some ptr) hp2 tc2
      | .res none hp2 tc2 =>
        match heap_queue_loop kind need MAX_QUEUE_PROBES_PER_ALLOC hp2 tc2 with
        | .dfAbort => .dfAbort
        | .res (some ptr) hp3 tc3 => .res (some ptr) hp3 tc3
        | .res none hp3 tc3 =>
          match heap_scan_loop kind need
              ((hp3.class_shards.getD (class_index_for_kind kind) ⟨[], []⟩).segments)
              MAX_FALLBACK_SCANS_PER_ALLOC hp3 tc3 with
          | .dfAbort => .dfAbort
          | .res (some ptr) hp4 tc4 => .res (some ptr) hp4 tc4
          | .res none hp4 tc4 =>
            match hp4.add_segment_from_reserved_nolock SEGMENT_NORM kind rng
                commit_ok with
            | some hp5 => hp5.try_segment tc4 kind need (hp5.layout.length - 1)
            | none =>
              if alloc_segment_base raw = 0 then .res none hp4 tc4
              else
                match hp4.add_segment_nolock (alloc_segment_base raw) SEGMENT_NORM
                    kind rng with
                | none => .res none hp4 tc4
                | some hp5 => hp5.try_segment tc4 kind need (hp5.layout.length - 1)

/-- The thread-cache bookkeeping at the end of a successful `free_ptr`. -/
def free_tc_update (hp : HeapState) (tc : ThreadCache) (kind : page_kind)
    (pref : Nat × Nat) : ThreadCache :=
  if tc.is_active = false then tc
  else
    let tc1 := tc.cache_page kind pref
    if ((hp.layout.getD pref.1 Segment.mk0).pages.getD pref.2 Page.mk0).status
        = EMPTY then
      tc1.clear_cached_page kind pref
    else tc1

/-- Result of `HeapState::free_ptr`: success with the usable size, `false`
(no matching header), or the `std::abort` on a failed page free. -/
inductive HFreeRes where
  | ok (usable : Nat) (hp : HeapState) (tc : ThreadCache)
  | notFound
  | abort

/-- The miss-on-chunk-path tail of `free_ptr`: try the XL header. -/
def HeapState.free_fallback_xl (hp : HeapState) (tc : ThreadCache) (ptr : Nat) :
    HFreeRes :=
  match hp.free_xl ptr with
  | some (usable, hp1) => .ok usable hp1 tc
  | none => .notFound

/-- `HeapState::free_ptr`. -/
def HeapState.free_ptr (hp : HeapState) (tc : ThreadCache) (ptr : Nat) :
    HFreeRes :=
  if ptr = 0 then .ok 0 hp tc
  else
    match hp.hdrs (ptr - CHUNK_HEADER_SIZE) with
    | some chdr =>
      match chdr.owner with
      | some (si, pi) =>
        if chdr.magic ≠ CHUNK_MAGIC then hp.free_fallback_xl tc ptr
        else if si ≥ hp.layout.length then .notFound
        else
          let seg := hp.layout.getD si Segment.mk0
          let pg := seg.pages.getD pi Page.mk0
          let kind := pg.size_class
          if pg.owner_tid ≠ 0 ∧ pg.owner_tid ≠ tc.tid then
            match pg.enqueue_deferred_free (si, pi) hp.hdrs ptr with
            | .pushed usable pg1 =>
              let hp1 := { hp with layout :=
                (hp.layout.set si { seg with pages := seg.pages.set pi pg1 }) }
              .ok usable hp1 (free_tc_update hp1 tc kind (si, pi))
            | _ =>
              match seg.free_on_page hp.hdrs pi ptr with
              | .dfAbort => .abort
              | .failed _ => .abort
              | .ok usable _ _ seg1 =>
                let hp1 := { hp with layout := hp.layout.set si seg1 }
                .ok usable hp1 (free_tc_update hp1 tc kind (si, pi))
          else
            match seg.free_on_page hp.hdrs pi ptr with
            | .dfAbort => .abort
            | .failed _ => .abort
            | .ok usable before after seg1 =>
              let hp1 := { hp with layout := hp.layout.set si seg1 }
              let hp2 := if before = FULL ∧ after ≠ FULL then
                  hp1.enqueue_non_full_segment kind si else hp1
              .ok usable hp2 (free_tc_update hp2 tc kind (si, pi))
      | none => hp.free_fallback_xl tc ptr
    | none => hp.free_fallback_xl tc ptr

/-- `HeapState::usable_size` (delegating to `Page::usable_size` or
`usable_xl`). -/
def HeapState.usable_size (hp : HeapState) (ptr : Nat) (uaf_check : Bool) :
    SizeRes :=
  if ptr = 0 then .ok 0
  else
    match hp.hdrs (ptr - CHUNK_HEADER_SIZE) with
    | some chdr =>
      match chdr.owner with
      | some (si, pi) =>
        if chdr.magic ≠ CHUNK_MAGIC then .ok (hp.usable_xl ptr)
        else ((hp.layout.getD si Segment.mk0).pages.getD pi Page.mk0).usable_size
          (si, pi) hp.hdrs ptr uaf_check
      | none => .ok (hp.usable_xl ptr)
    | none => .ok (hp.usable_xl ptr)

/-! ### The `zialloc::Allocator` entry points (`part_005`) -/

/-- User byte memory (one `Nat` per byte address). -/
def Mem : Type := Nat → Nat

/-- `std::memset(dst, val, n)`. -/
def memset (m : Mem) (dst val n : Nat) : Mem :=
  fun a => if dst ≤ a ∧ a < dst + n then val else m a

/-- `std::memcpy(dst, src, n)` (the engine only copies between disjoint
chunks). -/
def memcpy (m : Mem) (dst src n : Nat) : Mem :=
  fun a => if dst ≤ a ∧ a < dst + n then m (src + (a - dst)) else m a

/-- The allocator-facing state: the heap, the calling thread's cache, user
byte memory, the `g_initialized` latch, and the `g_uaf_check` toggle
(`g_zero_on_free` only rewrites freed user bytes and stats are not part of
the claims). -/
structure AllocSt where
  heap : HeapState
  tc : ThreadCache
  mem : Mem
  initialized : Bool
  uaf_check : Bool

/-- The OS/canary oracle inputs one allocator entry call may consume:
`reserve_raw` is what `os_reserve_region(100 GiB)` would return during lazy
init, `c1..c3` the three initial segment commits, `rng` the canary draw,
`raw` the raw mmap address for one fresh mapping, `commit_ok` one reserved
commit. -/
structure OSInputs where
  reserve_raw : Nat
  c1 : Bool
  c2 : Bool
  c3 : Bool
  rng : Nat
  raw : Nat
  commit_ok : Bool
deriving Repr

/-- `zialloc_init`: reserve the 100 GiB region, `init_reserved`, then one
small, one medium and one large segment committed out of it. -/
def zialloc_init_heap (reserve_raw rng : Nat) (c1 c2 c3 : Bool) :
    Option HeapState :=
  if reserve_raw = 0 then none
  else
    match HeapState.empty.init_reserved reserve_raw HEAP_RESERVED_DEFAULT rng with
    | none => none
    | some hp0 =>
      match hp0.add_segment_from_reserved_nolock SEGMENT_NORM PAGE_SM rng c1 with
      | none => none
      | some hp1 =>
        match hp1.add_segment_from_reserved_nolock SEGMENT_NORM PAGE_MED rng c2 with
        | none => none
        | some hp2 =>
          hp2.add_segment_from_reserved_nolock SEGMENT_NORM PAGE_LG rng c3

/-- Result of an allocator entry point that may abort the process. -/
inductive MallocRes where
  | ret (ptr : Option Nat) (st : AllocSt)
  | abort

/-- `Allocator::malloc`: argument guards, lazy init, then the heap pipeline. -/
def Allocator.malloc (st : AllocSt) (size : Nat) (os : OSInputs) : MallocRes :=
  if size = 0 then .ret none st
  else if size ≥ SIZE_MAX - 4096 then .ret none st
  else if size > HEAP_RESERVED_DEFAULT then .ret none st
  else
    match (if st.initialized then some st.heap
           else zialloc_init_heap os.reserve_raw os.rng os.c1 os.c2 os.c3) with
    | none => .ret none st
    | some hp0 =>
      match hp0.allocate st.tc size os.rng os.raw os.commit_ok with
      | .dfAbort => .abort
      | .res none hp1 tc1 =>
        .ret none { st with heap := hp1, tc := tc1, initialized := true }
      | .res (some p) hp1 tc1 =>
        .ret (some p) { st with heap := hp1, tc := tc1, initialized := true }

/-- `Allocator::free`: null is a no-op; `IS_HEAP_INITIALIZED` aborts before
init; a ``false`` dispatch aborts. -/
def Allocator.free (st : AllocSt) (ptr : Nat) : MallocRes :=
  if ptr = 0 then .ret none st
  else if st.initialized = false then .abort
  else
    match st.heap.free_ptr st.tc ptr with
    | .ok _ hp1 tc1 => .ret none { st with heap := hp1, tc := tc1 }
    | .notFound => .abort
    | .abort => .abort

/-- `Allocator::realloc`. -/
def Allocator.realloc (st : AllocSt) (ptr size : Nat) (os : OSInputs) :
    MallocRes :=
  if ptr = 0 then Allocator.malloc st size os
  else if st.initialized = false then .abort
  else if size = 0 then
    match Allocator.free st ptr with
    | .abort => .abort
    | .ret _ st1 => .ret none st1
  else
    match st.heap.usable_size ptr st.uaf_check with
    | .uafAbort => .abort
    | .ok old_usable =>
      if old_usable ≥ size then .ret (some ptr) st
      else
        match Allocator.malloc st size os with
        | .abort => .abort
        | .ret none st1 => .ret none st1
        | .ret (some new_ptr) st1 =>
          match Allocator.free
              { st1 with mem := memcpy st1.mem new_ptr ptr old_usable } ptr with
          | .abort => .abort
          | .ret _ st2 => .ret (some new_ptr) st2

/-- `Allocator::calloc`: overflow guard, `malloc`, zero the block.  The
`size_t` product is written with its wraparound even though the guard rules it
out. -/
def Allocator.calloc (st : AllocSt) (nmemb size : Nat) (os : OSInputs) :
    MallocRes :=
  if nmemb ≠ 0 ∧ size > SIZE_MAX / nmemb then .ret none st
  else
    match Allocator.malloc st (nmemb * size % 2 ^ 64) os with
    | .abort => .abort
    | .ret none st1 => .ret none st1
    | .ret (some p) st1 =>
      .ret (some p) { st1 with mem := memset st1.mem p 0 (nmemb * size % 2 ^ 64) }

/-- Heap well-formedness: 16-aligned base, every registered segment
well-formed with its deferred rings below the drain threshold, and every
segment's `seg_idx` back-pointer equal to its position in `layout`. -/
def HeapWF (hp : HeapState) : Prop :=
  16 ∣ hp.base ∧
  (∀ seg ∈ hp.layout, SegWF seg ∧ RingsSmall seg) ∧
  (∀ i, i < hp.layout.length → (hp.layout.getD i Segment.mk0).self_idx = i) ∧
  16 ∣ hp.reserved_cursor

/-- Heap-level guarantee about a freshly returned chunk pointer for the
16-aligned request `need`: aligned, nonzero, with a chunk header just below
it pointing at a registered page that contains the pointer, revalidates the
header, and has the slot marked used. -/
def HeapGood (need ptr : Nat) (hp : HeapState) : Prop :=
  ptr % 16 = 0 ∧ ptr ≠ 0 ∧
  ∃ si pidx slot,
    hp.hdrs (ptr - CHUNK_HEADER_SIZE) = some ⟨some (si, pidx), slot, CHUNK_MAGIC⟩ ∧
    si < hp.layout.length ∧
    need ≤ ((hp.layout.getD si Segment.mk0).pages.getD pidx Page.mk0).chunk_usable ∧
    ((hp.layout.getD si Segment.mk0).pages.getD pidx Page.mk0).contains_ptr ptr
      = true ∧
    ((hp.layout.getD si Segment.mk0).pages.getD pidx Page.mk0).hdr_ok (si, pidx)
      ⟨some (si, pidx), slot, CHUNK_MAGIC⟩ ptr = true ∧
    bit_is_set ((hp.layout.getD si Segment.mk0).pages.getD pidx Page.mk0).used_bitmap
      slot = true

/-- A plain (inactive) thread cache with tid 7, used by the entry-point
witnesses. -/
def tcW : ThreadCache := ⟨7, false, [], []⟩

/-- The heap after the witness XL allocation for C4: the empty heap with one
XL header written at the aligned mapping base. -/
def hpC4W : HeapState := { HeapState.empty with
  xl_hdrs := xl_write xl_empty 134217728 ⟨XL_MAGIC, 20000768, 20000736⟩ }

/-- The heap produced by `zialloc_init` when `os_reserve_region` returns the
page-aligned (but not segment-aligned) address 4096. -/
def hpC3 : HeapState := (zialloc_init_heap 4096 0 true true true).getD
  HeapState.empty

/-- The allocator state for the C5 counterexample: an initialized allocator
whose heap has no registered memory behind the probed pointer. -/
def stC5 : AllocSt :=
  { heap := HeapState.empty, tc := tcW, mem := fun _ => 0,
    initialized := true, uaf_check := false }

/-- OS oracle inputs that provide nothing (no mapping, no commit). -/
def osC5 : OSInputs := ⟨0, false, false, false, 0, 0, false⟩

/-- The witness page for C10: an initialized small page at base 4096 owned by
thread 5, with slot 0 allocated. -/
def pgC10 : Page := { Page.init_fill Page.mk0 4096 PAGE_SM 65552 15 with
  used := 1, used_bitmap := [1], status := ACTIVE, owner_tid := 5 }

/-- The witness segment for C10, holding just `pgC10`. -/
def segC10 : Segment :=
  { base := 4096, size_class := PAGE_SM,
    page_size := page_size_for_kind PAGE_SM, page_count := 1,
    pages := [pgC10], next_candidate_idx := 0, full_pages := 0,
    queued_non_full := false, fixed_chunk_set := true,
    fixed_chunk_usable := 65536, key := 0, canary := 0, self_idx := 0 }

/-- The witness heap for C10: one segment and the slot-0 chunk header. -/
def hpC10 : HeapState := { HeapState.empty with
  base := 4096, num_segments := 1, layout := [segC10],
  seg_kind := [SEGMENT_NORM], seg_bases := [4096], seg_page_kind := [PAGE_SM],
  hdrs := hdr_write hdr_empty 4096 ⟨some (0, 0), 0, CHUNK_MAGIC⟩ }

/-! ### Basic arithmetic facts about the helpers -/

theorem align_up_eval (size alignment : Nat) (ha : 0 < alignment)
    (hlt : size + alignment - 1 < 2 ^ 64) :
    align_up size alignment
      = (size + alignment - 1) - (size + alignment - 1) % alignment := by
  unfold align_up
  rw [Nat.mod_eq_of_lt hlt]

theorem align_up_dvd (size alignment : Nat) : alignment ∣ align_up size alignment := by
  unfold align_up
  set x := (size + alignment - 1) % 2 ^ 64 with hx
  clear hx
  have h := Nat.div_add_mod x alignment
  exact ⟨x / alignment, by omega⟩

theorem align_up_ge (size alignment : Nat) (ha : 0 < alignment)
    (hlt : size + alignment - 1 < 2 ^ 64) : size ≤ align_up size alignment := by
  rw [align_up_eval size alignment ha hlt]
  have h1 : (size + alignment - 1) % alignment < alignment :=
    Nat.mod_lt _ ha
  omega

theorem align_up_le (size alignment : Nat) (ha : 0 < alignment)
    (hlt : size + alignment - 1 < 2 ^ 64) :
    align_up size alignment ≤ size + alignment - 1 := by
  rw [align_up_eval size alignment ha hlt]
  omega

theorem align_up_of_dvd (size alignment : Nat) (ha : 0 < alignment)
    (hd : alignment ∣ size) (hlt : size + alignment - 1 < 2 ^ 64) :
    align_up size alignment = size := by
  rcases hd with ⟨k, rfl⟩
  rw [align_up_eval _ _ ha hlt]
  have h1 : alignment * k + alignment - 1 = (alignment - 1) + alignment * k := by omega
  have h2 : (alignment * k + alignment - 1) % alignment = alignment - 1 := by
    rw [h1, Nat.add_mul_mod_self_left, Nat.mod_eq_of_lt (by omega)]
  omega

theorem log2_aux_eq (fuel : Nat) : ∀ n, n < 2 ^ fuel → log2_aux fuel n = Nat.log2 n := by
  induction fuel with
  | zero =>
    intro n h
    have hz : n = 0 := by omega
    subst hz
    show log2_aux 0 0 = Nat.log2 0
    rw [Nat.log2_zero]
    rfl
  | succ f ih =>
    intro n h
    rw [log2_aux]
    by_cases h2 : 2 ≤ n
    · rw [if_pos h2]
      have hp := pow_succ 2 f
      have hlt2 : n / 2 < 2 ^ f := by omega
      rw [ih (n / 2) hlt2]
      conv_rhs => rw [Nat.log2]
      rw [if_pos h2]
    · rw [if_neg h2]
      conv_rhs => rw [Nat.log2]
      rw [if_neg h2]

theorem log2_64_eq (n : Nat) (h : n < 2 ^ 64) : log2_64 n = Nat.log2 n :=
  log2_aux_eq 64 n h

theorem ceil_pow2_ge (n : Nat) (hn : n ≤ 2 ^ 64) : n ≤ ceil_pow2_at_least_16 n := by
  unfold ceil_pow2_at_least_16
  split
  · omega
  · rw [log2_64_eq (n - 1) (by omega)]
    have h := @Nat.lt_log2_self (n - 1)
    set X := 2 ^ (Nat.log2 (n - 1) + 1) with hX
    omega

theorem log2_aux_ge3 (fuel m : Nat) (hf : 3 ≤ fuel) (hm : 8 ≤ m) :
    3 ≤ log2_aux fuel m := by
  obtain ⟨f, rfl⟩ : ∃ f, fuel = f + 3 := ⟨fuel - 3, by omega⟩
  rw [log2_aux, if_pos (by omega)]
  rw [log2_aux, if_pos (by omega)]
  rw [log2_aux, if_pos (by omega)]
  omega

theorem ceil_pow2_ge16 (n : Nat) : 16 ≤ ceil_pow2_at_least_16 n := by
  unfold ceil_pow2_at_least_16
  split
  · omega
  · have h3 : 3 ≤ log2_64 (n - 1) := log2_aux_ge3 64 (n - 1) (by norm_num) (by omega)
    calc (16 : Nat) = 2 ^ 4 := by norm_num
    _ ≤ 2 ^ (log2_64 (n - 1) + 1) := Nat.pow_le_pow_right (by norm_num) (by omega)

theorem ceil_pow2_le (n k : Nat) (hk : 4 ≤ k) (hk64 : k ≤ 64) (h : n ≤ 2 ^ k) :
    ceil_pow2_at_least_16 n ≤ 2 ^ k := by
  unfold ceil_pow2_at_least_16
  split
  · calc (16 : Nat) = 2 ^ 4 := by norm_num
    _ ≤ 2 ^ k := Nat.pow_le_pow_right (by norm_num) hk
  · rename_i hgt
    have hne : n - 1 ≠ 0 := by omega
    have hlt : n - 1 < 2 ^ k := by omega
    have hk2 : (2 : Nat) ^ k ≤ 2 ^ 64 := Nat.pow_le_pow_right (by norm_num) hk64
    rw [log2_64_eq (n - 1) (by omega)]
    have := (Nat.log2_lt hne).mpr hlt
    exact Nat.pow_le_pow_right (by norm_num) (by omega)

theorem ceil_pow2_dvd16 (n : Nat) (hn : n ≤ 2 ^ 64) : 16 ∣ ceil_pow2_at_least_16 n := by
  unfold ceil_pow2_at_least_16
  split
  · exact ⟨1, rfl⟩
  · rename_i hgt
    have hne : n - 1 ≠ 0 := by omega
    rw [log2_64_eq (n - 1) (by omega)]
    have h3 : 3 ≤ Nat.log2 (n - 1) := (Nat.le_log2 hne).mpr (by omega)
    have h4 : (16 : Nat) = 2 ^ 4 := by norm_num
    rw [h4]
    exact pow_dvd_pow 2 (by omega)

/-- `norm_chunk_req` for the small/medium classes: the normalized request is at
least the request (when the request is within the class threshold), at most the
class threshold, 16-divisible, and at least 16. -/
theorem norm_chunk_req_sm_bounds (req : Nat) (h : req ≤ CHUNK_SM) :
    req ≤ norm_chunk_req PAGE_SM req ∧ norm_chunk_req PAGE_SM req ≤ CHUNK_SM ∧
      16 ∣ norm_chunk_req PAGE_SM req ∧ 16 ≤ norm_chunk_req PAGE_SM req := by
  unfold norm_chunk_req
  simp only [ne_eq, reduceCtorEq, not_false_eq_true, and_true, not_true_eq_false,
    false_and, if_false, if_true, reduceIte]
  set v := if ceil_pow2_at_least_16 req > CHUNK_SM then CHUNK_SM else ceil_pow2_at_least_16 req
    with hv
  have hv16 : 16 ∣ v := by
    rw [hv]; split
    · decide
    · exact ceil_pow2_dvd16 req (by
        have hcs : CHUNK_SM = 524272 := rfl
        omega)
  have hvle : v ≤ CHUNK_SM := by
    rw [hv]; split
    · exact Nat.le_refl _
    · omega
  have hvge : req ≤ v := by
    rw [hv]; split
    · exact h
    · exact ceil_pow2_ge req (by
        have hcs : CHUNK_SM = 524272 := rfl
        omega)
  have hv16' : 16 ≤ v := by
    rw [hv]; split
    · decide
    · exact ceil_pow2_ge16 req
  have haeq : align_up v 16 = v := align_up_of_dvd v 16 (by norm_num) hv16 (by
    have hcs : CHUNK_SM = 524272 := rfl
    omega)
  rw [haeq]
  exact ⟨hvge, hvle, hv16, hv16'⟩

theorem norm_chunk_req_md_bounds (req : Nat) (h : req ≤ CHUNK_MD) :
    req ≤ norm_chunk_req PAGE_MED req ∧ norm_chunk_req PAGE_MED req ≤ CHUNK_MD ∧
      16 ∣ norm_chunk_req PAGE_MED req ∧ 16 ≤ norm_chunk_req PAGE_MED req := by
  unfold norm_chunk_req
  simp only [ne_eq, reduceCtorEq, not_false_eq_true, and_true, not_true_eq_false,
    and_false, if_false, if_true, reduceIte]
  set v := if ceil_pow2_at_least_16 req > CHUNK_MD then CHUNK_MD else ceil_pow2_at_least_16 req
    with hv
  have hv16 : 16 ∣ v := by
    rw [hv]; split
    · decide
    · exact ceil_pow2_dvd16 req (by
        have hcs : CHUNK_MD = 4194288 := rfl
        omega)
  have hvle : v ≤ CHUNK_MD := by
    rw [hv]; split
    · exact Nat.le_refl _
    · omega
  have hvge : req ≤ v := by
    rw [hv]; split
    · exact h
    · exact ceil_pow2_ge req (by
        have hcs : CHUNK_MD = 4194288 := rfl
        omega)
  have hv16' : 16 ≤ v := by
    rw [hv]; split
    · decide
    · exact ceil_pow2_ge16 req
  have haeq : align_up v 16 = v := align_up_of_dvd v 16 (by norm_num) hv16 (by
    have hcs : CHUNK_MD = 4194288 := rfl
    omega)
  rw [haeq]
  exact ⟨hvge, hvle, hv16, hv16'⟩

theorem ctz_aux_spec (fuel : Nat) : ∀ x, x ≠ 0 → x < 2 ^ fuel →
    ctz_aux fuel x < fuel ∧ x.testBit (ctz_aux fuel x) = true ∧
      ∀ j < ctz_aux fuel x, x.testBit j = false := by
  induction fuel with
  | zero =>
    intro x hx hlt
    exact absurd (by omega : x = 0) hx
  | succ f ih =>
    intro x hx hlt
    rw [ctz_aux]
    by_cases hodd : x % 2 = 1
    · rw [if_pos hodd]
      refine ⟨by omega, ?_, by omega⟩
      simp [Nat.testBit_zero, hodd]
    · rw [if_neg hodd]
      have hhalf : x / 2 ≠ 0 := by omega
      have hp := pow_succ 2 f
      have hlt2 : x / 2 < 2 ^ f := by omega
      obtain ⟨hb, h1, h2⟩ := ih (x / 2) hhalf hlt2
      refine ⟨by omega, by rwa [Nat.testBit_add_one], ?_⟩
      intro j hj
      match j with
      | 0 => simp [Nat.testBit_zero]; omega
      | j + 1 =>
        rw [Nat.testBit_add_one]
        exact h2 j (by omega)

theorem ctz_spec (x : Nat) (hx : x ≠ 0) (hlt : x < 2 ^ 64) :
    x.testBit (ctz x) = true ∧ ∀ j < ctz x, x.testBit j = false :=
  (ctz_aux_spec 64 x hx hlt).2

theorem ctz_lt_64 (x : Nat) (hx : x ≠ 0) (hlt : x < 2 ^ 64) : ctz x < 64 :=
  (ctz_aux_spec 64 x hx hlt).1

/-- The word scanned by `Page::allocate` has its lowest clear bit at
`ctz (~word)`; `~word` on `uint64_t` is `MASK64 ^^^ word`. -/
theorem ctz_not_word (w : Nat) (hw : w < 2 ^ 64) (hne : w ≠ MASK64) :
    let b := ctz (MASK64 ^^^ w)
    b < 64 ∧ w.testBit b = false ∧ ∀ j < b, w.testBit j = true := by
  intro b
  have hxne : MASK64 ^^^ w ≠ 0 := by
    intro h0
    exact hne (Nat.xor_eq_zero.mp h0).symm
  have hxlt : MASK64 ^^^ w < 2 ^ 64 := by
    have h1 : MASK64 < 2 ^ 64 := by decide
    exact Nat.lt_of_lt_of_le (Nat.xor_lt_two_pow h1 hw) (Nat.le_refl _)
  have hblt : b < 64 := ctz_lt_64 _ hxne hxlt
  obtain ⟨h1, h2⟩ := ctz_spec _ hxne hxlt
  have hmaskbit : ∀ j, j < 64 → MASK64.testBit j = true := by
    intro j hj
    have he : MASK64.testBit j = decide (j < 64) := Nat.testBit_two_pow_sub_one 64 j
    rw [he]
    exact decide_eq_true hj
  constructor
  · exact hblt
  constructor
  · have := h1
    rw [Nat.testBit_xor, hmaskbit b hblt] at this
    cases hwb : w.testBit b
    · rfl
    · rw [hwb] at this; simp at this
  · intro j hj
    have hjf := h2 j hj
    rw [Nat.testBit_xor, hmaskbit j (by omega)] at hjf
    cases hwb : w.testBit j
    · rw [hwb] at hjf; simp at hjf
    · rfl

/-- A found slot is valid and its bitmap bit is clear. -/
theorem scan_words_found (bm : List Nat) (cap : Nat)
    (hwlt : ∀ w ∈ bm, w < 2 ^ 64) :
    ∀ steps idx slot, scan_words bm cap idx steps = some slot →
      slot < cap ∧ bit_is_set bm slot = false := by
  intro steps
  induction steps with
  | zero => intro idx slot h; exact absurd h (by simp [scan_words])
  | succ n ih =>
    intro idx slot h
    rw [scan_words] at h
    by_cases hmask : bm.getD idx 0 ≠ MASK64
    · rw [if_pos hmask] at h
      by_cases hlt : idx * 64 + ctz (MASK64 ^^^ bm.getD idx 0) < cap
      · rw [if_pos hlt] at h
        rw [Option.some_inj] at h
        subst h
        have hwlt' : bm.getD idx 0 < 2 ^ 64 := by
          rcases Nat.lt_or_ge idx bm.length with hi | hi
          · exact hwlt _ (by
              rw [List.getD_eq_getElem?_getD, List.getElem?_eq_getElem hi]
              exact List.getElem_mem hi)
          · rw [List.getD_eq_getElem?_getD, List.getElem?_eq_none (by omega)]
            norm_num
        obtain ⟨hb, hclear, _⟩ := ctz_not_word (bm.getD idx 0) hwlt' (by
          intro he; exact hmask (by rw [he]))
        refine ⟨hlt, ?_⟩
        unfold bit_is_set
        have hdiv : (idx * 64 + ctz (MASK64 ^^^ bm.getD idx 0)) / 64 = idx := by
          omega
        have hmod : (idx * 64 + ctz (MASK64 ^^^ bm.getD idx 0)) % 64
            = ctz (MASK64 ^^^ bm.getD idx 0) := by
          omega
        rw [hdiv, hmod]
        exact hclear
      · rw [if_neg hlt] at h
        exact ih _ _ h
    · rw [if_neg hmask] at h
      exact ih _ _ h

/-- If the scan fails, every word it visited had all its valid slots set. -/
theorem scan_words_none (bm : List Nat) (cap : Nat)
    (hwlt : ∀ w ∈ bm, w < 2 ^ 64) (hlen : 0 < bm.length) :
    ∀ steps idx, idx < bm.length → scan_words bm cap idx steps = none →
      ∀ t, t < steps → word_full bm cap ((idx + t) % bm.length) := by
  intro steps
  induction steps with
  | zero => intro idx _ _ t ht; omega
  | succ n ih =>
    intro idx hidx hscan t ht
    rw [scan_words] at hscan
    have hwlt' : bm.getD idx 0 < 2 ^ 64 := by
      exact hwlt _ (by
        rw [List.getD_eq_getElem?_getD, List.getElem?_eq_getElem hidx]
        exact List.getElem_mem hidx)
    by_cases hmask : bm.getD idx 0 ≠ MASK64
    · rw [if_pos hmask] at hscan
      by_cases hlt : idx * 64 + ctz (MASK64 ^^^ bm.getD idx 0) < cap
      · rw [if_pos hlt] at hscan
        exact absurd hscan (by simp)
      · rw [if_neg hlt] at hscan
        match t with
        | 0 =>
          rw [Nat.add_zero, Nat.mod_eq_of_lt hidx]
          intro b hb hbcap
          obtain ⟨hblt, hclear, hbelow⟩ := ctz_not_word (bm.getD idx 0) hwlt' (by
            intro he; exact hmask (by rw [he]))
          exact hbelow b (by omega)
        | t + 1 =>
          have h1 := ih ((idx + 1) % bm.length) (Nat.mod_lt _ hlen) hscan t (by omega)
          have h2 : ((idx + 1) % bm.length + t) % bm.length = (idx + (t + 1)) % bm.length := by
            rw [Nat.mod_add_mod]
            ring_nf
          rwa [h2] at h1
    · rw [if_neg hmask] at hscan
      match t with
      | 0 =>
        rw [Nat.add_zero, Nat.mod_eq_of_lt hidx]
        intro b hb hbcap
        have : bm.getD idx 0 = MASK64 := by
          by_contra hc; exact hmask hc
        rw [this]
        have he : MASK64.testBit b = decide (b < 64) := Nat.testBit_two_pow_sub_one 64 b
        rw [he]
        exact decide_eq_true hb
      | t + 1 =>
        have h1 := ih ((idx + 1) % bm.length) (Nat.mod_lt _ hlen) hscan t (by omega)
        have h2 : ((idx + 1) % bm.length + t) % bm.length = (idx + (t + 1)) % bm.length := by
          rw [Nat.mod_add_mod]
          ring_nf
        rwa [h2] at h1

/-- Completeness of the scan: if some valid slot is clear, a full wrap of the
word scan finds a slot. -/
theorem scan_words_complete (bm : List Nat) (cap idx : Nat)
    (hwlt : ∀ w ∈ bm, w < 2 ^ 64) (hlen : 0 < bm.length) (hidx : idx < bm.length)
    (hcap : cap ≤ bm.length * 64)
    (hex : ∃ s, s < cap ∧ bit_is_set bm s = false) :
    scan_words bm cap idx bm.length ≠ none := by
  intro hnone
  obtain ⟨s, hs, hsbit⟩ := hex
  have hall := scan_words_none bm cap hwlt hlen bm.length idx hidx hnone
  have hsw : s / 64 < bm.length := by omega
  have hword : word_full bm cap (s / 64) := by
    set t := (s / 64 + bm.length - idx) % bm.length with htdef
    have htlt : t < bm.length := Nat.mod_lt _ hlen
    have heq : (idx + t) % bm.length = s / 64 := by
      rw [htdef, Nat.add_mod_mod]
      have h3 : idx + (s / 64 + bm.length - idx) = s / 64 + bm.length := by omega
      rw [h3, Nat.add_mod_right]
      exact Nat.mod_eq_of_lt hsw
    have h4 := hall t htlt
    rwa [heq] at h4
  have h5 := hword (s % 64) (Nat.mod_lt _ (by norm_num)) (by omega)
  unfold bit_is_set at hsbit
  rw [h5] at hsbit
  exact Bool.noConfusion hsbit

theorem getD_set_self (l : List Nat) (i v : Nat) (h : i < l.length) :
    (l.set i v).getD i 0 = v := by
  rw [List.getD_eq_getElem?_getD, List.getElem?_set_self h]
  rfl

theorem getD_set_ne (l : List Nat) (i j v : Nat) (h : i ≠ j) :
    (l.set i v).getD j 0 = l.getD j 0 := by
  rw [List.getD_eq_getElem?_getD, List.getElem?_set_ne h, ← List.getD_eq_getElem?_getD]

theorem bit_is_set_bit_set (bm : List Nat) (slot s : Nat)
    (hlen : slot / 64 < bm.length) :
    bit_is_set (bit_set bm slot) s = if s = slot then true else bit_is_set bm s := by
  unfold bit_is_set bit_set
  by_cases hw : s / 64 = slot / 64
  · rw [hw, getD_set_self _ _ _ hlen]
    rw [Nat.shiftLeft_eq, Nat.one_mul, Nat.testBit_or, Nat.testBit_two_pow]
    by_cases hs : s = slot
    · subst hs
      simp
    · have hb : slot % 64 ≠ s % 64 := by omega
      simp [hb, hs, hw]
  · have hs : s ≠ slot := by omega
    rw [getD_set_ne _ _ _ _ (fun he => hw he.symm)]
    simp [hs]

theorem bit_is_set_bit_clear (bm : List Nat) (slot s : Nat)
    (hlen : slot / 64 < bm.length) :
    bit_is_set (bit_clear bm slot) s = if s = slot then false else bit_is_set bm s := by
  unfold bit_is_set bit_clear
  by_cases hw : s / 64 = slot / 64
  · rw [hw, getD_set_self _ _ _ hlen]
    rw [Nat.shiftLeft_eq, Nat.one_mul, Nat.testBit_and, Nat.testBit_xor,
      Nat.testBit_two_pow]
    have hmod : s % 64 < 64 := Nat.mod_lt _ (by norm_num)
    have hmask : MASK64.testBit (s % 64) = true := by
      have he : MASK64.testBit (s % 64) = decide (s % 64 < 64) :=
        Nat.testBit_two_pow_sub_one 64 (s % 64)
      rw [he]; exact decide_eq_true hmod
    by_cases hs : s = slot
    · subst hs
      simp [hmask]
    · have hb : slot % 64 ≠ s % 64 := by omega
      simp [hb, hs, hmask]
  · have hs : s ≠ slot := by omega
    rw [getD_set_ne _ _ _ _ (fun he => hw he.symm)]
    simp [hs]

theorem countP_range_update (cap slot : Nat) (p q : Nat → Bool) (hslot : slot < cap)
    (hagree : ∀ s, s ≠ slot → q s = p s) (hp : p slot = false) (hq : q slot = true) :
    (List.range cap).countP q = (List.range cap).countP p + 1 := by
  induction cap with
  | zero => omega
  | succ n ih =>
    rw [List.range_succ, List.countP_append, List.countP_append]
    by_cases hend : slot = n
    · subst hend
      have hcong : (List.range slot).countP q = (List.range slot).countP p := by
        apply List.countP_congr
        intro x hx
        rw [hagree x (by
          have := List.mem_range.mp hx
          omega)]
      rw [hcong]
      simp [List.countP_cons, hp, hq]
    · have hlt : slot < n := by omega
      rw [ih hlt]
      have hqp : q n = p n := hagree n (fun he => hend he.symm)
      simp [List.countP_cons, hqp]
      omega

theorem set_count_bit_set (bm : List Nat) (cap slot : Nat) (hslot : slot < cap)
    (hlen : slot / 64 < bm.length) (hbit : bit_is_set bm slot = false) :
    set_count (bit_set bm slot) cap = set_count bm cap + 1 := by
  apply countP_range_update cap slot _ _ hslot
  · intro s hs
    rw [bit_is_set_bit_set bm slot s hlen, if_neg hs]
  · exact hbit
  · rw [bit_is_set_bit_set bm slot slot hlen, if_pos rfl]

theorem set_count_bit_clear (bm : List Nat) (cap slot : Nat) (hslot : slot < cap)
    (hlen : slot / 64 < bm.length) (hbit : bit_is_set bm slot = true) :
    set_count bm cap = set_count (bit_clear bm slot) cap + 1 := by
  apply countP_range_update cap slot _ _ hslot
  · intro s hs
    rw [bit_is_set_bit_clear bm slot s hlen, if_neg hs]
  · rw [bit_is_set_bit_clear bm slot slot hlen, if_pos rfl]
  · exact hbit

theorem set_count_full_range (bm : List Nat) :
    set_count bm (bm.length * 64) = bm_popcount bm := by
  induction bm with
  | nil => rfl
  | cons w rest ih =>
    unfold set_count bm_popcount at *
    have hlen : (w :: rest).length * 64 = 64 + rest.length * 64 := by
      simp [List.length_cons]; ring
    rw [hlen, List.range_add, List.countP_append, List.countP_map]
    have h1 : (List.range 64).countP (fun s => bit_is_set (w :: rest) s)
        = (List.range 64).countP (fun b => w.testBit b) := by
      apply List.countP_congr
      intro s hs
      have hs64 : s < 64 := List.mem_range.mp hs
      unfold bit_is_set
      rw [Nat.div_eq_of_lt hs64, Nat.mod_eq_of_lt hs64]
      rfl
    have h2 : (List.range (rest.length * 64)).countP
          ((fun s => bit_is_set (w :: rest) s) ∘ (fun t => 64 + t))
        = (List.range (rest.length * 64)).countP (fun s => bit_is_set rest s) := by
      apply List.countP_congr
      intro t _
      have hbt : bit_is_set (w :: rest) (64 + t) = bit_is_set rest t := by
        unfold bit_is_set
        have hdiv : (64 + t) / 64 = t / 64 + 1 := by omega
        have hmod : (64 + t) % 64 = t % 64 := by omega
        rw [hdiv, hmod]
        rfl
      simp [Function.comp_apply, hbt]
    rw [h1, h2, ih]
    simp [word_popcount]

theorem set_count_eq_popcount (bm : List Nat) (cap : Nat)
    (hcap : cap ≤ bm.length * 64)
    (habove : ∀ s, cap ≤ s → s < bm.length * 64 → bit_is_set bm s = false) :
    set_count bm cap = bm_popcount bm := by
  rw [← set_count_full_range bm]
  unfold set_count
  have hsplit : bm.length * 64 = cap + (bm.length * 64 - cap) := by omega
  rw [hsplit, List.range_add, List.countP_append, List.countP_map]
  have hz : (List.range (bm.length * 64 - cap)).countP
      ((fun s => bit_is_set bm s) ∘ (fun t => cap + t)) = 0 := by
    rw [List.countP_eq_zero]
    intro t ht
    have htlt := List.mem_range.mp ht
    show ¬ (bit_is_set bm (cap + t) = true)
    rw [habove (cap + t) (by omega) (by omega)]
    simp
  rw [hz]
  simp

theorem set_count_le (bm : List Nat) (cap : Nat) : set_count bm cap ≤ cap := by
  unfold set_count
  calc (List.range cap).countP _ ≤ (List.range cap).length := List.countP_le_length _
  _ = cap := List.length_range cap

theorem set_count_replicate_zero (n cap : Nat) :
    set_count (List.replicate n 0) cap = 0 := by
  unfold set_count
  rw [List.countP_eq_zero]
  intro s _
  unfold bit_is_set
  have hz : (List.replicate n (0 : Nat)).getD (s / 64) 0 = 0 := by
    rw [List.getD_eq_getElem?_getD]
    rcases Nat.lt_or_ge (s / 64) n with h | h
    · rw [List.getElem?_replicate_of_lt h]
      rfl
    · rw [List.getElem?_eq_none (by simpa using h)]
      rfl
  simp [hz]

theorem slot_div_lt_words (slot cap : Nat) (hs : slot < cap) :
    slot / 64 < (cap + 63) / 64 := by omega

theorem cap_le_words_mul (cap : Nat) : cap ≤ (cap + 63) / 64 * 64 := by omega

/-- `init_fill` with a positive capacity establishes the invariant. -/
theorem Page.init_fill_inv (pg : Page) (page_base : Nat) (kind : page_kind)
    (stride cap : Nat) (hcap : 0 < cap) :
    PageInvI (pg.init_fill page_base kind stride cap) := by
  constructor <;> simp only [Page.init_fill]
  · exact hcap
  · rw [List.length_replicate]
  · intro w hw
    rw [List.eq_of_mem_replicate hw]
    norm_num
  · intro s _
    unfold bit_is_set
    have hz : (List.replicate ((cap + 63) / 64) (0 : Nat)).getD (s / 64) 0 = 0 := by
      rw [List.getD_eq_getElem?_getD]
      rcases Nat.lt_or_ge (s / 64) ((cap + 63) / 64) with h | h
      · rw [List.getElem?_replicate_of_lt h]
        rfl
      · rw [List.getElem?_eq_none (by simpa using h)]
        rfl
    simp [hz]
  · rw [set_count_replicate_zero]
  · exact hcap
  · intro _; trivial
  · intro h0; omega
  · intro h1 _; omega

/-- `Page::init` establishes the invariant. -/
theorem Page.init_inv (pg : Page) (page_base : Nat) (kind : page_kind) (req : Nat)
    (pg' : Page) (h : pg.init page_base kind req = some pg') : PageInvI pg' := by
  unfold Page.init at h
  split at h
  · exact absurd h (by simp)
  · split at h
    · rw [Option.some_inj] at h
      subst h
      exact Page.init_fill_inv _ _ _ _ _ (by norm_num)
    · split at h
      · exact absurd h (by simp)
      · split at h
        · exact absurd h (by simp)
        · rename_i hcap
          rw [Option.some_inj] at h
          subst h
          refine Page.init_fill_inv _ _ _ _ _ ?_
          rcases Nat.eq_zero_or_pos (page_size_for_kind kind
              / align_up (norm_chunk_req kind req + CHUNK_HEADER_SIZE) 16) with hz | hp
          · exact absurd (Or.inl hz) hcap
          · exact hp

/-- `Page::free_local` success preserves the invariant and decrements `used`. -/
theorem Page.free_local_inv (pg : Page) (self : Nat × Nat) (hdrs : HdrMap) (ptr : Nat)
    (usable : Nat) (b a : page_status) (pg' : Page)
    (hinv : PageInvI pg)
    (h : pg.free_local self hdrs ptr = .ok usable b a pg') :
    PageInvI pg' ∧ pg'.used + 1 = pg.used ∧ pg'.initialized = pg.initialized ∧
      pg'.capacity = pg.capacity ∧ pg'.chunk_usable = pg.chunk_usable ∧
      pg'.base = pg.base ∧ pg'.chunk_stride = pg.chunk_stride ∧
      pg'.page_span = pg.page_span ∧ pg'.size_class = pg.size_class ∧
      pg'.deferred_frees = pg.deferred_frees ∧
      pg'.owner_segment_idx = pg.owner_segment_idx ∧ pg'.owner_tid = pg.owner_tid := by
  unfold Page.free_local at h
  split at h
  · exact absurd h (by simp)
  · split at h
    · exact absurd h (by simp)
    · rename_i hcont hdr heq
      split at h
      · exact absurd h (by simp)
      · rename_i hok
        split at h
        · exact absurd h (by simp)
        · rename_i hbit
          rw [FreeRes.ok.injEq] at h
          obtain ⟨_, _, hst, hpg⟩ := h
          subst hpg
          have hslot : hdr.slot < pg.capacity := by
            unfold Page.hdr_ok at hok
            simp only [Bool.not_eq_false, Bool.and_eq_true, decide_eq_true_eq] at hok
            exact hok.1.2
          have hbitset : bit_is_set pg.used_bitmap hdr.slot = true := by
            revert hbit
            cases bit_is_set pg.used_bitmap hdr.slot <;> simp
          have hwlen : hdr.slot / 64 < pg.used_bitmap.length := by
            rw [hinv.bm_len]
            exact slot_div_lt_words _ _ hslot
          have hcnt := set_count_bit_clear pg.used_bitmap pg.capacity hdr.slot hslot
            hwlen hbitset
          have hused1 : 1 ≤ pg.used := by
            rw [hinv.used_eq]; omega
          refine ⟨?_, by simp only []; omega, rfl, rfl, rfl, rfl, rfl, rfl, rfl, rfl,
            rfl, rfl⟩
          constructor <;> simp only []
          · exact hinv.cap_pos
          · rw [← hinv.bm_len]
            unfold bit_clear
            rw [List.length_set]
          · intro w hw
            unfold bit_clear at hw
            rcases List.mem_or_eq_of_mem_set hw with hmem | heqv
            · exact hinv.words_lt w hmem
            · subst heqv
              calc _ ≤ pg.used_bitmap.getD (hdr.slot / 64) 0 := Nat.and_le_left
              _ < 2 ^ 64 := by
                apply hinv.words_lt
                rw [List.getD_eq_getElem?_getD, List.getElem?_eq_getElem hwlen]
                exact List.getElem_mem hwlen
          · intro s hs
            rw [bit_is_set_bit_clear _ _ _ hwlen]
            split
            · rfl
            · exact hinv.above_clear s hs
          · rw [← hinv.used_eq] at hcnt
            omega
          · split
            · omega
            · exact hinv.hint_lt
          · intro h0
            have h0' : pg.used - 1 = 0 := h0
            show (if pg.used - 1 = 0 then EMPTY else ACTIVE) = EMPTY
            rw [if_pos h0']
          · intro hfull
            have hfull' : pg.used - 1 = pg.capacity := hfull
            have hle2 := set_count_le pg.used_bitmap pg.capacity
            have hue := hinv.used_eq
            have hcp := hinv.cap_pos
            have hF : False := by omega
            exact hF.elim
          · intro hpos hlt
            have hpos' : 0 < pg.used - 1 := hpos
            show (if pg.used - 1 = 0 then EMPTY else ACTIVE) = ACTIVE
            rw [if_neg (by omega)]

/-- Changing only the deferred ring leaves the metadata invariant intact. -/
theorem PageInvI_ring (pg : Page) (l : List Nat) (h : PageInvI pg) :
    PageInvI { pg with deferred_frees := l } :=
  ⟨h.cap_pos, h.bm_len, h.words_lt, h.above_clear, h.used_eq, h.hint_lt,
    h.status_empty, h.status_full, h.status_active⟩

theorem geomEq_refl (pg : Page) : geomEq pg pg :=
  ⟨rfl, rfl, rfl, rfl, rfl, rfl, rfl, rfl⟩

theorem geomEq_trans {pg2 pg1 pg : Page} (h2 : geomEq pg2 pg1) (h1 : geomEq pg1 pg) :
    geomEq pg2 pg := by
  obtain ⟨a1, b1, c1, d1, e1, f1, g1, i1⟩ := h2
  obtain ⟨a2, b2, c2, d2, e2, f2, g2, i2⟩ := h1
  exact ⟨a1.trans a2, b1.trans b2, c1.trans c2, d1.trans d2, e1.trans e2,
    f1.trans f2, g1.trans g2, i1.trans i2⟩

/-- `drain_deferred_locked` preserves the invariant, does not increase `used`,
and leaves the page geometry unchanged. -/
theorem Page.drain_inv (self : Nat × Nat) (hdrs : HdrMap) :
    ∀ (m : Nat) (pg pg0 : Page), PageInvI pg →
      pg.drain_deferred_locked self hdrs m = some pg0 →
      PageInvI pg0 ∧ pg0.used ≤ pg.used ∧ geomEq pg0 pg ∧
        pg0.owner_tid = pg.owner_tid := by
  intro m
  induction m with
  | zero =>
    intro pg pg0 hinv h
    rw [Page.drain_deferred_locked, Option.some_inj] at h
    subst h
    exact ⟨hinv, Nat.le_refl _, geomEq_refl pg, rfl⟩
  | succ n ih =>
    intro pg pg0 hinv h
    rw [Page.drain_deferred_locked] at h
    cases hring : pg.deferred_frees with
    | nil =>
      rw [hring] at h
      rw [Option.some_inj] at h
      subst h
      exact ⟨hinv, Nat.le_refl _, geomEq_refl pg, rfl⟩
    | cons p rest =>
      rw [hring] at h
      dsimp only at h
      have hinv1 : PageInvI { pg with deferred_frees := rest } := PageInvI_ring pg rest hinv
      cases hfl : Page.free_local { pg with deferred_frees := rest } self hdrs p with
      | notOurs =>
        rw [hfl] at h
        obtain ⟨ha, hb, hc, hd⟩ := ih _ _ hinv1 h
        have hb' : pg0.used ≤ pg.used := hb
        have hc' : geomEq pg0 pg := hc
        have hd' : pg0.owner_tid = pg.owner_tid := hd
        exact ⟨ha, hb', hc', hd'⟩
      | dfAbort =>
        rw [hfl] at h
        exact absurd h (by simp)
      | ok u b a pg2 =>
        rw [hfl] at h
        obtain ⟨ha2, hb2, hi2, hcap2, hcu2, hba2, hcs2, hsp2, hsc2, _, hos2, hot2⟩ :=
          Page.free_local_inv _ self hdrs p u b a pg2 hinv1 hfl
        obtain ⟨ha, hb, hc, hd⟩ := ih _ _ ha2 h
        have hb2' : pg2.used + 1 = pg.used := hb2
        have gi : geomEq pg2 pg := ⟨hi2, hcap2, hcu2, hba2, hcs2, hsp2, hsc2, hos2⟩
        have hot2' : pg2.owner_tid = pg.owner_tid := hot2
        exact ⟨ha, by omega, geomEq_trans hc gi, hd.trans hot2'⟩

theorem exists_clear_of_count_lt (bm : List Nat) (cap : Nat)
    (h : set_count bm cap < cap) : ∃ s, s < cap ∧ bit_is_set bm s = false := by
  by_contra hc
  push_neg at hc
  have hall : set_count bm cap = cap := by
    unfold set_count
    have := List.countP_eq_length (p := fun s => bit_is_set bm s)
      (l := List.range cap)
    rw [List.length_range] at this
    rw [this]
    intro a ha
    have h2 := hc a (List.mem_range.mp ha)
    revert h2
    cases bit_is_set bm a <;> simp
  omega

/-- `Page::allocate` returning null preserves the invariant and the geometry. -/
theorem Page.allocate_fail_inv (pg : Page) (self : Nat × Nat) (hdrs : HdrMap)
    (req tid : Nat) (pg1 : Page) (hinv : PageInv pg)
    (h : pg.allocate self hdrs req tid = .fail pg1) :
    PageInv pg1 ∧ geomEq pg1 pg := by
  unfold Page.allocate at h
  split at h
  · rw [AllocRes.fail.injEq] at h
    subst h
    exact ⟨hinv, geomEq_refl pg⟩
  · rename_i hguard
    push_neg at hguard
    obtain ⟨hch, hne⟩ := hguard
    have hinit : pg.initialized = true := by
      revert hch
      unfold Page.can_hold
      cases hi : pg.initialized <;> simp
    have hinvI := hinv hinit
    split at h
    · exact absurd h (by simp)
    · rename_i pg0 hdrain
      have hdx : pg.drain_deferred_locked self hdrs
          (if pg.deferred_frees.length ≥ 32 then 16 else 0) = some pg0 := by
        split
        · rename_i hd32
          rw [if_pos hd32] at hdrain
          exact hdrain
        · rename_i hd32
          rw [if_neg hd32] at hdrain
          rw [Page.drain_deferred_locked]
          exact hdrain
      obtain ⟨hinv0, hused0, hgeom0, _⟩ := Page.drain_inv self hdrs _ pg pg0 hinvI hdx
      obtain ⟨hi0, hc0, hu0, hb0, hs0, hp0, hk0, ho0⟩ := hgeom0
      have hlen0 : ¬ pg0.used_bitmap.length = 0 := by
        rw [hinv0.bm_len]
        have := hinv0.cap_pos
        omega
      have hused : pg.used ≤ pg.capacity := by
        have := set_count_le pg.used_bitmap pg.capacity
        have := hinvI.used_eq
        omega
      have hlt0 : pg0.used < pg0.capacity := by
        rw [hc0]
        omega
      have hcnt0 : set_count pg0.used_bitmap pg0.capacity < pg0.capacity := by
        rw [← hinv0.used_eq]
        exact hlt0
      have hscanne : scan_words pg0.used_bitmap pg0.capacity (pg0.first_hint / 64)
          pg0.used_bitmap.length ≠ none := by
        refine scan_words_complete pg0.used_bitmap pg0.capacity
          (pg0.first_hint / 64) hinv0.words_lt ?_ ?_ ?_ ?_
        · rw [hinv0.bm_len]
          have := hinv0.cap_pos
          omega
        · rw [hinv0.bm_len]
          have := hinv0.hint_lt
          omega
        · rw [hinv0.bm_len]
          exact cap_le_words_mul _
        · exact exists_clear_of_count_lt _ _ hcnt0
      cases hscan : scan_words pg0.used_bitmap pg0.capacity (pg0.first_hint / 64)
          pg0.used_bitmap.length with
      | none => exact absurd hscan hscanne
      | some slot =>
        dsimp only at h
        rw [if_neg hlen0, hscan] at h
        exact absurd h (by simp)

/-- `Page::allocate` success: the invariant is preserved; the returned pointer
is the user pointer of a valid slot whose bit was just set and whose chunk
header was just written; the page geometry is unchanged and covers the
request. -/
theorem Page.allocate_ok_inv (pg : Page) (self : Nat × Nat) (hdrs : HdrMap)
    (req tid : Nat) (ptr : Nat) (b a : page_status) (pg1 : Page) (hdrs1 : HdrMap)
    (hinv : PageInv pg)
    (h : pg.allocate self hdrs req tid = .ok ptr b a pg1 hdrs1) :
    PageInvI pg1 ∧ pg1.initialized = true ∧ geomEq pg1 pg ∧
      req ≤ pg.chunk_usable ∧ pg.initialized = true ∧ a = pg1.status ∧
      ∃ slot, slot < pg.capacity ∧ ptr = pg.slot_user_ptr slot ∧
        hdrs1 = hdr_write hdrs (pg.slot_header_addr slot) ⟨some self, slot, CHUNK_MAGIC⟩ ∧
        bit_is_set pg1.used_bitmap slot = true := by
  unfold Page.allocate at h
  split at h
  · exact absurd h (by simp)
  · rename_i hguard
    push_neg at hguard
    obtain ⟨hch, hne⟩ := hguard
    have hinit : pg.initialized = true := by
      revert hch
      unfold Page.can_hold
      cases hi : pg.initialized <;> simp
    have hreq : req ≤ pg.chunk_usable := by
      revert hch
      unfold Page.can_hold
      rw [hinit]
      simp
    have hinvI := hinv hinit
    split at h
    · exact absurd h (by simp)
    · rename_i pg0 hdrain
      have hdx : pg.drain_deferred_locked self hdrs
          (if pg.deferred_frees.length ≥ 32 then 16 else 0) = some pg0 := by
        split
        · rename_i hd32
          rw [if_pos hd32] at hdrain
          exact hdrain
        · rename_i hd32
          rw [if_neg hd32] at hdrain
          rw [Page.drain_deferred_locked]
          exact hdrain
      obtain ⟨hinv0, hused0, hgeom0, _⟩ := Page.drain_inv self hdrs _ pg pg0 hinvI hdx
      obtain ⟨hi0, hc0, hu0, hb0, hs0, hp0, hk0, ho0⟩ := hgeom0
      have hlen0 : ¬ pg0.used_bitmap.length = 0 := by
        rw [hinv0.bm_len]
        have := hinv0.cap_pos
        omega
      cases hscan : scan_words pg0.used_bitmap pg0.capacity (pg0.first_hint / 64)
          pg0.used_bitmap.length with
      | none =>
        dsimp only at h
        rw [if_neg hlen0, hscan] at h
        exact absurd h (by simp)
      | some slot =>
        dsimp only at h
        rw [if_neg hlen0, hscan] at h
        obtain ⟨hslot, hclear⟩ :=
          scan_words_found pg0.used_bitmap pg0.capacity hinv0.words_lt _ _ _ hscan
        have hwlen : slot / 64 < pg0.used_bitmap.length := by
          rw [hinv0.bm_len]
          exact slot_div_lt_words _ _ hslot
        rw [AllocRes.ok.injEq] at h
        obtain ⟨hptr, hbe, hae, hpg, hhd⟩ := h
        have hcnt := set_count_bit_set pg0.used_bitmap pg0.capacity slot hslot
          hwlen hclear
        refine ⟨?_, ?_, ?_, hreq, hinit, ?_, slot, ?_, ?_, ?_, ?_⟩
        · subst hpg
          constructor <;> simp only []
          · exact hinv0.cap_pos
          · rw [← hinv0.bm_len]
            unfold bit_set
            rw [List.length_set]
          · intro w hw
            unfold bit_set at hw
            rcases List.mem_or_eq_of_mem_set hw with hmem | heqv
            · exact hinv0.words_lt w hmem
            · subst heqv
              apply Nat.or_lt_two_pow
              · apply hinv0.words_lt
                rw [List.getD_eq_getElem?_getD, List.getElem?_eq_getElem hwlen]
                exact List.getElem_mem hwlen
              · rw [Nat.shiftLeft_eq, Nat.one_mul]
                have hm : slot % 64 < 64 := Nat.mod_lt _ (by norm_num)
                exact Nat.pow_lt_pow_right (by norm_num) hm
          · intro s hs
            rw [bit_is_set_bit_set _ _ _ hwlen]
            rw [if_neg (by omega)]
            exact hinv0.above_clear s hs
          · rw [hcnt, ← hinv0.used_eq]
          · exact hslot
          · intro h0
            omega
          · intro hfullc
            have hfullc' : pg0.used + 1 = pg0.capacity := hfullc
            show (if pg0.used + 1 = pg0.capacity then FULL else ACTIVE) = FULL
            rw [if_pos hfullc']
          · intro hpos hltc
            have hltc' : pg0.used + 1 < pg0.capacity := hltc
            show (if pg0.used + 1 = pg0.capacity then FULL else ACTIVE) = ACTIVE
            rw [if_neg (by omega)]
        · subst hpg
          show pg0.initialized = true
          exact hi0.trans hinit
        · subst hpg
          exact ⟨hi0, hc0, hu0, hb0, hs0, hp0, hk0, ho0⟩
        · subst hpg
          exact hae.symm
        · rw [← hc0]
          exact hslot
        · rw [← hptr]
          unfold Page.slot_user_ptr Page.slot_header_addr
          rw [hb0, hs0]
        · rw [← hhd]
          unfold Page.slot_header_addr
          rw [hb0, hs0]
        · subst hpg
          show bit_is_set (bit_set pg0.used_bitmap slot) slot = true
          rw [bit_is_set_bit_set _ _ _ hwlen, if_pos rfl]

/-- Characterization of `Page::init` for the small/medium classes on an
in-threshold request: it succeeds, the stride is the normalized request plus
the header, and the capacity is at least 2. -/
theorem Page.init_smmd_spec (pg : Page) (page_base req : Nat) (kind : page_kind)
    (hk : kind = PAGE_SM ∨ kind = PAGE_MED) (hb : page_base ≠ 0) (hr : 0 < req)
    (hthr : req ≤ if kind = PAGE_SM then CHUNK_SM else CHUNK_MD) :
    pg.init page_base kind req
      = some (pg.init_fill page_base kind (norm_chunk_req kind req + CHUNK_HEADER_SIZE)
          (page_size_for_kind kind / (norm_chunk_req kind req + CHUNK_HEADER_SIZE))) ∧
    2 ≤ page_size_for_kind kind / (norm_chunk_req kind req + CHUNK_HEADER_SIZE) ∧
    req ≤ norm_chunk_req kind req := by
  have hbounds : req ≤ norm_chunk_req kind req ∧
      norm_chunk_req kind req ≤ (if kind = PAGE_SM then CHUNK_SM else CHUNK_MD) ∧
      16 ∣ norm_chunk_req kind req ∧ 16 ≤ norm_chunk_req kind req := by
    rcases hk with hk | hk
    · subst hk
      rw [if_pos rfl] at hthr ⊢
      exact norm_chunk_req_sm_bounds req hthr
    · subst hk
      rw [if_neg (by simp)] at hthr ⊢
      exact norm_chunk_req_md_bounds req hthr
  obtain ⟨hge, hle, hdvd, h16⟩ := hbounds
  have hlgne : kind ≠ PAGE_LG := by
    rcases hk with hk | hk <;> subst hk <;> simp
  have hthr_num : norm_chunk_req kind req ≤ CHUNK_MD := by
    rcases hk with hk | hk <;> subst hk <;> simp_all [CHUNK_SM, CHUNK_MD] <;> omega
  have hstride : align_up (norm_chunk_req kind req + CHUNK_HEADER_SIZE) 16
      = norm_chunk_req kind req + CHUNK_HEADER_SIZE := by
    apply align_up_of_dvd _ _ (by norm_num)
    · have : CHUNK_HEADER_SIZE = 16 := rfl
      rw [this]
      exact Nat.dvd_add hdvd (Nat.dvd_refl 16)
    · have : CHUNK_HEADER_SIZE = 16 := rfl
      have : CHUNK_MD = 4194288 := rfl
      simp [CHUNK_HEADER_SIZE]
      omega
  have hstride_pos : 0 < norm_chunk_req kind req + CHUNK_HEADER_SIZE := by
    have : CHUNK_HEADER_SIZE = 16 := rfl
    omega
  have hcap2 : 2 ≤ page_size_for_kind kind / (norm_chunk_req kind req + CHUNK_HEADER_SIZE) := by
    rw [Nat.le_div_iff_mul_le hstride_pos]
    have hh : CHUNK_HEADER_SIZE = 16 := rfl
    rcases hk with hk | hk <;> subst hk
    · have h1 : norm_chunk_req PAGE_SM req ≤ CHUNK_SM := by
        have := hle; simpa using this
      have h2 : CHUNK_SM = 524272 := rfl
      have h3 : page_size_for_kind PAGE_SM = 1048576 := rfl
      omega
    · have h1 : norm_chunk_req PAGE_MED req ≤ CHUNK_MD := by
        have := hle; simpa using this
      have h2 : CHUNK_MD = 4194288 := rfl
      have h3 : page_size_for_kind PAGE_MED = 8388608 := rfl
      omega
  have hcap_small : page_size_for_kind kind / (norm_chunk_req kind req + CHUNK_HEADER_SIZE)
      ≤ 2 ^ 32 - 1 := by
    calc _ ≤ page_size_for_kind kind := Nat.div_le_self _ _
    _ ≤ 2 ^ 32 - 1 := by
      rcases hk with hk | hk <;> subst hk <;> norm_num [page_size_for_kind, page_kind_size,
        SMALL_PAGE_SIZE, MEDIUM_PAGE_SIZE, SMALL_PAGE_SHIFT, MEDIUM_PAGE_SHIFT]
  refine ⟨?_, hcap2, hge⟩
  have hguard : ¬ (page_size_for_kind kind
        / (norm_chunk_req kind req + CHUNK_HEADER_SIZE) = 0
      ∨ page_size_for_kind kind
        / (norm_chunk_req kind req + CHUNK_HEADER_SIZE) > 2 ^ 32 - 1) := by
    rintro (h0 | hgt)
    · omega
    · omega
  unfold Page.init
  rw [if_neg (by omega), if_neg hlgne, hstride, if_neg (by omega), if_neg hguard]

/-- C2: a small-class or medium-class request within its class threshold
initializes a page with capacity at least 2. -/
theorem claim_C2_page_capacity_two (pg : Page) (page_base req : Nat)
    (kind : page_kind) (pg' : Page)
    (hk : kind = PAGE_SM ∨ kind = PAGE_MED) (hr : 0 < req)
    (hthr : req ≤ if kind = PAGE_SM then CHUNK_SM else CHUNK_MD)
    (h : pg.init page_base kind req = some pg') : 2 ≤ pg'.capacity := by
  have hb : page_base ≠ 0 := by
    intro hb0
    unfold Page.init at h
    rw [if_pos (Or.inl hb0)] at h
    exact absurd h (by simp)
  obtain ⟨heq, hcap2, _⟩ := Page.init_smmd_spec pg page_base req kind hk hb hr hthr
  rw [heq, Option.some_inj] at h
  subst h
  exact hcap2

/-- Witness for C2: a 40000-byte small-class request yields a page with 15
chunks. -/
theorem claim_C2_page_capacity_two_witness :
    2 ≤ (Page.init_fill Page.mk0 4096 PAGE_SM 65552 15).capacity :=
  claim_C2_page_capacity_two Page.mk0 4096 40000 PAGE_SM
    (Page.init_fill Page.mk0 4096 PAGE_SM 65552 15)
    (Or.inl rfl) (by norm_num) (by decide) (by rfl)

/-- C8: a free that passes the chunk-header validation but finds the slot's
bitmap bit already clear is a double free, and `free_local` aborts. -/
theorem claim_C8_double_free_aborts (pg : Page) (self : Nat × Nat) (hdrs : HdrMap)
    (ptr : Nat) (hc : ChunkHeader)
    (hread : hdrs (ptr - CHUNK_HEADER_SIZE) = some hc)
    (hcont : pg.contains_ptr ptr = true)
    (hok : pg.hdr_ok self hc ptr = true)
    (hbit : bit_is_set pg.used_bitmap hc.slot = false) :
    pg.free_local self hdrs ptr = .dfAbort := by
  unfold Page.free_local
  rw [if_neg (by rw [hcont]; simp), hread]
  dsimp only
  rw [if_neg (by rw [hok]; simp)]
  rw [if_pos hbit]

/-- Witness for C8: freeing slot 0 of `pageW` (bit clear) aborts. -/
theorem claim_C8_double_free_aborts_witness :
    pageW.free_local (0, 0) hdrsW 4112 = .dfAbort :=
  claim_C8_double_free_aborts pageW (0, 0) hdrsW 4112 ⟨some (0, 0), 0, CHUNK_MAGIC⟩
    (by rfl) (by decide) (by decide) (by decide)

/-- A successful `free_local` starts from an initialized page. -/
theorem Page.free_local_ok_init (pg : Page) (self : Nat × Nat) (hdrs : HdrMap)
    (ptr u : Nat) (b a : page_status) (pg' : Page)
    (h : pg.free_local self hdrs ptr = .ok u b a pg') : pg.initialized = true := by
  unfold Page.free_local at h
  split at h
  · exact absurd h (by simp)
  · rename_i hcont
    unfold Page.contains_ptr at hcont
    revert hcont
    cases pg.initialized <;> simp

theorem Page.step_inv (pg : Page) (self : Nat × Nat) (op : PageOp) (pg' : Page)
    (hinv : PageInv pg) (h : pg.step self op = some pg') : PageInv pg' := by
  cases op with
  | opInit page_base kind req =>
    cases hi : pg.init page_base kind req with
    | some pg2 =>
      simp only [Page.step, hi] at h
      rw [Option.some_inj] at h
      subst h
      exact fun _ => Page.init_inv pg page_base kind req pg2 hi
    | none =>
      simp only [Page.step, hi] at h
      rw [Option.some_inj] at h
      subst h
      exact hinv
  | opAlloc hdrs req tid =>
    cases ha : pg.allocate self hdrs req tid with
    | dfAbort =>
      simp only [Page.step, ha] at h
      exact absurd h (by simp)
    | fail pg2 =>
      simp only [Page.step, ha] at h
      rw [Option.some_inj] at h
      subst h
      exact (Page.allocate_fail_inv pg self hdrs req tid pg2 hinv ha).1
    | ok ptr b a pg2 hdrs2 =>
      simp only [Page.step, ha] at h
      rw [Option.some_inj] at h
      subst h
      exact fun _ => (Page.allocate_ok_inv pg self hdrs req tid ptr b a pg2 hdrs2 hinv ha).1
  | opFree hdrs ptr =>
    cases hf : pg.free_local self hdrs ptr with
    | dfAbort =>
      simp only [Page.step, hf] at h
      exact absurd h (by simp)
    | notOurs =>
      simp only [Page.step, hf] at h
      rw [Option.some_inj] at h
      subst h
      exact hinv
    | ok u b a pg2 =>
      simp only [Page.step, hf] at h
      rw [Option.some_inj] at h
      subst h
      have hinit := Page.free_local_ok_init pg self hdrs ptr u b a pg2 hf
      exact fun _ => (Page.free_local_inv pg self hdrs ptr u b a pg2 (hinv hinit) hf).1

theorem Page.run_inv (self : Nat × Nat) :
    ∀ (ops : List PageOp) (pg pg' : Page), PageInv pg →
      Page.run pg self ops = some pg' → PageInv pg' := by
  intro ops
  induction ops with
  | nil =>
    intro pg pg' hinv h
    rw [Page.run, Option.some_inj] at h
    subst h
    exact hinv
  | cons op rest ih =>
    intro pg pg' hinv h
    rw [Page.run] at h
    cases hs : pg.step self op with
    | none => rw [hs] at h; exact absurd h (by simp)
    | some pg2 =>
      rw [hs] at h
      exact ih pg2 pg' (Page.step_inv pg self op pg2 hinv hs) h

/-- C9: every sequence of page operations (`init`, `allocate`, `free_local`)
that reaches a lock-release boundary preserves the page invariant: on an
initialized page, `used` equals the popcount of `used_bitmap`, and the status
is `EMPTY` when `used == 0`, `FULL` when `used == capacity`, `ACTIVE`
otherwise. -/
theorem claim_C9_page_invariant (pg : Page) (self : Nat × Nat) (ops : List PageOp)
    (pg' : Page) (hinv : PageInv pg) (hrun : Page.run pg self ops = some pg') :
    PageInv pg' ∧ (pg'.initialized = true →
      pg'.used = bm_popcount pg'.used_bitmap ∧
      (pg'.used = 0 → pg'.status = EMPTY) ∧
      (pg'.used = pg'.capacity → pg'.status = FULL) ∧
      (0 < pg'.used → pg'.used < pg'.capacity → pg'.status = ACTIVE)) := by
  have hinv' := Page.run_inv self ops pg pg' hinv hrun
  refine ⟨hinv', ?_⟩
  intro hinit
  have hI := hinv' hinit
  refine ⟨?_, hI.status_empty, hI.status_full, hI.status_active⟩
  rw [hI.used_eq]
  apply set_count_eq_popcount
  · rw [hI.bm_len]
    exact cap_le_words_mul _
  · intro s hs _
    exact hI.above_clear s hs

/-- Witness for C9 on a concrete init/allocate/free sequence. -/
theorem claim_C9_page_invariant_witness :
    PageInv pageW9 ∧ (pageW9.initialized = true →
      pageW9.used = bm_popcount pageW9.used_bitmap ∧
      (pageW9.used = 0 → pageW9.status = EMPTY) ∧
      (pageW9.used = pageW9.capacity → pageW9.status = FULL) ∧
      (0 < pageW9.used → pageW9.used < pageW9.capacity → pageW9.status = ACTIVE)) :=
  claim_C9_page_invariant Page.mk0 (0, 0)
    [PageOp.opInit 4096 PAGE_SM 40000, PageOp.opAlloc hdr_empty 40000 7,
      PageOp.opFree hdrsW 4112]
    pageW9 (fun hfalse => absurd hfalse (by decide)) (by rfl)

/-! ### Deferred frees (claim C10) -/

/-- Exact shape of a successful `free_local`. -/
theorem Page.free_local_ok_shape (pg : Page) (self : Nat × Nat) (hdrs : HdrMap)
    (ptr u : Nat) (b a : page_status) (pg' : Page)
    (h : pg.free_local self hdrs ptr = .ok u b a pg') :
    ∃ hc, hdrs (ptr - CHUNK_HEADER_SIZE) = some hc ∧
      pg.contains_ptr ptr = true ∧ pg.hdr_ok self hc ptr = true ∧
      bit_is_set pg.used_bitmap hc.slot = true ∧
      u = pg.chunk_usable ∧ b = pg.status ∧
      a = (if pg.used - 1 = 0 then EMPTY else ACTIVE) ∧
      pg' = { pg with
        used_bitmap := bit_clear pg.used_bitmap hc.slot,
        used := pg.used - 1,
        first_hint := if hc.slot < pg.first_hint then hc.slot else pg.first_hint,
        status := if pg.used - 1 = 0 then EMPTY else ACTIVE } := by
  unfold Page.free_local at h
  split at h
  · exact absurd h (by simp)
  · rename_i hcont
    split at h
    · exact absurd h (by simp)
    · rename_i hopt hc hread
      split at h
      · exact absurd h (by simp)
      · rename_i hok
        split at h
        · exact absurd h (by simp)
        · rename_i hbit
          rw [FreeRes.ok.injEq] at h
          obtain ⟨h1, h2, h3, h4⟩ := h
          refine ⟨hc, hread, ?_, ?_, ?_, h1.symm, h2.symm, h3.symm, h4.symm⟩
          · revert hcont
            cases pg.contains_ptr ptr <;> simp
          · revert hok
            cases pg.hdr_ok self hc ptr <;> simp
          · revert hbit
            cases bit_is_set pg.used_bitmap hc.slot <;> simp

/-- `free_local` on a pointer with a valid header does not return `false`. -/
theorem Page.free_local_valid_not_notOurs (pg : Page) (self : Nat × Nat)
    (hdrs : HdrMap) (ptr : Nat) (hc : ChunkHeader)
    (hread : hdrs (ptr - CHUNK_HEADER_SIZE) = some hc)
    (hcont : pg.contains_ptr ptr = true) (hok : pg.hdr_ok self hc ptr = true) :
    pg.free_local self hdrs ptr ≠ .notOurs := by
  unfold Page.free_local
  rw [if_neg (by rw [hcont]; simp), hread]
  dsimp only
  rw [if_neg (by rw [hok]; simp)]
  split <;> simp

/-- Exact shape of a successful deferred-free enqueue: the usable size is
reported and the only change to the page is the ring extension — the used
count, the bitmap and the status are untouched. -/
theorem Page.enqueue_pushed_shape (pg : Page) (self : Nat × Nat) (hdrs : HdrMap)
    (ptr u : Nat) (pg' : Page)
    (h : pg.enqueue_deferred_free self hdrs ptr = .pushed u pg') :
    u = pg.chunk_usable ∧
      pg' = { pg with deferred_frees := pg.deferred_frees ++ [ptr] } ∧
      pg.deferred_frees.length < RING_CAP ∧
      pg.contains_ptr ptr = true ∧ pg.validate_header self hdrs ptr = true := by
  unfold Page.enqueue_deferred_free at h
  split at h
  · exact absurd h (by simp)
  · rename_i hcont
    split at h
    · exact absurd h (by simp)
    · rename_i hval
      split at h
      · rename_i hlen
        rw [EnqRes.pushed.injEq] at h
        obtain ⟨h1, h2⟩ := h
        refine ⟨h1.symm, h2.symm, hlen, ?_, ?_⟩
        · revert hcont
          cases pg.contains_ptr ptr <;> simp
        · revert hval
          cases pg.validate_header self hdrs ptr <;> simp
      · exact absurd h (by simp)

/-- `free_local` never sets a bitmap bit. -/
theorem Page.free_local_bit_mono (pg : Page) (self : Nat × Nat) (hdrs : HdrMap)
    (ptr u : Nat) (b a : page_status) (pg' : Page) (t : Nat)
    (h : pg.free_local self hdrs ptr = .ok u b a pg')
    (ht : bit_is_set pg.used_bitmap t = false) :
    bit_is_set pg'.used_bitmap t = false := by
  obtain ⟨hc, _, _, _, hbit, _, _, _, hpg⟩ := Page.free_local_ok_shape _ _ _ _ _ _ _ _ h
  subst hpg
  show bit_is_set (bit_clear pg.used_bitmap hc.slot) t = false
  have hwlen : hc.slot / 64 < pg.used_bitmap.length := by
    by_contra hge
    push_neg at hge
    unfold bit_is_set at hbit
    rw [List.getD_eq_getElem?_getD, List.getElem?_eq_none (by omega)] at hbit
    simp at hbit
  rw [bit_is_set_bit_clear _ _ _ hwlen]
  split
  · rfl
  · exact ht

/-- Geometry facts used to transport header validity across a drain. -/
theorem Page.free_local_ok_geom (pg : Page) (self : Nat × Nat) (hdrs : HdrMap)
    (ptr u : Nat) (b a : page_status) (pg' : Page)
    (h : pg.free_local self hdrs ptr = .ok u b a pg') :
    pg'.capacity = pg.capacity ∧ pg'.base = pg.base ∧
      pg'.chunk_stride = pg.chunk_stride ∧ pg'.page_span = pg.page_span ∧
      pg'.initialized = pg.initialized ∧ pg'.deferred_frees = pg.deferred_frees := by
  obtain ⟨hc, _, _, _, _, _, _, _, hpg⟩ := Page.free_local_ok_shape _ _ _ _ _ _ _ _ h
  subst hpg
  exact ⟨rfl, rfl, rfl, rfl, rfl, rfl⟩

/-- Header validity (`contains_ptr` plus `hdr_ok`) only depends on the page
geometry, so it transports along `free_local`. -/
theorem Page.hdr_ok_geom (pg pg2 : Page) (self : Nat × Nat) (hc : ChunkHeader)
    (ptr : Nat)
    (hcap : pg2.capacity = pg.capacity) (hbase : pg2.base = pg.base)
    (hstr : pg2.chunk_stride = pg.chunk_stride) (hspan : pg2.page_span = pg.page_span)
    (hini : pg2.initialized = pg.initialized)
    (hcont : pg.contains_ptr ptr = true) (hok : pg.hdr_ok self hc ptr = true) :
    pg2.contains_ptr ptr = true ∧ pg2.hdr_ok self hc ptr = true := by
  constructor
  · unfold Page.contains_ptr at hcont ⊢
    rw [hini, hbase, hspan]
    exact hcont
  · unfold Page.hdr_ok Page.slot_user_ptr Page.slot_header_addr at hok ⊢
    rw [hcap, hbase, hstr]
    exact hok

/-- Draining the ring clears the bitmap bit of every validly-enqueued pointer
among the drained batch (and never sets any bit). -/
theorem Page.drain_clears (self : Nat × Nat) (hdrs : HdrMap) :
    ∀ (m : Nat) (pg pg2 : Page),
      pg.drain_deferred_locked self hdrs m = some pg2 →
      (∀ t, bit_is_set pg.used_bitmap t = false → bit_is_set pg2.used_bitmap t = false) ∧
      (pg2.capacity = pg.capacity ∧ pg2.base = pg.base ∧
        pg2.chunk_stride = pg.chunk_stride ∧ pg2.page_span = pg.page_span ∧
        pg2.initialized = pg.initialized) ∧
      (∀ ptr hc, ptr ∈ pg.deferred_frees.take m →
        hdrs (ptr - CHUNK_HEADER_SIZE) = some hc →
        pg.contains_ptr ptr = true → pg.hdr_ok self hc ptr = true →
        bit_is_set pg2.used_bitmap hc.slot = false) := by
  intro m
  induction m with
  | zero =>
    intro pg pg2 h
    rw [Page.drain_deferred_locked, Option.some_inj] at h
    subst h
    exact ⟨fun t ht => ht, ⟨rfl, rfl, rfl, rfl, rfl⟩, by simp⟩
  | succ n ih =>
    intro pg pg2 h
    rw [Page.drain_deferred_locked] at h
    cases hring : pg.deferred_frees with
    | nil =>
      rw [hring] at h
      rw [Option.some_inj] at h
      subst h
      refine ⟨fun t ht => ht, ⟨rfl, rfl, rfl, rfl, rfl⟩, ?_⟩
      intro ptr hc hmem
      simp at hmem
    | cons p rest =>
      rw [hring] at h
      dsimp only at h
      cases hfl : Page.free_local { pg with deferred_frees := rest } self hdrs p with
      | dfAbort =>
        rw [hfl] at h
        exact absurd h (by simp)
      | notOurs =>
        rw [hfl] at h
        obtain ⟨hmono, hgeom, hclrs⟩ := ih _ _ h
        refine ⟨hmono, hgeom, ?_⟩
        intro ptr hc hmem hread hcont hok
        rw [List.take_succ_cons] at hmem
        have hcont1 : Page.contains_ptr { pg with deferred_frees := rest } ptr = true :=
          hcont
        have hok1 : Page.hdr_ok { pg with deferred_frees := rest } self hc ptr = true :=
          hok
        rcases List.mem_cons.mp hmem with hp | hmem'
        · subst hp
          exact absurd hfl
            (Page.free_local_valid_not_notOurs _ self hdrs ptr hc hread hcont1 hok1)
        · exact hclrs ptr hc hmem' hread hcont1 hok1
      | ok u b a pgf =>
        rw [hfl] at h
        obtain ⟨hmono, hgeom, hclrs⟩ := ih _ _ h
        obtain ⟨gcap, gbase, gstr, gspan, gini, gring⟩ :=
          Page.free_local_ok_geom _ self hdrs p u b a pgf hfl
        have gcap' : pgf.capacity = pg.capacity := gcap
        have gbase' : pgf.base = pg.base := gbase
        have gstr' : pgf.chunk_stride = pg.chunk_stride := gstr
        have gspan' : pgf.page_span = pg.page_span := gspan
        have gini' : pgf.initialized = pg.initialized := gini
        refine ⟨?_, ?_, ?_⟩
        · intro t ht
          exact hmono t (Page.free_local_bit_mono _ self hdrs p u b a pgf t hfl ht)
        · obtain ⟨c2, b2, s2, p2, i2⟩ := hgeom
          exact ⟨c2.trans gcap', b2.trans gbase', s2.trans gstr', p2.trans gspan',
            i2.trans gini'⟩
        · intro ptr hc hmem hread hcont hok
          rw [List.take_succ_cons] at hmem
          have hcont1 : Page.contains_ptr { pg with deferred_frees := rest } ptr = true :=
            hcont
          have hok1 : Page.hdr_ok { pg with deferred_frees := rest } self hc ptr = true :=
            hok
          rcases List.mem_cons.mp hmem with hp | hmem'
          · subst hp
            obtain ⟨hc2, hread2, hcont2, hok2, hbit2, hu2, hb2, ha2, hpgf⟩ :=
              Page.free_local_ok_shape _ self hdrs ptr u b a pgf hfl
            have hceq : hc2 = hc := by
              rw [hread] at hread2
              exact (Option.some_inj.mp hread2).symm
            subst hceq
            apply hmono
            have hbitset : bit_is_set pg.used_bitmap hc2.slot = true := hbit2
            have hwlen : hc2.slot / 64 < pg.used_bitmap.length := by
              by_contra hge
              push_neg at hge
              unfold bit_is_set at hbitset
              rw [List.getD_eq_getElem?_getD, List.getElem?_eq_none (by omega)] at hbitset
              simp at hbitset
            rw [hpgf]
            show bit_is_set
              (bit_clear ({ pg with deferred_frees := rest } : Page).used_bitmap hc2.slot)
              hc2.slot = false
            have hwlen' : hc2.slot / 64
                < ({ pg with deferred_frees := rest } : Page).used_bitmap.length := hwlen
            rw [bit_is_set_bit_clear _ _ _ hwlen', if_pos rfl]
          · have hgeo2 := Page.hdr_ok_geom ({ pg with deferred_frees := rest }) pgf self
              hc ptr gcap gbase gstr gspan gini hcont1 hok1
            have hmem2 : ptr ∈ pgf.deferred_frees.take n := by
              rw [gring]
              exact hmem'
            exact hclrs ptr hc hmem2 hread hgeo2.1 hgeo2.2

theorem page_kind_size_dvd16 (kind : page_kind) : 16 ∣ page_kind_size kind := by
  cases kind <;> decide

theorem page_kind_size_pos (kind : page_kind) : 0 < page_kind_size kind := by
  cases kind <;> decide

theorem seg_page_count_pos (kind : page_kind) : 0 < SEGMENT_SIZE / page_kind_size kind := by
  cases kind <;> decide

/-- `Page::init` establishes the geometry when called on a 16-aligned base. -/
theorem Page.init_geom (pg : Page) (page_base : Nat) (kind : page_kind) (req : Nat)
    (pg' : Page) (hb16 : 16 ∣ page_base)
    (h : pg.init page_base kind req = some pg') : PageGeom pg' := by
  unfold Page.init at h
  split at h
  · exact absurd h (by simp)
  · rename_i hguard
    split at h
    · rename_i hlg
      rw [Option.some_inj] at h
      subst h
      intro _
      subst hlg
      refine ⟨hb16, fun hb0 => hguard (Or.inl hb0), ?_, rfl, ?_⟩
      · show (16 : Nat) ∣ page_size_for_kind PAGE_LG
        exact page_kind_size_dvd16 PAGE_LG
      · show 1 * page_size_for_kind PAGE_LG ≤ page_size_for_kind PAGE_LG
        omega
    · split at h
      · exact absurd h (by simp)
      · split at h
        · exact absurd h (by simp)
        · rw [Option.some_inj] at h
          subst h
          intro _
          exact ⟨hb16, fun hb0 => hguard (Or.inl hb0), align_up_dvd _ 16, rfl,
            Nat.div_mul_le_self _ _⟩

/-- Geometry transports along the geometry-preserving operations. -/
theorem geomEq_geom (pg1 pg : Page) (he : geomEq pg1 pg) (hg : PageGeom pg) :
    PageGeom pg1 := by
  intro hinit
  obtain ⟨a, b, c, d, e, f, _, _⟩ := he
  obtain ⟨g1, g2, g3, g4, g5⟩ := hg (by rw [← a, hinit])
  rw [b, c, d, e, f]
  exact ⟨g1, g2, g3, g4, g5⟩

theorem Segment.init_wf (segment_base : Nat) (kind : page_kind) (seg_idx rng : Nat)
    (seg : Segment) (hb16 : 16 ∣ segment_base)
    (h : Segment.init segment_base kind seg_idx rng = some seg) :
    SegWF seg ∧ RingsSmall seg ∧ seg.self_idx = seg_idx ∧ seg.size_class = kind ∧
      seg.base = segment_base ∧ seg.fixed_chunk_set = false ∧
      seg.next_candidate_idx = 0 ∧ seg.page_count = SEGMENT_SIZE / page_kind_size kind ∧
      seg.pages = List.replicate seg.page_count { Page.mk0 with owner_segment_idx := seg_idx } := by
  unfold Segment.init at h
  split at h
  · exact absurd h (by simp)
  · rename_i hb0
    dsimp only at h
    split at h
    · exact absurd h (by simp)
    · rw [Option.some_inj] at h
      subst h
      refine ⟨⟨hb16, hb0, rfl, ?_, ?_, ?_⟩, ?_, rfl, rfl, rfl, rfl, rfl, rfl, rfl⟩
      · exact seg_page_count_pos kind
      · rw [List.length_replicate]
      · intro pg hpg
        rw [List.eq_of_mem_replicate hpg]
        constructor
        · intro hinit
          exact Bool.noConfusion (show (false : Bool) = true from hinit)
        · intro hinit
          exact Bool.noConfusion (show (false : Bool) = true from hinit)
      · intro pg hpg
        rw [List.eq_of_mem_replicate hpg]
        show ([] : List Nat).length < 32
        decide

theorem getD_mem {α : Type} (l : List α) (idx : Nat) (d : α) (h : idx < l.length) :
    l.getD idx d ∈ l := by
  have he : l.getD idx d = l[idx] := by
    rw [List.getD_eq_getElem?_getD, List.getElem?_eq_getElem h]
    rfl
  rw [he]
  exact List.getElem_mem h

theorem getD_set_self_pg (l : List Page) (i : Nat) (v d : Page) (h : i < l.length) :
    (l.set i v).getD i d = v := by
  rw [List.getD_eq_getElem?_getD, List.getElem?_set_self h]
  rfl

/-- Replacing a page by a well-formed page keeps the segment well-formed. -/
theorem SegWF_set (seg : Segment) (idx : Nat) (pg : Page) (hwf : SegWF seg)
    (hg : PageGeom pg) (hi : PageInv pg) :
    SegWF { seg with pages := seg.pages.set idx pg } := by
  obtain ⟨a, b, c, d, e, f⟩ := hwf
  refine ⟨a, b, c, d, ?_, ?_⟩
  · show (seg.pages.set idx pg).length = seg.page_count
    rw [List.length_set]
    exact e
  · intro p hp
    rcases List.mem_or_eq_of_mem_set hp with hmem | heq
    · exact f p hmem
    · subst heq
      exact ⟨hg, hi⟩

theorem RingsSmall_set (seg : Segment) (idx : Nat) (pg : Page) (hr : RingsSmall seg)
    (hpg : pg.deferred_frees.length < 32) :
    RingsSmall { seg with pages := seg.pages.set idx pg } := by
  intro p hp
  rcases List.mem_or_eq_of_mem_set hp with hmem | heq
  · exact hr p hmem
  · subst heq
    exact hpg

/-- A page returned by `Page::init` is initialized, and `init` does not touch
the deferred ring. -/
theorem Page.init_initialized (pg : Page) (page_base : Nat) (kind : page_kind)
    (req : Nat) (pg' : Page) (h : pg.init page_base kind req = some pg') :
    pg'.initialized = true ∧ pg'.deferred_frees = pg.deferred_frees := by
  unfold Page.init at h
  split at h
  · exact absurd h (by simp)
  · split at h
    · rw [Option.some_inj] at h
      subst h
      exact ⟨rfl, rfl⟩
    · split at h
      · exact absurd h (by simp)
      · split at h
        · exact absurd h (by simp)
        · rw [Option.some_inj] at h
          subst h
          exact ⟨rfl, rfl⟩

/-- `Page::retune_if_empty` keeps the page geometrically well-formed. -/
theorem Page.retune_spec (pg : Page) (req : Nat) (pg2 : Page) (hg : PageGeom pg)
    (h : pg.retune_if_empty req = some pg2) :
    PageGeom pg2 ∧ PageInv pg2 ∧ pg2.initialized = true ∧
      pg2.deferred_frees = pg.deferred_frees := by
  unfold Page.retune_if_empty at h
  split at h
  · exact absurd h (by simp)
  · rename_i hinit
    split at h
    · exact absurd h (by simp)
    · split at h
      · exact absurd h (by simp)
      · have hinit' : pg.initialized = true := by
          cases hI : pg.initialized
          · exact absurd hI hinit
          · rfl
        obtain ⟨h16, _, _, _, _⟩ := hg hinit'
        obtain ⟨hii, hdf⟩ := Page.init_initialized _ _ _ _ _ h
        exact ⟨Page.init_geom _ _ _ _ _ h16 h, fun _ => Page.init_inv _ _ _ _ _ h,
          hii, hdf⟩

/-- With a deferred ring below the drain threshold, `Page::allocate` never
drains: it cannot abort and it leaves the deferred ring unchanged. -/
theorem Page.allocate_ring (pg : Page) (self : Nat × Nat) (hdrs : HdrMap)
    (req tid : Nat) (hring : pg.deferred_frees.length < 32) :
    (∀ pg1, pg.allocate self hdrs req tid = .fail pg1 →
      pg1.deferred_frees = pg.deferred_frees) ∧
    (∀ ptr b a pg1 hdrs1, pg.allocate self hdrs req tid = .ok ptr b a pg1 hdrs1 →
      pg1.deferred_frees = pg.deferred_frees) ∧
    pg.allocate self hdrs req tid ≠ .dfAbort := by
  refine ⟨?_, ?_, ?_⟩
  · intro pg1 h
    unfold Page.allocate at h
    split at h
    · rw [AllocRes.fail.injEq] at h
      subst h
      rfl
    · rw [if_neg (by omega)] at h
      dsimp only at h
      split at h
      · rw [AllocRes.fail.injEq] at h
        subst h
        rfl
      · cases hscan : scan_words pg.used_bitmap pg.capacity (pg.first_hint / 64)
            pg.used_bitmap.length with
        | none =>
          rw [hscan] at h
          rw [AllocRes.fail.injEq] at h
          subst h
          rfl
        | some slot =>
          rw [hscan] at h
          exact absurd h (by simp)
  · intro ptr b a pg1 hdrs1 h
    unfold Page.allocate at h
    split at h
    · exact absurd h (by simp)
    · rw [if_neg (by omega)] at h
      dsimp only at h
      split at h
      · exact absurd h (by simp)
      · cases hscan : scan_words pg.used_bitmap pg.capacity (pg.first_hint / 64)
            pg.used_bitmap.length with
        | none =>
          rw [hscan] at h
          exact absurd h (by simp)
        | some slot =>
          rw [hscan] at h
          rw [AllocRes.ok.injEq] at h
          obtain ⟨_, _, _, hpg, _⟩ := h
          subst hpg
          rfl
  · intro h
    unfold Page.allocate at h
    split at h
    · exact absurd h (by simp)
    · rw [if_neg (by omega)] at h
      dsimp only at h
      split at h
      · exact absurd h (by simp)
      · cases hscan : scan_words pg.used_bitmap pg.capacity (pg.first_hint / 64)
            pg.used_bitmap.length with
        | none =>
          rw [hscan] at h
          exact absurd h (by simp)
        | some slot =>
          rw [hscan] at h
          exact absurd h (by simp)

/-- The lazy-init block preserves segment well-formedness and hands back a
well-formed initialized page; the identifying scalar fields are untouched. -/
theorem seg_init_phase_wf (seg : Segment) (idx req : Nat) (pgA : Page)
    (segA : Segment) (hwf : SegWF seg) (hidx : idx < seg.page_count)
    (h : seg_init_phase seg idx req = some (pgA, segA)) :
    SegWF segA ∧ PageGeom pgA ∧ PageInv pgA ∧ pgA.initialized = true ∧
      segA.self_idx = seg.self_idx ∧ segA.size_class = seg.size_class ∧
      segA.base = seg.base ∧ segA.page_count = seg.page_count ∧
      (RingsSmall seg → RingsSmall segA ∧ pgA.deferred_frees.length < 32) := by
  have hidx' : idx < seg.pages.length := by
    rw [hwf.2.2.2.2.1]
    exact hidx
  unfold seg_init_phase at h
  dsimp only at h
  split at h
  · rename_i hini
    rw [Option.some_inj, Prod.mk.injEq] at h
    obtain ⟨h1, h2⟩ := h
    subst h1
    subst h2
    have hmem := getD_mem seg.pages idx Page.mk0 hidx'
    obtain ⟨hg, hi⟩ := hwf.2.2.2.2.2 _ hmem
    exact ⟨hwf, hg, hi, hini, rfl, rfl, rfl, rfl, fun hr => ⟨hr, hr _ hmem⟩⟩
  · cases hinit : Page.init (seg.pages.getD idx Page.mk0)
        (seg.base + idx * seg.page_size) seg.size_class
        (if seg.size_class ≠ PAGE_LG ∧ seg.fixed_chunk_set then
          seg.fixed_chunk_usable else req) with
    | none =>
      rw [hinit] at h
      exact absurd h (by simp)
    | some pinit =>
      rw [hinit] at h
      dsimp only at h
      have hb16' : 16 ∣ seg.base + idx * seg.page_size := by
        apply Nat.dvd_add hwf.1
        apply Dvd.dvd.mul_left _ idx
        rw [hwf.2.2.1]
        exact page_kind_size_dvd16 _
      have hg := Page.init_geom _ _ _ _ _ hb16' hinit
      have hi : PageInv pinit := fun _ => Page.init_inv _ _ _ _ _ hinit
      obtain ⟨hii, hdf⟩ := Page.init_initialized _ _ _ _ _ hinit
      have hmem := getD_mem seg.pages idx Page.mk0 hidx'
      have hringp : RingsSmall seg → pinit.deferred_frees.length < 32 := by
        intro hr
        rw [hdf]
        exact hr _ hmem
      split at h
      · rw [Option.some_inj, Prod.mk.injEq] at h
        obtain ⟨h1, h2⟩ := h
        subst h1
        subst h2
        refine ⟨?_, hg, hi, hii, rfl, rfl, rfl, rfl, fun hr => ⟨?_, hringp hr⟩⟩
        · exact SegWF_set seg idx pinit hwf hg hi
        · exact RingsSmall_set seg idx pinit hr (hringp hr)
      · rw [Option.some_inj, Prod.mk.injEq] at h
        obtain ⟨h1, h2⟩ := h
        subst h1
        subst h2
        refine ⟨?_, hg, hi, hii, rfl, rfl, rfl, rfl, fun hr => ⟨?_, hringp hr⟩⟩
        · exact SegWF_set seg idx pinit hwf hg hi
        · exact RingsSmall_set seg idx pinit hr (hringp hr)

/-- The fit/retune block preserves segment well-formedness; when it says to
proceed, the page can hold the request. -/
theorem seg_fit_phase_wf (pgA : Page) (segA : Segment) (idx req : Nat)
    (pgB : Page) (segB : Segment) (proceed : Bool)
    (hwf : SegWF segA) (hg : PageGeom pgA) (hi : PageInv pgA)
    (h : seg_fit_phase pgA segA idx req = (pgB, segB, proceed)) :
    SegWF segB ∧ PageGeom pgB ∧ PageInv pgB ∧
      segB.self_idx = segA.self_idx ∧ segB.size_class = segA.size_class ∧
      segB.base = segA.base ∧ segB.page_count = segA.page_count ∧
      (proceed = true → pgB.can_hold req = true) ∧
      (pgA.deferred_frees.length < 32 → pgB.deferred_frees.length < 32) ∧
      (RingsSmall segA → pgA.deferred_frees.length < 32 → RingsSmall segB) := by
  unfold seg_fit_phase at h
  split at h
  · rename_i hch
    rw [Prod.mk.injEq, Prod.mk.injEq] at h
    obtain ⟨h1, h2, h3⟩ := h
    subst h1
    subst h2
    subst h3
    exact ⟨hwf, hg, hi, rfl, rfl, rfl, rfl, fun _ => hch, fun hr => hr,
      fun hr _ => hr⟩
  · rename_i hch
    split at h
    · rw [Prod.mk.injEq, Prod.mk.injEq] at h
      obtain ⟨h1, h2, h3⟩ := h
      subst h1
      subst h2
      subst h3
      exact ⟨hwf, hg, hi, rfl, rfl, rfl, rfl,
        fun hfalse => Bool.noConfusion (show (false : Bool) = true from hfalse),
        fun hr => hr, fun hr _ => hr⟩
    · cases hrt : pgA.retune_if_empty req with
      | none =>
        rw [hrt] at h
        rw [Prod.mk.injEq, Prod.mk.injEq] at h
        obtain ⟨h1, h2, h3⟩ := h
        subst h1
        subst h2
        subst h3
        exact ⟨hwf, hg, hi, rfl, rfl, rfl, rfl,
          fun hfalse => Bool.noConfusion (show (false : Bool) = true from hfalse),
          fun hr => hr, fun hr _ => hr⟩
      | some pg2 =>
        rw [hrt] at h
        rw [Prod.mk.injEq, Prod.mk.injEq] at h
        obtain ⟨h1, h2, h3⟩ := h
        subst h1
        subst h2
        subst h3
        obtain ⟨hg2, hi2, _, hdf2⟩ := Page.retune_spec pgA req pg2 hg hrt
        refine ⟨SegWF_set segA idx pg2 hwf hg2 hi2, hg2, hi2, rfl, rfl, rfl, rfl,
          fun hp => hp, ?_, ?_⟩
        · intro hra
          rw [hdf2]
          exact hra
        · intro hr hra
          apply RingsSmall_set segA idx pg2 hr
          rw [hdf2]
          exact hra

/-- The successful page-allocation step of the segment loop: the updated
segment stays well-formed and the returned pointer satisfies `GoodAlloc`. -/
theorem seg_alloc_core (segB : Segment) (pgB pgs : Page) (idx req tid ptr : Nat)
    (hdrs hdrs1 : HdrMap) (b a : page_status)
    (hwfB : SegWF segB) (hrB : RingsSmall segB) (hidxB : idx < segB.page_count)
    (hgB : PageGeom pgB) (hiB : PageInv pgB)
    (hringB : pgB.deferred_frees.length < 32) (hreq : 0 < req)
    (hal : pgB.allocate (segB.self_idx, idx) hdrs req tid = .ok ptr b a pgs hdrs1) :
    SegWF { segB with pages := segB.pages.set idx pgs } ∧
    RingsSmall { segB with pages := segB.pages.set idx pgs } ∧
    GoodAlloc segB.self_idx req ptr idx (segB.pages.set idx pgs) hdrs hdrs1 := by
  obtain ⟨hinvs, his, hge, hreqle, hib, hast, slot, hslot, hptr, hhd, hbit⟩ :=
    Page.allocate_ok_inv pgB _ hdrs req tid ptr b a pgs hdrs1 hiB hal
  obtain ⟨hge1, hge2, hge3, hge4, hge5, hge6, hge7, hge8⟩ := hge
  obtain ⟨g16b, gb0, g16s, gus, gcap⟩ := hgB hib
  have hrpg : pgs.deferred_frees = pgB.deferred_frees :=
    (Page.allocate_ring pgB _ hdrs req tid hringB).2.1 ptr b a pgs hdrs1 hal
  have hch : CHUNK_HEADER_SIZE = 16 := rfl
  have hstride : 17 ≤ pgB.chunk_stride := by
    omega
  have hptr' : ptr = pgB.base + slot * pgB.chunk_stride + CHUNK_HEADER_SIZE := hptr
  obtain ⟨x, hx⟩ := g16b
  obtain ⟨y, hy⟩ := g16s
  have hmul : slot * pgB.chunk_stride = 16 * (slot * y) := by
    rw [hy]
    ring
  have hlenB : segB.pages.length = segB.page_count := hwfB.2.2.2.2.1
  have hgd : (segB.pages.set idx pgs).getD idx Page.mk0 = pgs :=
    getD_set_self_pg _ _ _ _ (by rw [hlenB]; exact hidxB)
  have hsucc : (slot + 1) * pgB.chunk_stride ≤ pgB.capacity * pgB.chunk_stride :=
    Nat.mul_le_mul_right _ hslot
  have hexp : (slot + 1) * pgB.chunk_stride
      = slot * pgB.chunk_stride + pgB.chunk_stride := by
    ring
  refine ⟨SegWF_set segB idx pgs hwfB (geomEq_geom pgs pgB
      ⟨hge1, hge2, hge3, hge4, hge5, hge6, hge7, hge8⟩ hgB) (fun _ => hinvs),
    RingsSmall_set segB idx pgs hrB (by rw [hrpg]; exact hringB),
    ?_, ?_, ?_, slot, ?_, ?_, ?_, ?_, ?_⟩
  · omega
  · omega
  · rw [List.length_set, hlenB]
    exact hidxB
  · have haddr : ptr - CHUNK_HEADER_SIZE = pgB.slot_header_addr slot := by
      have h2 : pgB.slot_header_addr slot = pgB.base + slot * pgB.chunk_stride := rfl
      omega
    rw [haddr]
    exact hhd
  · rw [hgd, hge3]
    exact hreqle
  · rw [hgd]
    unfold Page.contains_ptr
    simp only [Bool.and_eq_true, decide_eq_true_eq]
    refine ⟨⟨⟨his, ?_⟩, ?_⟩, ?_⟩
    · omega
    · rw [hge4]
      omega
    · rw [hge4, hge6]
      omega
  · rw [hgd]
    unfold Page.hdr_ok
    simp only [Bool.and_eq_true, decide_eq_true_eq]
    refine ⟨⟨⟨trivial, trivial⟩, ?_⟩, ?_⟩
    · rw [hge2]
      exact hslot
    · unfold Page.slot_user_ptr Page.slot_header_addr
      rw [hge4, hge5]
      exact hptr'.symm
  · rw [hgd]
    exact hbit

/-- The `Segment::allocate` page walk, from any starting step and with any
fuel: with every deferred ring below the drain threshold it never aborts, it
preserves segment well-formedness, and on success the returned pointer
satisfies `GoodAlloc`. -/
theorem seg_alloc_loop_spec (req tid start : Nat) (hreq : 0 < req) :
    ∀ (fuel step : Nat) (seg : Segment) (hdrs : HdrMap), SegWF seg → RingsSmall seg →
      seg_alloc_loop req tid start step fuel seg hdrs ≠ .dfAbort ∧
      (∀ seg1, seg_alloc_loop req tid start step fuel seg hdrs = .fail seg1 →
        SegWF seg1 ∧ RingsSmall seg1 ∧ seg1.self_idx = seg.self_idx ∧
          seg1.size_class = seg.size_class ∧ seg1.base = seg.base ∧
          seg1.page_count = seg.page_count) ∧
      (∀ ptr pidx seg1 hdrs1,
        seg_alloc_loop req tid start step fuel seg hdrs = .ok ptr pidx seg1 hdrs1 →
        SegWF seg1 ∧ RingsSmall seg1 ∧ seg1.self_idx = seg.self_idx ∧
          seg1.size_class = seg.size_class ∧ seg1.base = seg.base ∧
          seg1.page_count = seg.page_count ∧
          GoodAlloc seg.self_idx req ptr pidx seg1.pages hdrs hdrs1) := by
  intro fuel
  induction fuel with
  | zero =>
    intro step seg hdrs hwf hr
    refine ⟨?_, ?_, ?_⟩
    · intro h
      rw [seg_alloc_loop] at h
      exact SegAllocRes.noConfusion h
    · intro seg1 h
      rw [seg_alloc_loop, SegAllocRes.fail.injEq] at h
      subst h
      exact ⟨hwf, hr, rfl, rfl, rfl, rfl⟩
    · intro ptr pidx seg1 hdrs1 h
      rw [seg_alloc_loop] at h
      exact SegAllocRes.noConfusion h
  | succ fuel ih =>
    intro step seg hdrs hwf hr
    have hpc : 0 < seg.page_count := hwf.2.2.2.1
    have hidx : (start + step) % seg.page_count < seg.page_count := Nat.mod_lt _ hpc
    cases hip : seg_init_phase seg ((start + step) % seg.page_count) req with
    | none =>
      have heq : seg_alloc_loop req tid start step (fuel + 1) seg hdrs
          = seg_alloc_loop req tid start (step + 1) fuel seg hdrs := by
        rw [seg_alloc_loop]
        simp only [hip]
      rw [heq]
      exact ih (step + 1) seg hdrs hwf hr
    | some pr =>
      cases pr with
      | mk pgA segA =>
        obtain ⟨hwfA, hgA, hiA, hiiA, hsiA, hscA, hbA, hpcA, hringsA⟩ :=
          seg_init_phase_wf seg _ req pgA segA hwf hidx hip
        obtain ⟨hrA, hringA⟩ := hringsA hr
        cases hfp : seg_fit_phase pgA segA ((start + step) % seg.page_count) req with
        | mk pgB rest =>
          cases rest with
          | mk segB proceed =>
            obtain ⟨hwfB, hgB, hiB, hsiB, hscB, hbB, hpcB, hcanB, hringf, hrf⟩ :=
              seg_fit_phase_wf pgA segA _ req pgB segB proceed hwfA hgA hiA hfp
            have hringB := hringf hringA
            have hrB := hrf hrA hringA
            cases proceed with
            | false =>
              have heq : seg_alloc_loop req tid start step (fuel + 1) seg hdrs
                  = seg_alloc_loop req tid start (step + 1) fuel segB hdrs := by
                rw [seg_alloc_loop]
                simp only [hip, hfp, reduceIte]
              rw [heq]
              obtain ⟨hna, hfail, hok⟩ := ih (step + 1) segB hdrs hwfB hrB
              refine ⟨hna, ?_, ?_⟩
              · intro seg1 h1
                obtain ⟨w1, r1, e1, e2, e3, e4⟩ := hfail seg1 h1
                exact ⟨w1, r1, e1.trans (hsiB.trans hsiA), e2.trans (hscB.trans hscA),
                  e3.trans (hbB.trans hbA), e4.trans (hpcB.trans hpcA)⟩
              · intro ptr pidx seg1 hdrs1 h1
                obtain ⟨w1, r1, e1, e2, e3, e4, g1⟩ := hok ptr pidx seg1 hdrs1 h1
                rw [hsiB, hsiA] at g1
                exact ⟨w1, r1, e1.trans (hsiB.trans hsiA), e2.trans (hscB.trans hscA),
                  e3.trans (hbB.trans hbA), e4.trans (hpcB.trans hpcA), g1⟩
            | true =>
              cases hal : pgB.allocate (segB.self_idx, (start + step) % seg.page_count)
                  hdrs req tid with
              | dfAbort =>
                exact absurd hal (Page.allocate_ring pgB _ hdrs req tid hringB).2.2
              | fail pgf =>
                obtain ⟨hif, hgef⟩ :=
                  Page.allocate_fail_inv pgB _ hdrs req tid pgf hiB hal
                have hdff : pgf.deferred_frees = pgB.deferred_frees :=
                  (Page.allocate_ring pgB _ hdrs req tid hringB).1 pgf hal
                have hwfC : SegWF { segB with
                    pages := segB.pages.set ((start + step) % seg.page_count) pgf } :=
                  SegWF_set segB _ pgf hwfB (geomEq_geom pgf pgB hgef hgB) hif
                have hrC : RingsSmall { segB with
                    pages := segB.pages.set ((start + step) % seg.page_count) pgf } :=
                  RingsSmall_set segB _ pgf hrB (by rw [hdff]; exact hringB)
                have heq : seg_alloc_loop req tid start step (fuel + 1) seg hdrs
                    = seg_alloc_loop req tid start (step + 1) fuel { segB with
                      pages := segB.pages.set ((start + step) % seg.page_count) pgf }
                      hdrs := by
                  rw [seg_alloc_loop]
                  simp only [hip, hfp, hal, Bool.true_eq_false, if_false]
                rw [heq]
                obtain ⟨hna, hfail, hok⟩ := ih (step + 1) _ hdrs hwfC hrC
                refine ⟨hna, ?_, ?_⟩
                · intro seg1 h1
                  obtain ⟨w1, r1, e1, e2, e3, e4⟩ := hfail seg1 h1
                  have e1' : seg1.self_idx = segB.self_idx := e1
                  have e2' : seg1.size_class = segB.size_class := e2
                  have e3' : seg1.base = segB.base := e3
                  have e4' : seg1.page_count = segB.page_count := e4
                  exact ⟨w1, r1, e1'.trans (hsiB.trans hsiA),
                    e2'.trans (hscB.trans hscA), e3'.trans (hbB.trans hbA),
                    e4'.trans (hpcB.trans hpcA)⟩
                · intro ptr pidx seg1 hdrs1 h1
                  obtain ⟨w1, r1, e1, e2, e3, e4, g1⟩ := hok ptr pidx seg1 hdrs1 h1
                  have e1' : seg1.self_idx = segB.self_idx := e1
                  have e2' : seg1.size_class = segB.size_class := e2
                  have e3' : seg1.base = segB.base := e3
                  have e4' : seg1.page_count = segB.page_count := e4
                  have g1' : GoodAlloc segB.self_idx req ptr pidx seg1.pages hdrs hdrs1 := g1
                  rw [hsiB, hsiA] at g1'
                  exact ⟨w1, r1, e1'.trans (hsiB.trans hsiA),
                    e2'.trans (hscB.trans hscA), e3'.trans (hbB.trans hbA),
                    e4'.trans (hpcB.trans hpcA), g1'⟩
              | ok ptr0 b a pgs hdrs0 =>
                have hidxB : (start + step) % seg.page_count < segB.page_count := by
                  rw [hpcB, hpcA]
                  exact hidx
                obtain ⟨hwfE0, hrE0, hgood0⟩ :=
                  seg_alloc_core segB pgB pgs ((start + step) % seg.page_count) req tid
                    ptr0 hdrs hdrs0 b a hwfB hrB hidxB hgB hiB hringB hreq hal
                have hgood1 : GoodAlloc seg.self_idx req ptr0
                    ((start + step) % seg.page_count)
                    (segB.pages.set ((start + step) % seg.page_count) pgs) hdrs hdrs0 := by
                  rw [← hsiA, ← hsiB]
                  exact hgood0
                refine ⟨?_, ?_, ?_⟩
                · intro h
                  rw [seg_alloc_loop] at h
                  simp only [hip, hfp, hal, Bool.true_eq_false, if_false] at h
                  exact SegAllocRes.noConfusion h
                · intro seg1 h
                  rw [seg_alloc_loop] at h
                  simp only [hip, hfp, hal, Bool.true_eq_false, if_false] at h
                  exact SegAllocRes.noConfusion h
                · intro ptr pidx seg1 hdrs1 h
                  rw [seg_alloc_loop] at h
                  simp only [hip, hfp, hal, Bool.true_eq_false, if_false] at h
                  rw [SegAllocRes.ok.injEq] at h
                  obtain ⟨hp1, hp2, hp3, hp4⟩ := h
                  subst hp1
                  subst hp2
                  subst hp4
                  rw [← hp3]
                  by_cases hbf : b ≠ FULL ∧ a = FULL
                  · rw [if_pos hbf]
                    exact ⟨hwfE0, hrE0, hsiB.trans hsiA, hscB.trans hscA,
                      hbB.trans hbA, hpcB.trans hpcA, hgood1⟩
                  · rw [if_neg hbf]
                    exact ⟨hwfE0, hrE0, hsiB.trans hsiA, hscB.trans hscA,
                      hbB.trans hbA, hpcB.trans hpcA, hgood1⟩

/-- `Segment::allocate` under well-formedness: never aborts; on failure the
segment stays well-formed with its identity unchanged; on success the
returned pointer satisfies `GoodAlloc`. -/
theorem Segment.allocate_spec (seg : Segment) (hdrs : HdrMap) (req tid : Nat)
    (hwf : SegWF seg) (hr : RingsSmall seg) (hreq : 0 < req) :
    seg.allocate hdrs req tid ≠ .dfAbort ∧
    (∀ seg1, seg.allocate hdrs req tid = .fail seg1 →
      SegWF seg1 ∧ RingsSmall seg1 ∧ seg1.self_idx = seg.self_idx ∧
        seg1.size_class = seg.size_class ∧ seg1.base = seg.base ∧
        seg1.page_count = seg.page_count) ∧
    (∀ ptr pidx seg1 hdrs1, seg.allocate hdrs req tid = .ok ptr pidx seg1 hdrs1 →
      SegWF seg1 ∧ RingsSmall seg1 ∧ seg1.self_idx = seg.self_idx ∧
        seg1.size_class = seg.size_class ∧ seg1.base = seg.base ∧
        seg1.page_count = seg.page_count ∧
        GoodAlloc seg.self_idx req ptr pidx seg1.pages hdrs hdrs1) := by
  unfold Segment.allocate
  split
  · refine ⟨fun h => SegAllocRes.noConfusion h, ?_, ?_⟩
    · intro seg1 h
      rw [SegAllocRes.fail.injEq] at h
      subst h
      exact ⟨hwf, hr, rfl, rfl, rfl, rfl⟩
    · intro ptr pidx seg1 hdrs1 h
      exact absurd h (by simp)
  · exact seg_alloc_loop_spec req tid _ hreq _ 0 seg hdrs hwf hr

/-- On an all-zero bitmap the scan finds slot 0 immediately. -/
theorem scan_words_fresh (w cap steps : Nat) (hcap : 0 < cap) :
    scan_words (List.replicate w 0) cap 0 (steps + 1) = some 0 := by
  rw [scan_words]
  have hgd : (List.replicate w (0 : Nat)).getD 0 0 = 0 := by
    cases w
    · rfl
    · rfl
  rw [hgd]
  rw [if_pos (by decide : (0 : Nat) ≠ MASK64)]
  have hctz : ctz (MASK64 ^^^ 0) = 0 := by decide
  rw [hctz]
  rw [if_pos (by omega : 0 * 64 + 0 < cap)]

/-- A freshly initialized page (zero bitmap, empty ring, zero hint) allocates
slot 0. -/
theorem Page.allocate_fresh_slot0 (pg : Page) (self : Nat × Nat) (hdrs : HdrMap)
    (req tid : Nat)
    (hinit : pg.initialized = true) (hle : req ≤ pg.chunk_usable)
    (hused : pg.used = 0) (hcap : 0 < pg.capacity)
    (hbm : pg.used_bitmap = List.replicate ((pg.capacity + 63) / 64) 0)
    (hring : pg.deferred_frees = []) (hfh : pg.first_hint = 0) :
    ∃ b a pg1 hdrs1,
      pg.allocate self hdrs req tid = .ok (pg.slot_user_ptr 0) b a pg1 hdrs1 := by
  unfold Page.allocate
  rw [if_neg (show ¬(pg.can_hold req = false ∨ pg.used = pg.capacity) by
    rintro (h1 | h2)
    · rw [Page.can_hold, hinit] at h1
      simp only [Bool.true_and, decide_eq_false_iff_not] at h1
      exact h1 hle
    · omega)]
  rw [if_neg (show ¬(pg.deferred_frees.length ≥ 32) by rw [hring]; decide)]
  dsimp only
  rw [if_neg (show ¬(pg.used_bitmap.length = 0) by
    rw [hbm, List.length_replicate]; omega)]
  have hscan : scan_words pg.used_bitmap pg.capacity (pg.first_hint / 64)
      pg.used_bitmap.length = some 0 := by
    rw [hbm, hfh, List.length_replicate, Nat.zero_div]
    have hW : (pg.capacity + 63) / 64 = ((pg.capacity + 63) / 64 - 1) + 1 := by
      omega
    rw [hW]
    exact scan_words_fresh _ _ _ hcap
  rw [hscan]
  exact ⟨_, _, _, _, rfl⟩

/-- One-step success characterization of the allocation walk. -/
theorem seg_alloc_loop_succ_ok (req tid start step fuel : Nat) (seg : Segment)
    (hdrs : HdrMap) (pgA : Page) (segA : Segment) (pgB : Page) (segB : Segment)
    (ptr : Nat) (b a : page_status) (pgs : Page) (hdrs1 : HdrMap)
    (hip : seg_init_phase seg ((start + step) % seg.page_count) req
      = some (pgA, segA))
    (hfp : seg_fit_phase pgA segA ((start + step) % seg.page_count) req
      = (pgB, segB, true))
    (hal : pgB.allocate (segB.self_idx, (start + step) % seg.page_count) hdrs req tid
      = .ok ptr b a pgs hdrs1) :
    ∃ seg1, seg_alloc_loop req tid start step (fuel + 1) seg hdrs
      = .ok ptr ((start + step) % seg.page_count) seg1 hdrs1 := by
  rw [seg_alloc_loop]
  simp only [hip, hfp, hal, Bool.true_eq_false, if_false]
  exact ⟨_, rfl⟩

theorem getD_replicate_pg (n i : Nat) (a d : Page) (h : i < n) :
    (List.replicate n a).getD i d = a := by
  rw [List.getD_eq_getElem?_getD, List.getElem?_replicate]
  rw [if_pos h]
  rfl

/-- A fresh segment (as built by `Segment::init`, possibly with its
`queued_non_full` flag since toggled) serves any in-class request: its first
page initializes and hands out slot 0, so `Segment::allocate` returns a
pointer. -/
theorem Segment.allocate_fresh (segment_base : Nat) (kind : page_kind)
    (seg_idx : Nat) (seg : Segment) (hdrs : HdrMap) (req tid : Nat)
    (hb0 : segment_base ≠ 0) (hreq : 0 < req)
    (hbase : seg.base = segment_base) (hsc : seg.size_class = kind)
    (hfix : seg.fixed_chunk_set = false) (hnc : seg.next_candidate_idx = 0)
    (hpcpos : 0 < seg.page_count)
    (hpages : seg.pages = List.replicate seg.page_count
      { Page.mk0 with owner_segment_idx := seg_idx })
    (hfs : kind = PAGE_SM → req ≤ CHUNK_SM)
    (hfm : kind = PAGE_MED → req ≤ CHUNK_MD)
    (hfl : kind = PAGE_LG → req ≤ LARGE_PAGE_SIZE - CHUNK_HEADER_SIZE)
    (hfx : kind ≠ PAGE_XL) :
    ∃ ptr pidx seg1 hdrs1, seg.allocate hdrs req tid = .ok ptr pidx seg1 hdrs1 := by
  have hpg0 : seg.pages.getD 0 Page.mk0
      = { Page.mk0 with owner_segment_idx := seg_idx } := by
    rw [hpages]
    exact getD_replicate_pg _ _ _ _ hpcpos
  have hbase0 : seg.base + 0 * seg.page_size = segment_base := by
    rw [hbase, Nat.zero_mul, Nat.add_zero]
  have hinitpage : ∃ pinit,
      ({ Page.mk0 with owner_segment_idx := seg_idx } : Page).init
        (seg.base + 0 * seg.page_size) seg.size_class req = some pinit ∧
      pinit.initialized = true ∧ req ≤ pinit.chunk_usable ∧ pinit.used = 0 ∧
      0 < pinit.capacity ∧
      pinit.used_bitmap = List.replicate ((pinit.capacity + 63) / 64) 0 ∧
      pinit.deferred_frees = [] ∧ pinit.first_hint = 0 := by
    rw [hsc, hbase0]
    cases kind with
    | PAGE_SM =>
      obtain ⟨heq, hcap2, hnormge⟩ := Page.init_smmd_spec _ segment_base req PAGE_SM
        (Or.inl rfl) hb0 hreq (by rw [if_pos rfl]; exact hfs rfl)
      refine ⟨_, heq, rfl, ?_, rfl, ?_, rfl, rfl, rfl⟩
      · show req ≤ norm_chunk_req PAGE_SM req + CHUNK_HEADER_SIZE - CHUNK_HEADER_SIZE
        have hch : CHUNK_HEADER_SIZE = 16 := rfl
        omega
      · show 0 < page_size_for_kind PAGE_SM
          / (norm_chunk_req PAGE_SM req + CHUNK_HEADER_SIZE)
        omega
    | PAGE_MED =>
      obtain ⟨heq, hcap2, hnormge⟩ := Page.init_smmd_spec _ segment_base req PAGE_MED
        (Or.inr rfl) hb0 hreq (by
          rw [if_neg (by intro h; exact page_kind.noConfusion h)]
          exact hfm rfl)
      refine ⟨_, heq, rfl, ?_, rfl, ?_, rfl, rfl, rfl⟩
      · show req ≤ norm_chunk_req PAGE_MED req + CHUNK_HEADER_SIZE - CHUNK_HEADER_SIZE
        have hch : CHUNK_HEADER_SIZE = 16 := rfl
        omega
      · show 0 < page_size_for_kind PAGE_MED
          / (norm_chunk_req PAGE_MED req + CHUNK_HEADER_SIZE)
        omega
    | PAGE_LG =>
      have heq : ({ Page.mk0 with owner_segment_idx := seg_idx } : Page).init
          segment_base PAGE_LG req
          = some (({ Page.mk0 with owner_segment_idx := seg_idx } : Page).init_fill
            segment_base PAGE_LG (page_size_for_kind PAGE_LG) 1) := by
        unfold Page.init
        rw [if_neg (show ¬(segment_base = 0 ∨ req = 0) by
          rintro (h1 | h2)
          · exact hb0 h1
          · omega)]
        rw [if_pos rfl]
      refine ⟨_, heq, rfl, ?_, rfl, Nat.zero_lt_one, rfl, rfl, rfl⟩
      · show req ≤ page_size_for_kind PAGE_LG - CHUNK_HEADER_SIZE
        exact hfl rfl
    | PAGE_XL => exact absurd rfl hfx
  obtain ⟨pinit, hpeq, hpi, hple, hpu, hpcap, hpbm, hpring, hpfh⟩ := hinitpage
  have hip0 : ∃ seg2, seg_init_phase seg 0 req = some (pinit, seg2) := by
    unfold seg_init_phase
    dsimp only
    rw [hpg0]
    rw [if_neg (show ¬(({ Page.mk0 with owner_segment_idx := seg_idx } :
        Page).is_initialized = true) from fun h => Bool.noConfusion h)]
    rw [if_neg (show ¬(seg.size_class ≠ PAGE_LG ∧ seg.fixed_chunk_set = true) by
      intro hcond
      rw [hfix] at hcond
      exact Bool.noConfusion hcond.2)]
    rw [hpeq]
    dsimp only
    split
    · exact ⟨_, rfl⟩
    · exact ⟨_, rfl⟩
  obtain ⟨seg2, hip⟩ := hip0
  have hch : pinit.can_hold req = true := by
    unfold Page.can_hold
    rw [hpi]
    simp only [Bool.true_and, decide_eq_true_eq]
    exact hple
  have hfp : seg_fit_phase pinit seg2 0 req = (pinit, seg2, true) := by
    unfold seg_fit_phase
    rw [if_pos hch]
  obtain ⟨b, a, pg1, hdrs1, hal⟩ :=
    Page.allocate_fresh_slot0 pinit (seg2.self_idx, 0) hdrs req tid hpi hple hpu hpcap
      hpbm hpring hpfh
  have hchr : seg.can_hold_request req = true := by
    simp [Segment.can_hold_request, hfix]
  unfold Segment.allocate
  rw [if_neg (show ¬(seg.can_hold_request req = false) by
    rw [hchr]
    exact fun h => Bool.noConfusion h)]
  rw [hnc, Nat.zero_mod]
  have hfc : seg.page_count = seg.page_count - 1 + 1 := by
    omega
  rw [hfc]
  have hix : (0 + 0) % seg.page_count = 0 := by
    simp
  have hip' : seg_init_phase seg ((0 + 0) % seg.page_count) req
      = some (pinit, seg2) := by
    rw [hix]
    exact hip
  have hfp' : seg_fit_phase pinit seg2 ((0 + 0) % seg.page_count) req
      = (pinit, seg2, true) := by
    rw [hix]
    exact hfp
  have hal' : pinit.allocate (seg2.self_idx, (0 + 0) % seg.page_count) hdrs req tid
      = .ok (pinit.slot_user_ptr 0) b a pg1 hdrs1 := by
    rw [hix]
    exact hal
  obtain ⟨seg1, hl⟩ := seg_alloc_loop_succ_ok req tid 0 0 (seg.page_count - 1) seg
    hdrs pinit seg2 pinit seg2 (pinit.slot_user_ptr 0) b a pg1 hdrs1 hip' hfp' hal'
  exact ⟨_, _, seg1, hdrs1, hl⟩

/-! ### Heap well-formedness and the heap-level allocation guarantee -/

theorem getD_set_self_any {α : Type} (l : List α) (i : Nat) (v d : α)
    (h : i < l.length) : (l.set i v).getD i d = v := by
  rw [List.getD_eq_getElem?_getD, List.getElem?_set_self h]
  rfl

theorem getD_set_ne_any {α : Type} (l : List α) (i j : Nat) (v d : α)
    (h : i ≠ j) : (l.set i v).getD j d = l.getD j d := by
  rw [List.getD_eq_getElem?_getD, List.getElem?_set_ne h,
    ← List.getD_eq_getElem?_getD]

/-- Replacing a registered segment by a well-formed one with the same
back-pointer keeps the heap well-formed. -/
theorem HeapWF_set (hp : HeapState) (i : Nat) (seg1 : Segment) (hwf : HeapWF hp)
    (hw : SegWF seg1) (hr : RingsSmall seg1)
    (hsi : seg1.self_idx = (hp.layout.getD i Segment.mk0).self_idx) :
    HeapWF { hp with layout := hp.layout.set i seg1 } := by
  obtain ⟨h16, hsegs, hidx, hcur⟩ := hwf
  refine ⟨h16, ?_, ?_, hcur⟩
  · intro seg hseg
    rcases List.mem_or_eq_of_mem_set hseg with hmem | heq
    · exact hsegs seg hmem
    · subst heq
      exact ⟨hw, hr⟩
  · intro j hj
    have hj' : j < (hp.layout.set i seg1).length := hj
    rw [List.length_set] at hj'
    show ((hp.layout.set i seg1).getD j Segment.mk0).self_idx = j
    by_cases hij : i = j
    · subst hij
      rw [getD_set_self_any _ _ _ _ hj', hsi]
      exact hidx i hj'
    · rw [getD_set_ne_any _ _ _ _ _ hij]
      exact hidx j hj'

/-- `HeapGood` transports along state changes that keep the header memory, the
layout length, and every page list. -/
theorem HeapGood_transport (need ptr : Nat) (hp hp2 : HeapState)
    (hh : hp2.hdrs = hp.hdrs) (hl : hp2.layout.length = hp.layout.length)
    (hpg : ∀ i, (hp2.layout.getD i Segment.mk0).pages
      = (hp.layout.getD i Segment.mk0).pages)
    (hg : HeapGood need ptr hp) : HeapGood need ptr hp2 := by
  obtain ⟨a, b, si, pidx, slot, h1, h2, h3, h4, h5, h6⟩ := hg
  exact ⟨a, b, si, pidx, slot, by rw [hh]; exact h1, by rw [hl]; exact h2,
    by rw [hpg]; exact h3, by rw [hpg]; exact h4, by rw [hpg]; exact h5,
    by rw [hpg]; exact h6⟩

/-- Everything a successful `Page::allocate` guarantees about the returned
pointer, for a geometric page owned by `(si, pi)`. -/
theorem page_alloc_good (pg pgs : Page) (si pi req tid ptr : Nat)
    (hdrs hdrs1 : HdrMap) (b a : page_status)
    (hg : PageGeom pg) (hi : PageInv pg) (hreq : 0 < req)
    (hal : pg.allocate (si, pi) hdrs req tid = .ok ptr b a pgs hdrs1) :
    PageInvI pgs ∧ geomEq pgs pg ∧
    ∃ slot,
      ptr % 16 = 0 ∧ ptr ≠ 0 ∧
      hdrs1 = hdr_write hdrs (ptr - CHUNK_HEADER_SIZE)
        ⟨some (si, pi), slot, CHUNK_MAGIC⟩ ∧
      req ≤ pgs.chunk_usable ∧
      pgs.contains_ptr ptr = true ∧
      pgs.hdr_ok (si, pi) ⟨some (si, pi), slot, CHUNK_MAGIC⟩ ptr = true ∧
      bit_is_set pgs.used_bitmap slot = true := by
  obtain ⟨hinvs, his, hge, hreqle, hib, hast, slot, hslot, hptr, hhd, hbit⟩ :=
    Page.allocate_ok_inv pg _ hdrs req tid ptr b a pgs hdrs1 hi hal
  obtain ⟨hge1, hge2, hge3, hge4, hge5, hge6, hge7, hge8⟩ := hge
  obtain ⟨g16b, gb0, g16s, gus, gcap⟩ := hg hib
  have hch : CHUNK_HEADER_SIZE = 16 := rfl
  have hstride : 17 ≤ pg.chunk_stride := by
    omega
  have hptr' : ptr = pg.base + slot * pg.chunk_stride + CHUNK_HEADER_SIZE := hptr
  obtain ⟨x, hx⟩ := g16b
  obtain ⟨y, hy⟩ := g16s
  have hmul : slot * pg.chunk_stride = 16 * (slot * y) := by
    rw [hy]
    ring
  have hsucc : (slot + 1) * pg.chunk_stride ≤ pg.capacity * pg.chunk_stride :=
    Nat.mul_le_mul_right _ hslot
  have hexp : (slot + 1) * pg.chunk_stride
      = slot * pg.chunk_stride + pg.chunk_stride := by
    ring
  refine ⟨hinvs, ⟨hge1, hge2, hge3, hge4, hge5, hge6, hge7, hge8⟩, slot,
    ?_, ?_, ?_, ?_, ?_, ?_, hbit⟩
  · omega
  · omega
  · have haddr : ptr - CHUNK_HEADER_SIZE = pg.slot_header_addr slot := by
      have h2 : pg.slot_header_addr slot = pg.base + slot * pg.chunk_stride := rfl
      omega
    rw [haddr]
    exact hhd
  · rw [hge3]
    exact hreqle
  · unfold Page.contains_ptr
    simp only [Bool.and_eq_true, decide_eq_true_eq]
    refine ⟨⟨⟨his, ?_⟩, ?_⟩, ?_⟩
    · omega
    · rw [hge4]
      omega
    · rw [hge4, hge6]
      omega
  · unfold Page.hdr_ok
    simp only [Bool.and_eq_true, decide_eq_true_eq]
    refine ⟨⟨⟨trivial, trivial⟩, ?_⟩, ?_⟩
    · rw [hge2]
      exact hslot
    · unfold Page.slot_user_ptr Page.slot_header_addr
      rw [hge4, hge5]
      exact hptr'.symm

/-- `enqueue_non_full_segment` preserves heap well-formedness and changes no
header memory, layout length, base, or page list (only a queued flag and a
shard queue). -/
theorem enqueue_wf (hp : HeapState) (kind : page_kind) (seg_idx : Nat)
    (hwf : HeapWF hp) :
    HeapWF (hp.enqueue_non_full_segment kind seg_idx) ∧
    (hp.enqueue_non_full_segment kind seg_idx).hdrs = hp.hdrs ∧
    (hp.enqueue_non_full_segment kind seg_idx).layout.length
      = hp.layout.length ∧
    (hp.enqueue_non_full_segment kind seg_idx).base = hp.base ∧
    (hp.enqueue_non_full_segment kind seg_idx).reserved_size
      = hp.reserved_size ∧
    (hp.enqueue_non_full_segment kind seg_idx).reserved_cursor
      = hp.reserved_cursor ∧
    (∀ i, ((hp.enqueue_non_full_segment kind seg_idx).layout.getD i
        Segment.mk0).pages = (hp.layout.getD i Segment.mk0).pages ∧
      ((hp.enqueue_non_full_segment kind seg_idx).layout.getD i
        Segment.mk0).base = (hp.layout.getD i Segment.mk0).base ∧
      ((hp.enqueue_non_full_segment kind seg_idx).layout.getD i
        Segment.mk0).size_class = (hp.layout.getD i Segment.mk0).size_class ∧
      ((hp.enqueue_non_full_segment kind seg_idx).layout.getD i
        Segment.mk0).fixed_chunk_set
        = (hp.layout.getD i Segment.mk0).fixed_chunk_set ∧
      ((hp.enqueue_non_full_segment kind seg_idx).layout.getD i
        Segment.mk0).next_candidate_idx
        = (hp.layout.getD i Segment.mk0).next_candidate_idx ∧
      ((hp.enqueue_non_full_segment kind seg_idx).layout.getD i
        Segment.mk0).page_count = (hp.layout.getD i Segment.mk0).page_count) := by
  unfold HeapState.enqueue_non_full_segment
  split
  · exact ⟨hwf, rfl, rfl, rfl, rfl, rfl, fun _ => ⟨rfl, rfl, rfl, rfl, rfl, rfl⟩⟩
  · rename_i hge
    dsimp only
    split
    · exact ⟨hwf, rfl, rfl, rfl, rfl, rfl, fun _ => ⟨rfl, rfl, rfl, rfl, rfl, rfl⟩⟩
    · cases htm : (hp.layout.getD seg_idx Segment.mk0).try_mark_enqueued with
      | mk fst snd =>
        cases fst with
        | false => exact ⟨hwf, rfl, rfl, rfl, rfl, rfl, fun _ => ⟨rfl, rfl, rfl, rfl, rfl, rfl⟩⟩
        | true =>
          have hsnd : snd = { hp.layout.getD seg_idx Segment.mk0 with
              queued_non_full := true } := by
            unfold Segment.try_mark_enqueued at htm
            split at htm
            · rw [Prod.mk.injEq] at htm
              exact absurd htm.1 (by simp)
            · rw [Prod.mk.injEq] at htm
              exact htm.2.symm
          have hlen : seg_idx < hp.layout.length := by
            omega
          have hmem := getD_mem hp.layout seg_idx Segment.mk0 hlen
          obtain ⟨hsw, hsr⟩ := hwf.2.1 _ hmem
          have hwf2 : HeapWF { hp with layout := hp.layout.set seg_idx snd } := by
            apply HeapWF_set hp seg_idx snd hwf
            · rw [hsnd]
              exact hsw
            · rw [hsnd]
              intro pg hpg
              exact hsr pg hpg
            · rw [hsnd]
          refine ⟨hwf2, rfl, ?_, rfl, rfl, rfl, ?_⟩
          · show (hp.layout.set seg_idx snd).length = hp.layout.length
            rw [List.length_set]
          · intro i
            by_cases hij : seg_idx = i
            · subst hij
              refine ⟨?_, ?_, ?_, ?_, ?_, ?_⟩ <;>
                · show _ = _
                  rw [show ((hp.layout.set seg_idx snd).getD seg_idx Segment.mk0)
                      = snd from getD_set_self_any _ _ _ _ hlen, hsnd]
            · refine ⟨?_, ?_, ?_, ?_, ?_, ?_⟩ <;>
                · show _ = _
                  rw [show ((hp.layout.set seg_idx snd).getD i Segment.mk0)
                      = hp.layout.getD i Segment.mk0
                      from getD_set_ne_any _ _ _ _ _ hij]

/-- `try_segment` under `HeapWF`: never aborts, preserves well-formedness, and
returns only `HeapGood` pointers. -/
theorem try_segment_spec (hp : HeapState) (tc : ThreadCache) (kind : page_kind)
    (need seg_idx : Nat) (hwf : HeapWF hp) (hneed : 0 < need) :
    hp.try_segment tc kind need seg_idx ≠ .dfAbort ∧
    (∀ hp1 tc1, hp.try_segment tc kind need seg_idx = .res none hp1 tc1 →
      HeapWF hp1) ∧
    (∀ ptr hp1 tc1,
      hp.try_segment tc kind need seg_idx = .res (some ptr) hp1 tc1 →
      HeapWF hp1 ∧ HeapGood need ptr hp1) := by
  unfold HeapState.try_segment
  split
  · refine ⟨fun h => TryRes.noConfusion h, ?_, ?_⟩
    · intro hp1 tc1 h
      rw [TryRes.res.injEq] at h
      rw [← h.2.1]
      exact hwf
    · intro ptr hp1 tc1 h
      rw [TryRes.res.injEq] at h
      exact absurd h.1 (by simp)
  · rename_i hge
    dsimp only
    split
    · refine ⟨fun h => TryRes.noConfusion h, ?_, ?_⟩
      · intro hp1 tc1 h
        rw [TryRes.res.injEq] at h
        rw [← h.2.1]
        exact hwf
      · intro ptr hp1 tc1 h
        rw [TryRes.res.injEq] at h
        exact absurd h.1 (by simp)
    · split
      · refine ⟨fun h => TryRes.noConfusion h, ?_, ?_⟩
        · intro hp1 tc1 h
          rw [TryRes.res.injEq] at h
          rw [← h.2.1]
          exact hwf
        · intro ptr hp1 tc1 h
          rw [TryRes.res.injEq] at h
          exact absurd h.1 (by simp)
      · have hlt : seg_idx < hp.layout.length := by
          omega
        have hmem := getD_mem hp.layout seg_idx Segment.mk0 hlt
        obtain ⟨hsw, hsr⟩ := hwf.2.1 _ hmem
        have hself : (hp.layout.getD seg_idx Segment.mk0).self_idx = seg_idx :=
          hwf.2.2.1 seg_idx hlt
        obtain ⟨hna, hfail, hok⟩ :=
          Segment.allocate_spec _ hp.hdrs need tc.tid hsw hsr hneed
        cases hal : (hp.layout.getD seg_idx Segment.mk0).allocate hp.hdrs need
            tc.tid with
        | dfAbort => exact absurd hal hna
        | fail seg1 =>
          obtain ⟨hw1, hr1, hsi1, _, _, _⟩ := hfail seg1 hal
          have hwfset : HeapWF { hp with layout := hp.layout.set seg_idx seg1 } :=
            HeapWF_set hp seg_idx seg1 hwf hw1 hr1 hsi1
          refine ⟨?_, ?_, ?_⟩
          · intro h
            dsimp only at h
            exact TryRes.noConfusion h
          · intro hp1 tc1 h
            dsimp only at h
            rw [TryRes.res.injEq] at h
            rw [← h.2.1]
            split
            · exact (enqueue_wf _ kind seg_idx hwfset).1
            · exact hwfset
          · intro ptr hp1 tc1 h
            dsimp only at h
            rw [TryRes.res.injEq] at h
            exact absurd h.1 (by simp)
        | ok ptr0 pidx seg1 hdrs1 =>
          obtain ⟨hw1, hr1, hsi1, _, _, _, hgood⟩ := hok ptr0 pidx seg1 hdrs1 hal
          obtain ⟨g1, g2, g3, slot, g4, g5, g6, g7, g8⟩ := hgood
          have hwfset : HeapWF { hp with
              layout := hp.layout.set seg_idx seg1, hdrs := hdrs1 } :=
            HeapWF_set hp seg_idx seg1 hwf hw1 hr1 hsi1
          have hgset : HeapGood need ptr0 { hp with
              layout := hp.layout.set seg_idx seg1, hdrs := hdrs1 } := by
            refine ⟨g1, g2, seg_idx, pidx, slot, ?_, ?_, ?_, ?_, ?_, ?_⟩
            · show hdrs1 (ptr0 - CHUNK_HEADER_SIZE)
                = some ⟨some (seg_idx, pidx), slot, CHUNK_MAGIC⟩
              rw [hself] at g4
              rw [g4]
              unfold hdr_write
              rw [if_pos rfl]
            · show seg_idx < (hp.layout.set seg_idx seg1).length
              rw [List.length_set]
              exact hlt
            · show need ≤ (((hp.layout.set seg_idx seg1).getD seg_idx
                Segment.mk0).pages.getD pidx Page.mk0).chunk_usable
              rw [getD_set_self_any _ _ _ _ hlt]
              exact g5
            · show (((hp.layout.set seg_idx seg1).getD seg_idx
                Segment.mk0).pages.getD pidx Page.mk0).contains_ptr ptr0 = true
              rw [getD_set_self_any _ _ _ _ hlt]
              exact g6
            · show (((hp.layout.set seg_idx seg1).getD seg_idx
                  Segment.mk0).pages.getD pidx Page.mk0).hdr_ok (seg_idx, pidx)
                ⟨some (seg_idx, pidx), slot, CHUNK_MAGIC⟩ ptr0 = true
              rw [getD_set_self_any _ _ _ _ hlt]
              rw [hself] at g7
              exact g7
            · show bit_is_set (((hp.layout.set seg_idx seg1).getD seg_idx
                Segment.mk0).pages.getD pidx Page.mk0).used_bitmap slot = true
              rw [getD_set_self_any _ _ _ _ hlt]
              exact g8
          refine ⟨?_, ?_, ?_⟩
          · intro h
            dsimp only at h
            exact TryRes.noConfusion h
          · intro hp1 tc1 h
            dsimp only at h
            rw [TryRes.res.injEq] at h
            exact absurd h.1 (by simp)
          · intro ptr hp1 tc1 h
            dsimp only at h
            rw [TryRes.res.injEq] at h
            obtain ⟨hptr, hhp, _⟩ := h
            rw [Option.some_inj] at hptr
            subst hptr
            rw [← hhp]
            split
            · refine ⟨(enqueue_wf _ kind seg_idx hwfset).1, ?_⟩
              obtain ⟨_, hh, hl, _, _, _, hpg⟩ := enqueue_wf { hp with
                layout := hp.layout.set seg_idx seg1, hdrs := hdrs1 } kind seg_idx
                hwfset
              exact HeapGood_transport need ptr0 _ _ hh hl (fun i => (hpg i).1)
                hgset
            · exact ⟨hwfset, hgset⟩

/-- The thread-cache fast path under `HeapWF`: never aborts, preserves
well-formedness, and returns only `HeapGood` pointers. -/
theorem heap_fast_path_spec (kind : page_kind) (need : Nat) (hp : HeapState)
    (tc : ThreadCache) (hwf : HeapWF hp) (hneed : 0 < need) :
    heap_fast_path kind need hp tc ≠ .dfAbort ∧
    (∀ hp1 tc1, heap_fast_path kind need hp tc = .res none hp1 tc1 →
      HeapWF hp1) ∧
    (∀ ptr hp1 tc1, heap_fast_path kind need hp tc = .res (some ptr) hp1 tc1 →
      HeapWF hp1 ∧ HeapGood need ptr hp1) := by
  unfold heap_fast_path
  split
  · refine ⟨fun h => TryRes.noConfusion h, ?_, ?_⟩
    · intro hp1 tc1 h
      rw [TryRes.res.injEq] at h
      rw [← h.2.1]
      exact hwf
    · intro ptr hp1 tc1 h
      rw [TryRes.res.injEq] at h
      exact absurd h.1 (by simp)
  · cases hcp : tc.get_cached_page kind with
    | none =>
      refine ⟨fun h => TryRes.noConfusion h, ?_, ?_⟩
      · intro hp1 tc1 h
        rw [TryRes.res.injEq] at h
        rw [← h.2.1]
        exact hwf
      · intro ptr hp1 tc1 h
        rw [TryRes.res.injEq] at h
        exact absurd h.1 (by simp)
    | some pr =>
      cases pr with
      | mk si pi =>
        dsimp only
        split
        · refine ⟨fun h => TryRes.noConfusion h, ?_, ?_⟩
          · intro hp1 tc1 h
            rw [TryRes.res.injEq] at h
            rw [← h.2.1]
            exact hwf
          · intro ptr hp1 tc1 h
            rw [TryRes.res.injEq] at h
            exact absurd h.1 (by simp)
        · rename_i hinit
          have hinit' : ((hp.layout.getD si Segment.mk0).pages.getD pi
              Page.mk0).initialized = true := by
            cases hI : ((hp.layout.getD si Segment.mk0).pages.getD pi
                Page.mk0).initialized
            · exact absurd hI hinit
            · rfl
          have hsi_lt : si < hp.layout.length := by
            by_contra hc
            have he : hp.layout.getD si Segment.mk0 = Segment.mk0 := by
              rw [List.getD_eq_getElem?_getD, List.getElem?_eq_none (by omega)]
              rfl
            rw [he] at hinit'
            exact Bool.noConfusion hinit'
          have hpi_lt : pi < (hp.layout.getD si Segment.mk0).pages.length := by
            by_contra hc
            have he : (hp.layout.getD si Segment.mk0).pages.getD pi Page.mk0
                = Page.mk0 := by
              rw [List.getD_eq_getElem?_getD, List.getElem?_eq_none (by omega)]
              rfl
            rw [he] at hinit'
            exact Bool.noConfusion hinit'
          have hsmem := getD_mem hp.layout si Segment.mk0 hsi_lt
          obtain ⟨hsw, hsr⟩ := hwf.2.1 _ hsmem
          have hpmem := getD_mem (hp.layout.getD si Segment.mk0).pages pi
            Page.mk0 hpi_lt
          obtain ⟨hpgm, hpin⟩ := hsw.2.2.2.2.2 _ hpmem
          have hring := hsr _ hpmem
          have hselfeq : ((hp.layout.getD si Segment.mk0)).self_idx = si :=
            hwf.2.2.1 si hsi_lt
          cases hal : ((hp.layout.getD si Segment.mk0).pages.getD pi
              Page.mk0).allocate (si, pi) hp.hdrs need tc.tid with
          | dfAbort =>
            exact absurd hal (Page.allocate_ring _ _ _ _ _ hring).2.2
          | fail pg1 =>
            obtain ⟨hip1, hgeq⟩ := Page.allocate_fail_inv _ _ _ _ _ _ hpin hal
            have hwf1 : HeapWF { hp with layout :=
                (hp.layout.set si { hp.layout.getD si Segment.mk0 with
                  pages := (hp.layout.getD si Segment.mk0).pages.set pi pg1 }) } := by
              apply HeapWF_set hp si _ hwf
              · exact SegWF_set _ pi pg1 hsw (geomEq_geom pg1 _ hgeq hpgm) hip1
              · apply RingsSmall_set _ pi pg1 hsr
                rw [(Page.allocate_ring _ _ _ _ _ hring).1 pg1 hal]
                exact hring
              · rfl
            refine ⟨?_, ?_, ?_⟩
            · intro h
              dsimp only at h
              exact TryRes.noConfusion h
            · intro hp1 tc1 h
              dsimp only at h
              rw [TryRes.res.injEq] at h
              rw [← h.2.1]
              exact hwf1
            · intro ptr hp1 tc1 h
              dsimp only at h
              rw [TryRes.res.injEq] at h
              exact absurd h.1 (by simp)
          | ok ptr0 b a pg1 hdrs1 =>
            obtain ⟨hipv, hgeq, slot, p1, p2, p3, p4, p5, p6, p7⟩ :=
              page_alloc_good _ pg1 si pi need tc.tid ptr0 hp.hdrs hdrs1 b a
                hpgm hpin hneed hal
            have hring1 : pg1.deferred_frees
                = ((hp.layout.getD si Segment.mk0).pages.getD pi
                  Page.mk0).deferred_frees :=
              (Page.allocate_ring _ _ _ _ _ hring).2.1 ptr0 b a pg1 hdrs1 hal
            have hwf1 : HeapWF { hp with
                layout := (hp.layout.set si { hp.layout.getD si Segment.mk0 with
                  pages := (hp.layout.getD si Segment.mk0).pages.set pi pg1 })
                hdrs := hdrs1 } := by
              apply HeapWF_set hp si _ hwf
              · exact SegWF_set _ pi pg1 hsw (geomEq_geom pg1 _ hgeq hpgm)
                  (fun _ => hipv)
              · apply RingsSmall_set _ pi pg1 hsr
                rw [hring1]
                exact hring
              · rfl
            have hgood : HeapGood need ptr0 { hp with
                layout := (hp.layout.set si { hp.layout.getD si Segment.mk0 with
                  pages := (hp.layout.getD si Segment.mk0).pages.set pi pg1 })
                hdrs := hdrs1 } := by
              refine ⟨p1, p2, si, pi, slot, ?_, ?_, ?_, ?_, ?_, ?_⟩
              · show hdrs1 (ptr0 - CHUNK_HEADER_SIZE)
                  = some ⟨some (si, pi), slot, CHUNK_MAGIC⟩
                rw [p3]
                unfold hdr_write
                rw [if_pos rfl]
              · show si < (hp.layout.set si _).length
                rw [List.length_set]
                exact hsi_lt
              · show need ≤ (((hp.layout.set si _).getD si
                  Segment.mk0).pages.getD pi Page.mk0).chunk_usable
                rw [getD_set_self_any _ _ _ _ hsi_lt]
                show need ≤ (((hp.layout.getD si Segment.mk0).pages.set pi
                  pg1).getD pi Page.mk0).chunk_usable
                rw [getD_set_self_any _ _ _ _ hpi_lt]
                exact p4
              · show (((hp.layout.set si _).getD si
                  Segment.mk0).pages.getD pi Page.mk0).contains_ptr ptr0 = true
                rw [getD_set_self_any _ _ _ _ hsi_lt]
                show (((hp.layout.getD si Segment.mk0).pages.set pi
                  pg1).getD pi Page.mk0).contains_ptr ptr0 = true
                rw [getD_set_self_any _ _ _ _ hpi_lt]
                exact p5
              · show (((hp.layout.set si _).getD si
                    Segment.mk0).pages.getD pi Page.mk0).hdr_ok (si, pi)
                  ⟨some (si, pi), slot, CHUNK_MAGIC⟩ ptr0 = true
                rw [getD_set_self_any _ _ _ _ hsi_lt]
                show (((hp.layout.getD si Segment.mk0).pages.set pi
                    pg1).getD pi Page.mk0).hdr_ok (si, pi)
                  ⟨some (si, pi), slot, CHUNK_MAGIC⟩ ptr0 = true
                rw [getD_set_self_any _ _ _ _ hpi_lt]
                exact p6
              · show bit_is_set (((hp.layout.set si _).getD si
                  Segment.mk0).pages.getD pi Page.mk0).used_bitmap slot = true
                rw [getD_set_self_any _ _ _ _ hsi_lt]
                show bit_is_set (((hp.layout.getD si Segment.mk0).pages.set pi
                  pg1).getD pi Page.mk0).used_bitmap slot = true
                rw [getD_set_self_any _ _ _ _ hpi_lt]
                exact p7
            refine ⟨?_, ?_, ?_⟩
            · intro h
              dsimp only at h
              exact TryRes.noConfusion h
            · intro hp1 tc1 h
              dsimp only at h
              rw [TryRes.res.injEq] at h
              exact absurd h.1 (by simp)
            · intro ptr hp1 tc1 h
              dsimp only at h
              rw [TryRes.res.injEq] at h
              obtain ⟨hptr, hhp, _⟩ := h
              rw [Option.some_inj] at hptr
              subst hptr
              rw [← hhp]
              exact ⟨hwf1, hgood⟩

/-- The preferred-segment stage under `HeapWF`. -/
theorem heap_preferred_spec (kind : page_kind) (need : Nat) (hp : HeapState)
    (tc : ThreadCache) (hwf : HeapWF hp) (hneed : 0 < need) :
    heap_preferred kind need hp tc ≠ .dfAbort ∧
    (∀ hp1 tc1, heap_preferred kind need hp tc = .res none hp1 tc1 →
      HeapWF hp1) ∧
    (∀ ptr hp1 tc1, heap_preferred kind need hp tc = .res (some ptr) hp1 tc1 →
      HeapWF hp1 ∧ HeapGood need ptr hp1) := by
  unfold heap_preferred
  split
  · refine ⟨fun h => TryRes.noConfusion h, ?_, ?_⟩
    · intro hp1 tc1 h
      rw [TryRes.res.injEq] at h
      rw [← h.2.1]
      exact hwf
    · intro ptr hp1 tc1 h
      rw [TryRes.res.injEq] at h
      exact absurd h.1 (by simp)
  · cases hpref : tc.get_preferred_segment kind with
    | none =>
      refine ⟨fun h => TryRes.noConfusion h, ?_, ?_⟩
      · intro hp1 tc1 h
        rw [TryRes.res.injEq] at h
        rw [← h.2.1]
        exact hwf
      · intro ptr hp1 tc1 h
        rw [TryRes.res.injEq] at h
        exact absurd h.1 (by simp)
    | some pidx =>
      exact try_segment_spec hp tc kind need pidx hwf hneed

theorem heap_queue_pop_wf (kind : page_kind) (hp : HeapState) (idx : Nat)
    (hp1 : HeapState) (hwf : HeapWF hp)
    (h : heap_queue_pop kind hp = some (idx, hp1)) : HeapWF hp1 := by
  unfold heap_queue_pop at h
  dsimp only at h
  split at h
  · exact absurd h (by simp)
  · rw [Option.some_inj, Prod.mk.injEq] at h
    rw [← h.2]
    obtain ⟨a, b, c, d⟩ := hwf
    exact ⟨a, b, c, d⟩

theorem heap_clear_enqueued_wf (hp : HeapState) (idx : Nat) (hwf : HeapWF hp) :
    HeapWF (heap_clear_enqueued hp idx) := by
  unfold heap_clear_enqueued
  by_cases hlt : idx < hp.layout.length
  · have hmem := getD_mem hp.layout idx Segment.mk0 hlt
    obtain ⟨hsw, hsr⟩ := hwf.2.1 _ hmem
    apply HeapWF_set hp idx _ hwf
    · exact hsw
    · intro pg hpg
      exact hsr pg hpg
    · rfl
  · rw [List.set_eq_of_length_le (by omega)]
    obtain ⟨a, b, c, d⟩ := hwf
    exact ⟨a, b, c, d⟩

/-- The shard-queue probe loop under `HeapWF`. -/
theorem heap_queue_loop_spec (kind : page_kind) (need : Nat) (hneed : 0 < need) :
    ∀ (fuel : Nat) (hp : HeapState) (tc : ThreadCache), HeapWF hp →
      heap_queue_loop kind need fuel hp tc ≠ .dfAbort ∧
      (∀ hp1 tc1, heap_queue_loop kind need fuel hp tc = .res none hp1 tc1 →
        HeapWF hp1) ∧
      (∀ ptr hp1 tc1,
        heap_queue_loop kind need fuel hp tc = .res (some ptr) hp1 tc1 →
        HeapWF hp1 ∧ HeapGood need ptr hp1) := by
  intro fuel
  induction fuel with
  | zero =>
    intro hp tc hwf
    rw [heap_queue_loop]
    refine ⟨fun h => TryRes.noConfusion h, ?_, ?_⟩
    · intro hp1 tc1 h
      rw [TryRes.res.injEq] at h
      rw [← h.2.1]
      exact hwf
    · intro ptr hp1 tc1 h
      rw [TryRes.res.injEq] at h
      exact absurd h.1 (by simp)
  | succ n ih =>
    intro hp tc hwf
    rw [heap_queue_loop]
    cases hq : heap_queue_pop kind hp with
    | none =>
      refine ⟨fun h => TryRes.noConfusion h, ?_, ?_⟩
      · intro hp1 tc1 h
        rw [TryRes.res.injEq] at h
        rw [← h.2.1]
        exact hwf
      · intro ptr hp1 tc1 h
        rw [TryRes.res.injEq] at h
        exact absurd h.1 (by simp)
    | some pr =>
      cases pr with
      | mk idx hpA =>
        dsimp only
        have hwfA : HeapWF hpA := heap_queue_pop_wf kind hp idx hpA hwf hq
        split
        · exact ih hpA tc hwfA
        · split
          · exact ih hpA tc hwfA
          · have hwfB : HeapWF (heap_clear_enqueued hpA idx) :=
              heap_clear_enqueued_wf hpA idx hwfA
            obtain ⟨hna, hnone, hsome⟩ :=
              try_segment_spec (heap_clear_enqueued hpA idx) tc kind need idx
                hwfB hneed
            cases htry : (heap_clear_enqueued hpA idx).try_segment tc kind need
                idx with
            | dfAbort => exact absurd htry hna
            | res optr hpC tcC =>
              cases optr with
              | none => exact ih hpC tcC (hnone hpC tcC htry)
              | some ptr0 =>
                obtain ⟨hwfC, hgoodC⟩ := hsome ptr0 hpC tcC htry
                refine ⟨fun h => TryRes.noConfusion h, ?_, ?_⟩
                · intro hp1 tc1 h
                  rw [TryRes.res.injEq] at h
                  exact absurd h.1 (by simp)
                · intro ptr hp1 tc1 h
                  rw [TryRes.res.injEq] at h
                  obtain ⟨hptr, hhp, _⟩ := h
                  rw [Option.some_inj] at hptr
                  subst hptr
                  rw [← hhp]
                  exact ⟨hwfC, hgoodC⟩

/-- The snapshot fallback scan under `HeapWF`. -/
theorem heap_scan_loop_spec (kind : page_kind) (need : Nat) (hneed : 0 < need) :
    ∀ (cands : List Nat) (fuel : Nat) (hp : HeapState) (tc : ThreadCache),
      HeapWF hp →
      heap_scan_loop kind need cands fuel hp tc ≠ .dfAbort ∧
      (∀ hp1 tc1, heap_scan_loop kind need cands fuel hp tc = .res none hp1 tc1 →
        HeapWF hp1) ∧
      (∀ ptr hp1 tc1,
        heap_scan_loop kind need cands fuel hp tc = .res (some ptr) hp1 tc1 →
        HeapWF hp1 ∧ HeapGood need ptr hp1) := by
  intro cands
  induction cands with
  | nil =>
    intro fuel hp tc hwf
    rw [heap_scan_loop]
    refine ⟨fun h => TryRes.noConfusion h, ?_, ?_⟩
    · intro hp1 tc1 h
      rw [TryRes.res.injEq] at h
      rw [← h.2.1]
      exact hwf
    · intro ptr hp1 tc1 h
      rw [TryRes.res.injEq] at h
      exact absurd h.1 (by simp)
  | cons idx rest ih =>
    intro fuel hp tc hwf
    cases fuel with
    | zero =>
      rw [heap_scan_loop]
      refine ⟨fun h => TryRes.noConfusion h, ?_, ?_⟩
      · intro hp1 tc1 h
        rw [TryRes.res.injEq] at h
        rw [← h.2.1]
        exact hwf
      · intro ptr hp1 tc1 h
        rw [TryRes.res.injEq] at h
        exact absurd h.1 (by simp)
    | succ m =>
      rw [heap_scan_loop]
      obtain ⟨hna, hnone, hsome⟩ :=
        try_segment_spec hp tc kind need idx hwf hneed
      cases htry : hp.try_segment tc kind need idx with
      | dfAbort => exact absurd htry hna
      | res optr hpC tcC =>
        cases optr with
        | none => exact ih m hpC tcC (hnone hpC tcC htry)
        | some ptr0 =>
          obtain ⟨hwfC, hgoodC⟩ := hsome ptr0 hpC tcC htry
          refine ⟨fun h => TryRes.noConfusion h, ?_, ?_⟩
          · intro hp1 tc1 h
            rw [TryRes.res.injEq] at h
            exact absurd h.1 (by simp)
          · intro ptr hp1 tc1 h
            rw [TryRes.res.injEq] at h
            obtain ⟨hptr, hhp, _⟩ := h
            rw [Option.some_inj] at hptr
            subst hptr
            rw [← hhp]
            exact ⟨hwfC, hgoodC⟩

theorem getD_append_left_any {α : Type} (l1 l2 : List α) (i : Nat) (d : α)
    (h : i < l1.length) : (l1 ++ l2).getD i d = l1.getD i d := by
  rw [List.getD_eq_getElem?_getD, List.getElem?_append, if_pos h,
    ← List.getD_eq_getElem?_getD]

theorem getD_append_last_any {α : Type} (l : List α) (x d : α) :
    (l ++ [x]).getD l.length d = x := by
  rw [List.getD_eq_getElem?_getD, List.getElem?_append_right (Nat.le_refl _)]
  simp

/-- `add_segment_nolock` on a nonzero 16-aligned base always succeeds under
`HeapWF`: the heap stays well-formed, the layout grows by one, the header
memory is untouched, and the new last segment is a fresh segment for `pk`
(up to its queued flag) based at the requested address. -/
theorem add_segment_nolock_spec (hp : HeapState) (segment_base : Nat)
    (kind : segment_kind) (pk : page_kind) (rng : Nat) (hwf : HeapWF hp)
    (hb0 : segment_base ≠ 0) (hb16 : 16 ∣ segment_base) :
    ∃ hp5, hp.add_segment_nolock segment_base kind pk rng = some hp5 ∧
      HeapWF hp5 ∧ hp5.hdrs = hp.hdrs ∧
      hp5.layout.length = hp.layout.length + 1 ∧
      hp5.reserved_cursor = hp.reserved_cursor ∧
      (hp5.layout.getD hp.layout.length Segment.mk0).base = segment_base ∧
      (hp5.layout.getD hp.layout.length Segment.mk0).size_class = pk ∧
      (hp5.layout.getD hp.layout.length Segment.mk0).fixed_chunk_set = false ∧
      (hp5.layout.getD hp.layout.length Segment.mk0).next_candidate_idx = 0 ∧
      0 < (hp5.layout.getD hp.layout.length Segment.mk0).page_count ∧
      (hp5.layout.getD hp.layout.length Segment.mk0).pages
        = List.replicate (hp5.layout.getD hp.layout.length Segment.mk0).page_count
          { Page.mk0 with owner_segment_idx := hp.layout.length } := by
  have hinit0 : ∃ seg0, Segment.init segment_base pk hp.layout.length rng
      = some seg0 := by
    unfold Segment.init
    rw [if_neg hb0]
    dsimp only
    rw [if_neg (show ¬(SEGMENT_SIZE / page_size_for_kind pk = 0) by
      have h := seg_page_count_pos pk
      have h2 : SEGMENT_SIZE / page_size_for_kind pk
          = SEGMENT_SIZE / page_kind_size pk := rfl
      omega)]
    exact ⟨_, rfl⟩
  obtain ⟨seg0, hinit⟩ := hinit0
  obtain ⟨hsw0, hsr0, hsi0, hsc0, hbase0, hfix0, hnc0, hpc0, hpages0⟩ :=
    Segment.init_wf _ _ _ _ _ hb16 hinit
  have hpc0pos : 0 < seg0.page_count := hsw0.2.2.2.1
  unfold HeapState.add_segment_nolock
  rw [if_neg hb0, hinit]
  dsimp only
  have hwf1 : HeapWF { hp with
      layout := hp.layout ++ [seg0]
      seg_kind := hp.seg_kind ++ [kind]
      seg_bases := hp.seg_bases ++ [segment_base]
      seg_page_kind := hp.seg_page_kind ++ [pk]
      num_segments := hp.layout.length + 1
      class_shards := (hp.class_shards.set (class_index_for_kind pk)
        { hp.class_shards.getD (class_index_for_kind pk) ⟨[], []⟩ with
          segments := (hp.class_shards.getD (class_index_for_kind pk)
            ⟨[], []⟩).segments ++ [hp.layout.length] }) } := by
    obtain ⟨h16, hsegs, hidx, hcur⟩ := hwf
    refine ⟨h16, ?_, ?_, hcur⟩
    · intro seg hseg
      rw [List.mem_append] at hseg
      rcases hseg with hm | hm
      · exact hsegs seg hm
      · rw [List.mem_singleton] at hm
        subst hm
        exact ⟨hsw0, hsr0⟩
    · intro i hi
      have hi' : i < (hp.layout ++ [seg0]).length := hi
      rw [List.length_append, List.length_singleton] at hi'
      show ((hp.layout ++ [seg0]).getD i Segment.mk0).self_idx = i
      rcases Nat.lt_or_ge i hp.layout.length with hlt | hge
      · rw [getD_append_left_any _ _ _ _ hlt]
        exact hidx i hlt
      · have hieq : i = hp.layout.length := by omega
        subst hieq
        rw [getD_append_last_any]
        exact hsi0
  obtain ⟨hwf2, hh2, hl2, hb2, hrs2, hrc2, hfields2⟩ :=
    enqueue_wf _ pk hp.layout.length hwf1
  refine ⟨_, rfl, ?_, ?_, ?_, ?_, ?_, ?_, ?_, ?_, ?_, ?_⟩
  · split
    · obtain ⟨_, b2, c2, d2⟩ := hwf2
      exact ⟨hb16, b2, c2, d2⟩
    · exact hwf2
  · split
    · exact hh2
    · exact hh2
  · have hl1 : (hp.layout ++ [seg0]).length = hp.layout.length + 1 := by
      rw [List.length_append, List.length_singleton]
    split
    · rw [hl2]
      exact hl1
    · rw [hl2]
      exact hl1
  · split
    · exact hrc2
    · exact hrc2
  · obtain ⟨hfp, hfb, hfc, hff, hfn, hfpc⟩ := hfields2 hp.layout.length
    have hgetD : (hp.layout ++ [seg0]).getD hp.layout.length Segment.mk0
        = seg0 := getD_append_last_any _ _ _
    split
    · rw [hfb, hgetD, hbase0]
    · rw [hfb, hgetD, hbase0]
  · obtain ⟨hfp, hfb, hfc, hff, hfn, hfpc⟩ := hfields2 hp.layout.length
    have hgetD : (hp.layout ++ [seg0]).getD hp.layout.length Segment.mk0
        = seg0 := getD_append_last_any _ _ _
    split
    · rw [hfc, hgetD, hsc0]
    · rw [hfc, hgetD, hsc0]
  · obtain ⟨hfp, hfb, hfc, hff, hfn, hfpc⟩ := hfields2 hp.layout.length
    have hgetD : (hp.layout ++ [seg0]).getD hp.layout.length Segment.mk0
        = seg0 := getD_append_last_any _ _ _
    split
    · rw [hff, hgetD, hfix0]
    · rw [hff, hgetD, hfix0]
  · obtain ⟨hfp, hfb, hfc, hff, hfn, hfpc⟩ := hfields2 hp.layout.length
    have hgetD : (hp.layout ++ [seg0]).getD hp.layout.length Segment.mk0
        = seg0 := getD_append_last_any _ _ _
    split
    · rw [hfn, hgetD, hnc0]
    · rw [hfn, hgetD, hnc0]
  · obtain ⟨hfp, hfb, hfc, hff, hfn, hfpc⟩ := hfields2 hp.layout.length
    have hgetD : (hp.layout ++ [seg0]).getD hp.layout.length Segment.mk0
        = seg0 := getD_append_last_any _ _ _
    split
    · rw [hfpc, hgetD]
      exact hpc0pos
    · rw [hfpc, hgetD]
      exact hpc0pos
  · obtain ⟨hfp, hfb, hfc, hff, hfn, hfpc⟩ := hfields2 hp.layout.length
    have hgetD : (hp.layout ++ [seg0]).getD hp.layout.length Segment.mk0
        = seg0 := getD_append_last_any _ _ _
    split
    · rw [hfp, hfpc, hgetD]
      exact hpages0
    · rw [hfp, hfpc, hgetD]
      exact hpages0

/-- `add_segment_from_reserved_nolock` under `HeapWF`: on success the heap
stays well-formed, headers are untouched, the layout grows by one, and the new
last segment is fresh for `pk` at a nonzero base. -/
theorem add_from_reserved_spec (hp : HeapState) (kind : segment_kind)
    (pk : page_kind) (rng : Nat) (commit_ok : Bool) (hwf : HeapWF hp) :
    ∀ hp5, hp.add_segment_from_reserved_nolock kind pk rng commit_ok = some hp5 →
      HeapWF hp5 ∧ hp5.hdrs = hp.hdrs ∧
      hp5.layout.length = hp.layout.length + 1 ∧
      (hp5.layout.getD hp.layout.length Segment.mk0).base ≠ 0 ∧
      (hp5.layout.getD hp.layout.length Segment.mk0).size_class = pk ∧
      (hp5.layout.getD hp.layout.length Segment.mk0).fixed_chunk_set = false ∧
      (hp5.layout.getD hp.layout.length Segment.mk0).next_candidate_idx = 0 ∧
      0 < (hp5.layout.getD hp.layout.length Segment.mk0).page_count ∧
      (hp5.layout.getD hp.layout.length Segment.mk0).pages
        = List.replicate (hp5.layout.getD hp.layout.length Segment.mk0).page_count
          { Page.mk0 with owner_segment_idx := hp.layout.length } ∧
      (hp5.layout.getD hp.layout.length Segment.mk0).base
        = hp.base + hp.reserved_cursor := by
  intro hp5 h
  unfold HeapState.add_segment_from_reserved_nolock at h
  split at h
  · exact absurd h (by simp)
  · split at h
    · exact absurd h (by simp)
    · split at h
      · exact absurd h (by simp)
      · rename_i hguard hcfit hcommit
        have hb0 : hp.base ≠ 0 := by
          intro hb
          exact hguard (Or.inl hb)
        have hsb0 : hp.base + hp.reserved_cursor ≠ 0 := by
          omega
        have hdvS : (16 : Nat) ∣ SEGMENT_SIZE := by
          decide
        have hsb16 : 16 ∣ hp.base + hp.reserved_cursor :=
          Nat.dvd_add hwf.1 hwf.2.2.2
        have hwfC : HeapWF { hp with
            reserved_cursor := hp.reserved_cursor + SEGMENT_SIZE } := by
          obtain ⟨a, b, c, d⟩ := hwf
          exact ⟨a, b, c, Nat.dvd_add d hdvS⟩
        obtain ⟨hp5', heq, hw5, hh5, hl5, hc5, hb5, hsc5, hff5, hnc5, hpc5, hpg5⟩ :=
          add_segment_nolock_spec { hp with
            reserved_cursor := hp.reserved_cursor + SEGMENT_SIZE }
            (hp.base + hp.reserved_cursor) kind pk rng hwfC hsb0 hsb16
        rw [heq, Option.some_inj] at h
        subst h
        exact ⟨hw5, hh5, hl5, by rw [hb5]; exact hsb0, hsc5, hff5, hnc5, hpc5,
          hpg5, hb5⟩

/-- `try_segment` on a freshly added segment of the allocation class
succeeds. -/
theorem try_fresh_ok (hp5 : HeapState) (tc : ThreadCache) (pk : page_kind)
    (need idx : Nat) (hidx : idx < hp5.layout.length)
    (hbase : (hp5.layout.getD idx Segment.mk0).base ≠ 0)
    (hsc : (hp5.layout.getD idx Segment.mk0).size_class = pk)
    (hfix : (hp5.layout.getD idx Segment.mk0).fixed_chunk_set = false)
    (hnc : (hp5.layout.getD idx Segment.mk0).next_candidate_idx = 0)
    (hpc : 0 < (hp5.layout.getD idx Segment.mk0).page_count)
    (hpages : (hp5.layout.getD idx Segment.mk0).pages = List.replicate
      (hp5.layout.getD idx Segment.mk0).page_count
      { Page.mk0 with owner_segment_idx := idx })
    (hneed : 0 < need)
    (hfs : pk = PAGE_SM → need ≤ CHUNK_SM)
    (hfm : pk = PAGE_MED → need ≤ CHUNK_MD)
    (hfl : pk = PAGE_LG → need ≤ LARGE_PAGE_SIZE - CHUNK_HEADER_SIZE)
    (hfx : pk ≠ PAGE_XL) :
    ∃ ptr hp6 tc6, hp5.try_segment tc pk need idx = .res (some ptr) hp6 tc6 := by
  obtain ⟨ptr, pidx, seg1, hdrs1, hal⟩ := Segment.allocate_fresh
    (hp5.layout.getD idx Segment.mk0).base pk idx _ hp5.hdrs need tc.tid hbase
    hneed rfl hsc hfix hnc hpc hpages hfs hfm hfl hfx
  unfold HeapState.try_segment
  rw [if_neg (by omega : ¬(idx ≥ hp5.layout.length))]
  dsimp only
  rw [if_neg (show ¬((hp5.layout.getD idx Segment.mk0).get_size_class ≠ pk) by
    rw [Segment.get_size_class, hsc]
    exact fun hne => hne rfl)]
  rw [if_neg (show
      ¬((hp5.layout.getD idx Segment.mk0).can_hold_request need = false) by
    have hchr : (hp5.layout.getD idx Segment.mk0).can_hold_request need
        = true := by
      unfold Segment.can_hold_request
      rw [hfix]
      simp only [reduceIte, ite_self]
    rw [hchr]
    exact fun hh => Bool.noConfusion hh)]
  rw [hal]
  exact ⟨_, _, _, rfl⟩

theorem alloc_segment_base_dvd (raw : Nat) : 16 ∣ alloc_segment_base raw := by
  unfold alloc_segment_base
  split
  · exact ⟨0, rfl⟩
  · exact dvd_trans (by decide) (align_up_dvd raw SEGMENT_ALIGN)

theorem alloc_segment_base_pos (raw : Nat) (hraw : raw ≠ 0)
    (hb : raw + SEGMENT_ALIGN - 1 < 2 ^ 64) : alloc_segment_base raw ≠ 0 := by
  unfold alloc_segment_base
  rw [if_neg hraw]
  have h := align_up_ge raw SEGMENT_ALIGN (by decide) hb
  omega

theorem align_up16_le_of_le (size m : Nat) (hm : 16 ∣ m) (hle : size ≤ m)
    (hlt : size + 15 < 2 ^ 64) : align_up size 16 ≤ m := by
  have h1 := align_up_le size 16 (by norm_num) (by omega)
  have h2 := align_up_dvd size 16
  obtain ⟨a, ha⟩ := h2
  obtain ⟨b, hb⟩ := hm
  omega

theorem class_for_size_xl_of_large (size : Nat) (h : CHUNK_LG < size) :
    class_for_size size = PAGE_XL := by
  have hsm : CHUNK_SM = 524272 := rfl
  have hmd : CHUNK_MD = 4194288 := rfl
  have hlg : CHUNK_LG = 8388592 := rfl
  unfold class_for_size
  rw [if_neg (by omega), if_neg (by omega), if_neg (by omega)]

/-- Any non-null result of the allocate pipeline is either a `HeapGood` chunk
pointer (for the 16-aligned request) in a well-formed heap or a fresh
16-aligned XL pointer whose header covers the request; the XL path never
touches chunk-header memory. -/
theorem HeapState.allocate_char (hp : HeapState) (tc : ThreadCache)
    (size rng raw : Nat) (commit_ok : Bool) (hwf : HeapWF hp) (hsz : 0 < size) :
    ∀ ptr hp1 tc1,
      hp.allocate tc size rng raw commit_ok = .res (some ptr) hp1 tc1 →
      (HeapWF hp1 ∧ HeapGood (align_up size 16) ptr hp1) ∨
      (ptr % 16 = 0 ∧ ptr ≠ 0 ∧ hp1.hdrs = hp.hdrs ∧
        ∃ mbase map_size, mbase = alloc_segment_base raw ∧
          ptr = mbase + XL_HEADER_SIZE ∧
          hp1.xl_hdrs mbase
            = some ⟨XL_MAGIC, map_size, map_size - XL_HEADER_SIZE⟩ ∧
          size + XL_HEADER_SIZE ≤ map_size) := by
  intro ptr hp1 tc1 h
  unfold HeapState.allocate at h
  split at h
  · rename_i hxl
    right
    cases hax : hp.alloc_xl size raw with
    | mk optr hpX =>
      simp only [hax] at h
      rw [TryRes.res.injEq] at h
      obtain ⟨ho, hhp, _⟩ := h
      unfold HeapState.alloc_xl at hax
      split at hax
      · rw [Prod.mk.injEq] at hax
        rw [← hax.1] at ho
        exact absurd ho (by simp)
      · rename_i hg1
        split at hax
        · rw [Prod.mk.injEq] at hax
          rw [← hax.1] at ho
          exact absurd ho (by simp)
        · rename_i hg2
          dsimp only at hax
          split at hax
          · rw [Prod.mk.injEq] at hax
            rw [← hax.1] at ho
            exact absurd ho (by simp)
          · rename_i hmb
            rw [Prod.mk.injEq] at hax
            obtain ⟨ho2, hhp2⟩ := hax
            rw [← ho2, Option.some_inj] at ho
            have hd16 := alloc_segment_base_dvd raw
            obtain ⟨k, hk⟩ := hd16
            have hxh : XL_HEADER_SIZE = 32 := rfl
            have hle : size ≤ HEAP_RESERVED_DEFAULT := by
              omega
            have hbig : HEAP_RESERVED_DEFAULT = 107374182400 := rfl
            have hmap : align_up size 16 + XL_HEADER_SIZE
                ≤ align_up (align_up size 16 + XL_HEADER_SIZE) 4096 := by
              apply align_up_ge _ 4096 (by norm_num)
              have hub := align_up_le size 16 (by norm_num) (by omega)
              omega
            have hsz16 := align_up_ge size 16 (by norm_num) (by omega)
            refine ⟨?_, ?_, ?_, alloc_segment_base raw,
              align_up (align_up size 16 + XL_HEADER_SIZE) 4096, rfl, ?_, ?_, ?_⟩
            · omega
            · omega
            · rw [← hhp, ← hhp2]
            · omega
            · rw [← hhp, ← hhp2]
              show xl_write hp.xl_hdrs (alloc_segment_base raw)
                ⟨XL_MAGIC, _, _⟩ (alloc_segment_base raw) = _
              unfold xl_write
              rw [if_pos rfl]
            · omega
  · rename_i hxl
    left
    dsimp only at h
    have hsm : CHUNK_SM = 524272 := rfl
    have hmd : CHUNK_MD = 4194288 := rfl
    have hlg : CHUNK_LG = 8388592 := rfl
    have hlp : LARGE_PAGE_SIZE = 16777216 := rfl
    have hch : CHUNK_HEADER_SIZE = 16 := rfl
    have hsz64 : size + 15 < 2 ^ 64 := by
      by_contra hc
      exact hxl ⟨class_for_size_xl_of_large size (by omega), by omega⟩
    have hN : 0 < align_up size 16 := by
      have := align_up_ge size 16 (by norm_num) (by omega)
      omega
    obtain ⟨hna1, hnone1, hsome1⟩ := heap_fast_path_spec
      (if class_for_size size = PAGE_XL then PAGE_LG else class_for_size size)
      (align_up size 16) hp tc hwf hN
    cases hf : heap_fast_path
        (if class_for_size size = PAGE_XL then PAGE_LG else class_for_size size)
        (align_up size 16) hp tc with
    | dfAbort => exact absurd hf hna1
    | res optr hpA tcA =>
      simp only [hf] at h
      cases optr with
      | some p0 =>
        rw [TryRes.res.injEq, Option.some_inj] at h
        obtain ⟨hp0, hhp, _⟩ := h
        subst hp0
        rw [← hhp]
        obtain ⟨hwfA, hgoodA⟩ := hsome1 p0 hpA tcA hf
        exact ⟨hwfA, hgoodA⟩
      | none =>
        have hwfA := hnone1 hpA tcA hf
        obtain ⟨hna2, hnone2, hsome2⟩ := heap_preferred_spec
          (if class_for_size size = PAGE_XL then PAGE_LG else class_for_size size)
          (align_up size 16) hpA tcA hwfA hN
        cases hpf : heap_preferred
            (if class_for_size size = PAGE_XL then PAGE_LG else
              class_for_size size) (align_up size 16) hpA tcA with
        | dfAbort => exact absurd hpf hna2
        | res optr2 hpB tcB =>
          simp only [hpf] at h
          cases optr2 with
          | some p0 =>
            rw [TryRes.res.injEq, Option.some_inj] at h
            obtain ⟨hp0, hhp, _⟩ := h
            subst hp0
            rw [← hhp]
            exact hsome2 p0 hpB tcB hpf
          | none =>
            have hwfB := hnone2 hpB tcB hpf
            obtain ⟨hna3, hnone3, hsome3⟩ := heap_queue_loop_spec
              (if class_for_size size = PAGE_XL then PAGE_LG else
                class_for_size size) (align_up size 16) hN
              MAX_QUEUE_PROBES_PER_ALLOC hpB tcB hwfB
            cases hql : heap_queue_loop
                (if class_for_size size = PAGE_XL then PAGE_LG else
                  class_for_size size) (align_up size 16)
                MAX_QUEUE_PROBES_PER_ALLOC hpB tcB with
            | dfAbort => exact absurd hql hna3
            | res optr3 hpC tcC =>
              simp only [hql] at h
              cases optr3 with
              | some p0 =>
                rw [TryRes.res.injEq, Option.some_inj] at h
                obtain ⟨hp0, hhp, _⟩ := h
                subst hp0
                rw [← hhp]
                exact hsome3 p0 hpC tcC hql
              | none =>
                have hwfC := hnone3 hpC tcC hql
                obtain ⟨hna4, hnone4, hsome4⟩ := heap_scan_loop_spec
                  (if class_for_size size = PAGE_XL then PAGE_LG else
                    class_for_size size) (align_up size 16) hN
                  ((hpC.class_shards.getD (class_index_for_kind
                    (if class_for_size size = PAGE_XL then PAGE_LG else
                      class_for_size size)) ⟨[], []⟩).segments)
                  MAX_FALLBACK_SCANS_PER_ALLOC hpC tcC hwfC
                cases hsl : heap_scan_loop
                    (if class_for_size size = PAGE_XL then PAGE_LG else
                      class_for_size size) (align_up size 16)
                    ((hpC.class_shards.getD (class_index_for_kind
                      (if class_for_size size = PAGE_XL then PAGE_LG else
                        class_for_size size)) ⟨[], []⟩).segments)
                    MAX_FALLBACK_SCANS_PER_ALLOC hpC tcC with
                | dfAbort => exact absurd hsl hna4
                | res optr4 hpD tcD =>
                  simp only [hsl] at h
                  cases optr4 with
                  | some p0 =>
                    rw [TryRes.res.injEq, Option.some_inj] at h
                    obtain ⟨hp0, hhp, _⟩ := h
                    subst hp0
                    rw [← hhp]
                    exact hsome4 p0 hpD tcD hsl
                  | none =>
                    have hwfD := hnone4 hpD tcD hsl
                    cases hres : hpD.add_segment_from_reserved_nolock
                        SEGMENT_NORM
                        (if class_for_size size = PAGE_XL then PAGE_LG else
                          class_for_size size) rng commit_ok with
                    | some hp5 =>
                      simp only [hres] at h
                      obtain ⟨hwf5, _, _, _, _, _, _, _, _⟩ :=
                        add_from_reserved_spec hpD SEGMENT_NORM _ rng commit_ok
                          hwfD hp5 hres
                      obtain ⟨hna5, hnone5, hsome5⟩ := try_segment_spec hp5 tcD
                        (if class_for_size size = PAGE_XL then PAGE_LG else
                          class_for_size size) (align_up size 16)
                        (hp5.layout.length - 1) hwf5 hN
                      exact hsome5 ptr hp1 tc1 h
                    | none =>
                      simp only [hres] at h
                      split at h
                      · rw [TryRes.res.injEq] at h
                        exact absurd h.1 (by simp)
                      · rename_i hmb0
                        obtain ⟨hp5, heq5, hwf5, _, _, _, _, _, _, _, _, _⟩ :=
                          add_segment_nolock_spec hpD (alloc_segment_base raw)
                            SEGMENT_NORM
                            (if class_for_size size = PAGE_XL then PAGE_LG else
                              class_for_size size) rng hwfD hmb0
                            (alloc_segment_base_dvd raw)
                        simp only [heq5] at h
                        obtain ⟨hna5, hnone5, hsome5⟩ := try_segment_spec hp5
                          tcD
                          (if class_for_size size = PAGE_XL then PAGE_LG else
                            class_for_size size) (align_up size 16)
                          (hp5.layout.length - 1) hwf5 hN
                        exact hsome5 ptr hp1 tc1 h

theorem class_for_size_char (size : Nat) :
    (class_for_size size = PAGE_SM → size ≤ CHUNK_SM) ∧
    (class_for_size size = PAGE_MED → size ≤ CHUNK_MD) ∧
    (class_for_size size = PAGE_LG → size ≤ CHUNK_LG) := by
  unfold class_for_size
  split
  · rename_i h1
    exact ⟨fun _ => h1, fun he => page_kind.noConfusion he,
      fun he => page_kind.noConfusion he⟩
  · rename_i h1
    split
    · rename_i h2
      exact ⟨fun he => page_kind.noConfusion he, fun _ => h2,
        fun he => page_kind.noConfusion he⟩
    · rename_i h2
      split
      · rename_i h3
        exact ⟨fun he => page_kind.noConfusion he,
          fun he => page_kind.noConfusion he, fun _ => h3⟩
      · exact ⟨fun he => page_kind.noConfusion he,
          fun he => page_kind.noConfusion he,
          fun he => page_kind.noConfusion he⟩

/-- `try_segment` on the just-appended (last) fresh segment returns a nonzero
pointer. -/
theorem try_last_fresh_ok (hp5 : HeapState) (tcD : ThreadCache) (K : page_kind)
    (N lenD : Nat) (hwf5 : HeapWF hp5) (hN : 0 < N)
    (hl5 : hp5.layout.length = lenD + 1)
    (hb5 : (hp5.layout.getD lenD Segment.mk0).base ≠ 0)
    (hsc5 : (hp5.layout.getD lenD Segment.mk0).size_class = K)
    (hff5 : (hp5.layout.getD lenD Segment.mk0).fixed_chunk_set = false)
    (hnc5 : (hp5.layout.getD lenD Segment.mk0).next_candidate_idx = 0)
    (hpc5 : 0 < (hp5.layout.getD lenD Segment.mk0).page_count)
    (hpg5 : (hp5.layout.getD lenD Segment.mk0).pages = List.replicate
      (hp5.layout.getD lenD Segment.mk0).page_count
      { Page.mk0 with owner_segment_idx := lenD })
    (hfs : K = PAGE_SM → N ≤ CHUNK_SM)
    (hfm : K = PAGE_MED → N ≤ CHUNK_MD)
    (hfl : K = PAGE_LG → N ≤ LARGE_PAGE_SIZE - CHUNK_HEADER_SIZE)
    (hfx : K ≠ PAGE_XL) :
    ∃ ptr hp6 tc6, hp5.try_segment tcD K N (hp5.layout.length - 1)
      = .res (some ptr) hp6 tc6 ∧ ptr ≠ 0 := by
  have hidx : hp5.layout.length - 1 = lenD := by
    omega
  rw [hidx]
  obtain ⟨ptr, hp6, tc6, heq⟩ := try_fresh_ok hp5 tcD K N lenD (by omega) hb5
    hsc5 hff5 hnc5 hpc5 hpg5 hN hfs hfm hfl hfx
  obtain ⟨hwf6, hgood⟩ := (try_segment_spec hp5 tcD K N lenD hwf5 hN).2.2 ptr
    hp6 tc6 heq
  exact ⟨ptr, hp6, tc6, heq, hgood.2.1⟩

/-- Under heap well-formedness and a working OS, the allocate pipeline returns
a nonzero pointer for every request that passes `malloc`'s argument checks. -/
theorem HeapState.allocate_ok (hp : HeapState) (tc : ThreadCache)
    (size rng raw : Nat) (commit_ok : Bool) (hwf : HeapWF hp)
    (hsz : 0 < size) (hszlt : size < SIZE_MAX - 4096)
    (hle : size ≤ HEAP_RESERVED_DEFAULT)
    (hraw : raw ≠ 0) (hraw2 : raw + SEGMENT_ALIGN - 1 < 2 ^ 64) :
    ∃ ptr hp1 tc1,
      hp.allocate tc size rng raw commit_ok = .res (some ptr) hp1 tc1 ∧
        ptr ≠ 0 := by
  have hsmax : SIZE_MAX = 2 ^ 64 - 1 := rfl
  have hbig : HEAP_RESERVED_DEFAULT = 107374182400 := rfl
  have hsz64 : size + 15 < 2 ^ 64 := by
    omega
  have hN : 0 < align_up size 16 := by
    have := align_up_ge size 16 (by norm_num) (by omega)
    omega
  have hmb0 : alloc_segment_base raw ≠ 0 := alloc_segment_base_pos raw hraw hraw2
  unfold HeapState.allocate
  split
  · rename_i hxl
    unfold HeapState.alloc_xl
    rw [if_neg (by omega : ¬(size ≥ SIZE_MAX - 4096))]
    rw [if_neg (by omega : ¬(size > HEAP_RESERVED_DEFAULT))]
    dsimp only
    rw [if_neg hmb0]
    refine ⟨alloc_segment_base raw + XL_HEADER_SIZE, _, tc, rfl, ?_⟩
    have hxh : XL_HEADER_SIZE = 32 := rfl
    omega
  · rename_i hxl
    dsimp only
    have hchar := class_for_size_char size
    have h16sm : (16 : Nat) ∣ CHUNK_SM := by decide
    have h16md : (16 : Nat) ∣ CHUNK_MD := by decide
    have h16lg : (16 : Nat) ∣ (LARGE_PAGE_SIZE - CHUNK_HEADER_SIZE) := by decide
    have hfs : (if class_for_size size = PAGE_XL then PAGE_LG else
        class_for_size size) = PAGE_SM → align_up size 16 ≤ CHUNK_SM := by
      intro hk
      by_cases hcx : class_for_size size = PAGE_XL
      · rw [if_pos hcx] at hk
        exact absurd hk (by intro he; exact page_kind.noConfusion he)
      · rw [if_neg hcx] at hk
        exact align_up16_le_of_le _ _ h16sm (hchar.1 hk) hsz64
    have hfm : (if class_for_size size = PAGE_XL then PAGE_LG else
        class_for_size size) = PAGE_MED → align_up size 16 ≤ CHUNK_MD := by
      intro hk
      by_cases hcx : class_for_size size = PAGE_XL
      · rw [if_pos hcx] at hk
        exact absurd hk (by intro he; exact page_kind.noConfusion he)
      · rw [if_neg hcx] at hk
        exact align_up16_le_of_le _ _ h16md (hchar.2.1 hk) hsz64
    have hfl : (if class_for_size size = PAGE_XL then PAGE_LG else
        class_for_size size) = PAGE_LG →
        align_up size 16 ≤ LARGE_PAGE_SIZE - CHUNK_HEADER_SIZE := by
      intro hk
      by_cases hcx : class_for_size size = PAGE_XL
      · have hsle : size ≤ LARGE_PAGE_SIZE - CHUNK_HEADER_SIZE := by
          by_contra hc
          exact hxl ⟨hcx, by omega⟩
        exact align_up16_le_of_le _ _ h16lg hsle hsz64
      · rw [if_neg hcx] at hk
        have hlg : CHUNK_LG = 8388592 := rfl
        have hlp : LARGE_PAGE_SIZE = 16777216 := rfl
        have hch : CHUNK_HEADER_SIZE = 16 := rfl
        exact align_up16_le_of_le _ _ h16lg (by have := hchar.2.2 hk; omega)
          hsz64
    have hfx : (if class_for_size size = PAGE_XL then PAGE_LG else
        class_for_size size) ≠ PAGE_XL := by
      by_cases hcx : class_for_size size = PAGE_XL
      · rw [if_pos hcx]
        intro he
        exact page_kind.noConfusion he
      · rw [if_neg hcx]
        exact hcx
    obtain ⟨hna1, hnone1, hsome1⟩ := heap_fast_path_spec
      (if class_for_size size = PAGE_XL then PAGE_LG else class_for_size size)
      (align_up size 16) hp tc hwf hN
    cases hf : heap_fast_path
        (if class_for_size size = PAGE_XL then PAGE_LG else class_for_size size)
        (align_up size 16) hp tc with
    | dfAbort => exact absurd hf hna1
    | res optr hpA tcA =>
      cases optr with
      | some p0 =>
        obtain ⟨hwfA, hgoodA⟩ := hsome1 p0 hpA tcA hf
        exact ⟨p0, hpA, tcA, rfl, hgoodA.2.1⟩
      | none =>
        dsimp only
        have hwfA := hnone1 hpA tcA hf
        obtain ⟨hna2, hnone2, hsome2⟩ := heap_preferred_spec
          (if class_for_size size = PAGE_XL then PAGE_LG else class_for_size size)
          (align_up size 16) hpA tcA hwfA hN
        cases hpf : heap_preferred
            (if class_for_size size = PAGE_XL then PAGE_LG else
              class_for_size size) (align_up size 16) hpA tcA with
        | dfAbort => exact absurd hpf hna2
        | res optr2 hpB tcB =>
          cases optr2 with
          | some p0 =>
            obtain ⟨hwfB, hgoodB⟩ := hsome2 p0 hpB tcB hpf
            exact ⟨p0, hpB, tcB, rfl, hgoodB.2.1⟩
          | none =>
            dsimp only
            have hwfB := hnone2 hpB tcB hpf
            obtain ⟨hna3, hnone3, hsome3⟩ := heap_queue_loop_spec
              (if class_for_size size = PAGE_XL then PAGE_LG else
                class_for_size size) (align_up size 16) hN
              MAX_QUEUE_PROBES_PER_ALLOC hpB tcB hwfB
            cases hql : heap_queue_loop
                (if class_for_size size = PAGE_XL then PAGE_LG else
                  class_for_size size) (align_up size 16)
                MAX_QUEUE_PROBES_PER_ALLOC hpB tcB with
            | dfAbort => exact absurd hql hna3
            | res optr3 hpC tcC =>
              cases optr3 with
              | some p0 =>
                obtain ⟨hwfC, hgoodC⟩ := hsome3 p0 hpC tcC hql
                exact ⟨p0, hpC, tcC, rfl, hgoodC.2.1⟩
              | none =>
                dsimp only
                have hwfC := hnone3 hpC tcC hql
                obtain ⟨hna4, hnone4, hsome4⟩ := heap_scan_loop_spec
                  (if class_for_size size = PAGE_XL then PAGE_LG else
                    class_for_size size) (align_up size 16) hN
                  ((hpC.class_shards.getD (class_index_for_kind
                    (if class_for_size size = PAGE_XL then PAGE_LG else
                      class_for_size size)) ⟨[], []⟩).segments)
                  MAX_FALLBACK_SCANS_PER_ALLOC hpC tcC hwfC
                cases hsl : heap_scan_loop
                    (if class_for_size size = PAGE_XL then PAGE_LG else
                      class_for_size size) (align_up size 16)
                    ((hpC.class_shards.getD (class_index_for_kind
                      (if class_for_size size = PAGE_XL then PAGE_LG else
                        class_for_size size)) ⟨[], []⟩).segments)
                    MAX_FALLBACK_SCANS_PER_ALLOC hpC tcC with
                | dfAbort => exact absurd hsl hna4
                | res optr4 hpD tcD =>
                  cases optr4 with
                  | some p0 =>
                    obtain ⟨hwfD, hgoodD⟩ := hsome4 p0 hpD tcD hsl
                    exact ⟨p0, hpD, tcD, rfl, hgoodD.2.1⟩
                  | none =>
                    dsimp only
                    have hwfD := hnone4 hpD tcD hsl
                    cases hres : hpD.add_segment_from_reserved_nolock
                        SEGMENT_NORM
                        (if class_for_size size = PAGE_XL then PAGE_LG else
                          class_for_size size) rng commit_ok with
                    | some hp5 =>
                      dsimp only
                      obtain ⟨hwf5, _, hl5, hb5, hsc5, hff5, hnc5, hpc5, hpg5, _⟩ :=
                        add_from_reserved_spec hpD SEGMENT_NORM _ rng commit_ok
                          hwfD hp5 hres
                      exact try_last_fresh_ok hp5 tcD _ _ hpD.layout.length
                        hwf5 hN hl5 hb5 hsc5 hff5 hnc5 hpc5 hpg5 hfs hfm hfl hfx
                    | none =>
                      dsimp only
                      obtain ⟨hp5, heq5, hwf5, _, hl5, _, hb5, hsc5, hff5, hnc5,
                        hpc5, hpg5⟩ :=
                        add_segment_nolock_spec hpD (alloc_segment_base raw)
                          SEGMENT_NORM
                          (if class_for_size size = PAGE_XL then PAGE_LG else
                            class_for_size size) rng hwfD hmb0
                          (alloc_segment_base_dvd raw)
                      rw [heq5]
                      exact try_last_fresh_ok hp5 tcD _ _ hpD.layout.length
                        hwf5 hN hl5 (by rw [hb5]; exact hmb0) hsc5 hff5 hnc5
                        hpc5 hpg5 hfs hfm hfl hfx

/-! ### The claim layer: entry-point theorems for the spec claims -/

/-- The default-constructed heap is well-formed (no segments yet). -/
theorem HeapWF_empty : HeapWF HeapState.empty := by
  refine ⟨⟨0, rfl⟩, ?_, ?_, ⟨0, rfl⟩⟩
  · intro seg hseg
    exact absurd hseg (List.not_mem_nil seg)
  · intro i hi
    exact absurd hi (by simp [HeapState.empty])

/-- A `HeapGood` chunk pointer reports a usable size covering the (16-aligned)
request through `HeapState::usable_size`, under any `uaf_check` setting. -/
theorem HeapGood_usable (need ptr : Nat) (hp : HeapState) (uaf : Bool)
    (hg : HeapGood need ptr hp) :
    ∃ n, hp.usable_size ptr uaf = SizeRes.ok n ∧ need ≤ n := by
  obtain ⟨h16, h0, si, pidx, slot, hh, hsi, hle, hcont, hok, hbit⟩ := hg
  refine ⟨((hp.layout.getD si Segment.mk0).pages.getD pidx Page.mk0).chunk_usable,
    ?_, hle⟩
  unfold HeapState.usable_size
  rw [if_neg h0, hh]
  dsimp only
  rw [if_neg (fun hne => hne rfl)]
  unfold Page.usable_size
  rw [if_neg (by rw [hcont]; simp), hh]
  dsimp only
  rw [if_neg (by rw [hok]; simp)]
  simp only [hbit, Bool.not_true, Bool.and_false, Bool.false_eq_true, if_false]

/-- If the 32 bytes below `ptr` hold no XL header with the XL magic, the XL
fallback of `free_ptr` reports "not ours". -/
theorem free_fallback_xl_miss (hp : HeapState) (tc : ThreadCache) (ptr : Nat)
    (hxm : ∀ xh, hp.xl_hdrs (ptr - XL_HEADER_SIZE) = some xh →
      xh.magic ≠ XL_MAGIC) :
    hp.free_fallback_xl tc ptr = HFreeRes.notFound := by
  unfold HeapState.free_fallback_xl HeapState.free_xl
  by_cases hp0 : ptr = 0
  · rw [if_pos hp0]
  · rw [if_neg hp0]
    cases hx : hp.xl_hdrs (ptr - XL_HEADER_SIZE) with
    | none => rfl
    | some xh =>
      dsimp only
      rw [if_pos (hxm xh hx)]

/-- C1: an allocation request that passes the pipeline's argument checks
(`size > 0`, `size < SIZE_MAX - 4096`, `size` at most the reserved size)
returns a non-null pointer out of any well-formed heap whenever the OS
primitives can still provide memory (a nonzero in-range `mmap` address for
the at-most-one fresh mapping the call can perform). -/
theorem claim_C1_allocate_nonnull (hp : HeapState) (tc : ThreadCache)
    (size rng raw : Nat) (commit_ok : Bool) (hwf : HeapWF hp)
    (hsz : 0 < size) (hszlt : size < SIZE_MAX - 4096)
    (hle : size ≤ HEAP_RESERVED_DEFAULT) (hraw : raw ≠ 0)
    (hraw2 : raw + SEGMENT_ALIGN - 1 < 2 ^ 64) :
    ∃ ptr hp1 tc1,
      hp.allocate tc size rng raw commit_ok = TryRes.res (some ptr) hp1 tc1 ∧
      ptr ≠ 0 :=
  HeapState.allocate_ok hp tc size rng raw commit_ok hwf hsz hszlt hle hraw hraw2

/-- Witness for C1: a 40000-byte request on the empty heap with a fresh
mapping at raw address 4096 returns a non-null pointer. -/
theorem claim_C1_allocate_nonnull_witness :
    ∃ ptr hp1 tc1,
      HeapState.empty.allocate tcW 40000 0 4096 false
        = TryRes.res (some ptr) hp1 tc1 ∧ ptr ≠ 0 :=
  claim_C1_allocate_nonnull HeapState.empty tcW 40000 0 4096 false HeapWF_empty
    (by decide) (by decide) (by decide) (by decide) (by decide)

/-- C4: any non-null pointer returned by the allocate pipeline is 16-byte
aligned and `usable_size` reports at least the requested size for it (the
hypothesis on `hp.hdrs` says the one fresh XL mapping this call could create
carries no stale chunk header, which holds for any heap that only ever reads
headers it wrote into mapped segments). -/
theorem claim_C4_usable_size_aligned (hp : HeapState) (tc : ThreadCache)
    (size rng raw : Nat) (commit_ok uaf : Bool) (ptr : Nat) (hp1 : HeapState)
    (tc1 : ThreadCache) (hwf : HeapWF hp) (hsz : 0 < size)
    (hfresh : hp.hdrs (alloc_segment_base raw + XL_HEADER_SIZE
      - CHUNK_HEADER_SIZE) = none)
    (h : hp.allocate tc size rng raw commit_ok = TryRes.res (some ptr) hp1 tc1) :
    ptr % 16 = 0 ∧ ∃ n, hp1.usable_size ptr uaf = SizeRes.ok n ∧ size ≤ n := by
  have hsmall : size + 15 < 2 ^ 64 := by
    by_contra hc
    push_neg at hc
    have hlg : CHUNK_LG = 8388592 := rfl
    have hlp : LARGE_PAGE_SIZE = 16777216 := rfl
    have hch : CHUNK_HEADER_SIZE = 16 := rfl
    have hguard : class_for_size size = PAGE_XL
        ∧ size > LARGE_PAGE_SIZE - CHUNK_HEADER_SIZE :=
      ⟨class_for_size_xl_of_large size (by omega), by omega⟩
    unfold HeapState.allocate at h
    rw [if_pos hguard] at h
    unfold HeapState.alloc_xl at h
    rw [if_pos (show size ≥ SIZE_MAX - 4096 by
      have hsm : SIZE_MAX = 2 ^ 64 - 1 := rfl
      omega)] at h
    dsimp only at h
    rw [TryRes.res.injEq] at h
    exact Option.noConfusion h.1
  rcases HeapState.allocate_char hp tc size rng raw commit_ok hwf hsz ptr hp1
      tc1 h with
    ⟨hwf1, hgood⟩ | ⟨h16, h0, hhdr, mbase, map_size, hmb, hptr, hxh, hcover⟩
  · obtain ⟨n, hn, hle⟩ := HeapGood_usable (align_up size 16) ptr hp1 uaf hgood
    refine ⟨hgood.1, n, hn, ?_⟩
    have hge := align_up_ge size 16 (by norm_num) (by omega)
    omega
  · subst hmb
    subst hptr
    have hxl32 : XL_HEADER_SIZE = 32 := rfl
    refine ⟨h16, map_size - XL_HEADER_SIZE, ?_, by omega⟩
    unfold HeapState.usable_size
    rw [if_neg h0, hhdr, hfresh]
    dsimp only
    unfold HeapState.usable_xl
    rw [if_neg h0, Nat.add_sub_cancel, hxh]
    dsimp only
    rw [if_neg (fun hne => hne rfl)]

/-- Witness for C4: a 20000000-byte request takes the XL path, returns the
16-aligned pointer 134217760 and `usable_size` reports 20000736 bytes. -/
theorem claim_C4_usable_size_aligned_witness :
    (134217760 : Nat) % 16 = 0 ∧
    ∃ n, hpC4W.usable_size 134217760 false = SizeRes.ok n ∧ 20000000 ≤ n :=
  claim_C4_usable_size_aligned HeapState.empty tcW 20000000 0 4096 false false
    134217760 hpC4W tcW HeapWF_empty (by decide) rfl rfl

/-- C3 (corrected): what alignment registered segment bases actually have.
A segment added through a fresh mapping sits at `alloc_segment_base raw`,
which is `SEGMENT_ALIGN`-aligned (the code aligns the raw mmap address up);
a segment committed out of the pre-reserved region sits at
`base + reserved_cursor`, i.e. at a `SEGMENT_SIZE` multiple relative to the
reserved region's base — which is a plain `mmap` result with no segment-size
alignment, so the absolute base is in general not a multiple of the segment
size (see the counterexample). -/
theorem claim_C3_segment_base_alignment (hp : HeapState) (raw rng : Nat)
    (kind : segment_kind) (pk : page_kind) (commit_ok : Bool)
    (hwf : HeapWF hp) (hmb : alloc_segment_base raw ≠ 0) :
    (∀ hp5, hp.add_segment_nolock (alloc_segment_base raw) kind pk rng
        = some hp5 →
      SEGMENT_ALIGN ∣ (hp5.layout.getD hp.layout.length Segment.mk0).base) ∧
    (∀ hp5, hp.add_segment_from_reserved_nolock kind pk rng commit_ok
        = some hp5 →
      (hp5.layout.getD hp.layout.length Segment.mk0).base
        = hp.base + hp.reserved_cursor) := by
  constructor
  · intro hp5 h
    obtain ⟨hp5', heq, _, _, _, _, hb5, _, _, _, _, _⟩ :=
      add_segment_nolock_spec hp (alloc_segment_base raw) kind pk rng hwf hmb
        (alloc_segment_base_dvd raw)
    rw [heq, Option.some_inj] at h
    subst h
    rw [hb5]
    unfold alloc_segment_base
    split
    · exact Nat.dvd_zero _
    · exact align_up_dvd raw SEGMENT_ALIGN
  · intro hp5 h
    exact (add_from_reserved_spec hp kind pk rng commit_ok hwf hp5
      h).2.2.2.2.2.2.2.2.2

/-- Witness for C3 (corrected): instantiated at the empty heap and raw mmap
address 4096. -/
theorem claim_C3_segment_base_alignment_witness :
    (∀ hp5, HeapState.empty.add_segment_nolock (alloc_segment_base 4096)
        SEGMENT_NORM PAGE_SM 0 = some hp5 →
      SEGMENT_ALIGN ∣ (hp5.layout.getD HeapState.empty.layout.length
        Segment.mk0).base) ∧
    (∀ hp5, HeapState.empty.add_segment_from_reserved_nolock SEGMENT_NORM
        PAGE_SM 0 false = some hp5 →
      (hp5.layout.getD HeapState.empty.layout.length Segment.mk0).base
        = HeapState.empty.base + HeapState.empty.reserved_cursor) :=
  claim_C3_segment_base_alignment HeapState.empty 4096 0 SEGMENT_NORM PAGE_SM
    false HeapWF_empty (by decide)

/-- Counterexample to C3 as stated: `zialloc_init` with the 100 GiB reserved
region mapped at address 4096 (page-aligned, as `os_reserve_region`'s plain
`mmap` guarantees, but nothing more) registers its first segment at base 4096,
which is a multiple of neither 4 MiB (the claim's segment size S) nor the
code's actual segment size `SEGMENT_SIZE` (128 MiB). -/
theorem claim_C3_reserved_base_cex :
    (zialloc_init_heap 4096 0 true true true).isSome = true ∧
    (hpC3.layout.getD 0 Segment.mk0).base = 4096 ∧
    ¬ ((4 * 1024 * 1024) ∣ (hpC3.layout.getD 0 Segment.mk0).base) ∧
    ¬ (SEGMENT_SIZE ∣ (hpC3.layout.getD 0 Segment.mk0).base) :=
  ⟨rfl, rfl, by decide, by decide⟩

/-- C5 (corrected): the full case split of `Allocator::realloc`.  A null
pointer delegates to `malloc`; size 0 frees and returns null; a request the
current chunk already covers returns the pointer unchanged; on a growing
request the code first calls `malloc` — if that returns a fresh pointer, the
old usable bytes are copied below it and the old pointer is freed, but if
`malloc` returns null, `realloc` returns null WITHOUT freeing or copying the
old pointer (the state is exactly the post-`malloc` state), contrary to the
claim's unconditional "returns a new non-null pointer ... then frees". -/
theorem claim_C5_realloc_cases (st : AllocSt) (ptr size : Nat)
    (os : OSInputs) :
    (ptr = 0 → Allocator.realloc st ptr size os = Allocator.malloc st size os) ∧
    (ptr ≠ 0 → st.initialized = true → size = 0 →
      Allocator.realloc st ptr size os
        = match Allocator.free st ptr with
          | .abort => MallocRes.abort
          | .ret _ st1 => MallocRes.ret none st1) ∧
    (∀ old, ptr ≠ 0 → st.initialized = true → size ≠ 0 →
      st.heap.usable_size ptr st.uaf_check = SizeRes.ok old → size ≤ old →
      Allocator.realloc st ptr size os = MallocRes.ret (some ptr) st) ∧
    (∀ old st1, ptr ≠ 0 → st.initialized = true → size ≠ 0 →
      st.heap.usable_size ptr st.uaf_check = SizeRes.ok old → old < size →
      Allocator.malloc st size os = MallocRes.ret none st1 →
      Allocator.realloc st ptr size os = MallocRes.ret none st1) ∧
    (∀ old new_ptr st1, ptr ≠ 0 → st.initialized = true → size ≠ 0 →
      st.heap.usable_size ptr st.uaf_check = SizeRes.ok old → old < size →
      Allocator.malloc st size os = MallocRes.ret (some new_ptr) st1 →
      (Allocator.realloc st ptr size os
        = match Allocator.free
            { st1 with mem := memcpy st1.mem new_ptr ptr old } ptr with
          | .abort => MallocRes.abort
          | .ret _ st2 => MallocRes.ret (some new_ptr) st2) ∧
      ∀ i, i < old →
        memcpy st1.mem new_ptr ptr old (new_ptr + i) = st1.mem (ptr + i)) := by
  refine ⟨?_, ?_, ?_, ?_, ?_⟩
  · intro hp0
    subst hp0
    unfold Allocator.realloc
    rw [if_pos rfl]
  · intro hp0 hinit hs0
    unfold Allocator.realloc
    rw [if_neg hp0]
    simp only [hinit, Bool.true_eq_false, if_false]
    rw [if_pos hs0]
  · intro old hp0 hinit hs0 hus hle
    unfold Allocator.realloc
    rw [if_neg hp0]
    simp only [hinit, Bool.true_eq_false, if_false]
    rw [if_neg hs0, hus]
    dsimp only
    rw [if_pos (show old ≥ size from hle)]
  · intro old st1 hp0 hinit hs0 hus hlt hm
    unfold Allocator.realloc
    rw [if_neg hp0]
    simp only [hinit, Bool.true_eq_false, if_false]
    rw [if_neg hs0, hus]
    dsimp only
    rw [if_neg (show ¬ old ≥ size by omega), hm]
  · intro old new_ptr st1 hp0 hinit hs0 hus hlt hm
    constructor
    · unfold Allocator.realloc
      rw [if_neg hp0]
      simp only [hinit, Bool.true_eq_false, if_false]
      rw [if_neg hs0, hus]
      dsimp only
      rw [if_neg (show ¬ old ≥ size by omega), hm]
    · intro i hi
      show (if new_ptr ≤ new_ptr + i ∧ new_ptr + i < new_ptr + old
          then st1.mem (ptr + (new_ptr + i - new_ptr))
          else st1.mem (new_ptr + i)) = st1.mem (ptr + i)
      rw [if_pos ⟨Nat.le_add_right _ _, by omega⟩]
      congr 1
      omega

/-- Counterexample to C5 as stated: a growing `realloc` (non-null `ptr`,
nonzero `new_size` exceeding the old usable size) can return null with the
state unchanged — the old pointer is neither copied nor freed — namely when
the inner allocation fails (here: `new_size` above the reserved size). -/
theorem claim_C5_realloc_null_cex :
    Allocator.realloc stC5 4112 (HEAP_RESERVED_DEFAULT + 1) osC5
      = MallocRes.ret none stC5 ∧
    (4112 : Nat) ≠ 0 ∧ stC5.initialized = true ∧
    stC5.heap.usable_size 4112 stC5.uaf_check = SizeRes.ok 0 ∧
    (0 : Nat) < HEAP_RESERVED_DEFAULT + 1 :=
  ⟨rfl, by decide, rfl, rfl, by decide⟩

/-- C6: `Allocator::calloc`'s overflow guard is exact (it fires precisely when
`nmemb * size` exceeds `SIZE_MAX`), calloc returns null on overflow, and any
pointer it returns has its first `nmemb * size` bytes zeroed. -/
theorem claim_C6_calloc_overflow_zeroed (st : AllocSt) (nmemb size : Nat)
    (os : OSInputs) :
    ((nmemb ≠ 0 ∧ size > SIZE_MAX / nmemb) ↔ SIZE_MAX < nmemb * size) ∧
    (SIZE_MAX < nmemb * size →
      Allocator.calloc st nmemb size os = MallocRes.ret none st) ∧
    (∀ p st1, Allocator.calloc st nmemb size os = MallocRes.ret (some p) st1 →
      ∀ i, i < nmemb * size → st1.mem (p + i) = 0) := by
  have hiff : (nmemb ≠ 0 ∧ size > SIZE_MAX / nmemb) ↔ SIZE_MAX < nmemb * size := by
    constructor
    · rintro ⟨hn, hs⟩
      have h1 := Nat.div_add_mod SIZE_MAX nmemb
      have h2 : SIZE_MAX % nmemb < nmemb :=
        Nat.mod_lt _ (Nat.pos_of_ne_zero hn)
      have h3 : nmemb * (SIZE_MAX / nmemb + 1) ≤ nmemb * size :=
        Nat.mul_le_mul_left nmemb hs
      have h4 : nmemb * (SIZE_MAX / nmemb + 1)
          = nmemb * (SIZE_MAX / nmemb) + nmemb := Nat.mul_succ _ _
      omega
    · intro hlt
      have hn : nmemb ≠ 0 := by
        rintro rfl
        rw [Nat.zero_mul] at hlt
        exact absurd hlt (Nat.not_lt_zero _)
      refine ⟨hn, ?_⟩
      by_contra hc
      push_neg at hc
      have h3 : nmemb * size ≤ nmemb * (SIZE_MAX / nmemb) :=
        Nat.mul_le_mul_left nmemb hc
      have h4 : SIZE_MAX / nmemb * nmemb ≤ SIZE_MAX := Nat.div_mul_le_self _ _
      have h5 : nmemb * (SIZE_MAX / nmemb) = SIZE_MAX / nmemb * nmemb :=
        Nat.mul_comm _ _
      omega
  refine ⟨hiff, ?_, ?_⟩
  · intro hover
    unfold Allocator.calloc
    rw [if_pos (hiff.mpr hover)]
  · intro p st1 hret i hi
    unfold Allocator.calloc at hret
    by_cases hg : nmemb ≠ 0 ∧ size > SIZE_MAX / nmemb
    · rw [if_pos hg] at hret
      rw [MallocRes.ret.injEq] at hret
      exact Option.noConfusion hret.1
    · rw [if_neg hg] at hret
      have hno : ¬ SIZE_MAX < nmemb * size := fun hov => hg (hiff.mpr hov)
      have hmod : nmemb * size % 2 ^ 64 = nmemb * size :=
        Nat.mod_eq_of_lt (by
          have hsm : SIZE_MAX = 2 ^ 64 - 1 := rfl
          omega)
      cases hm : Allocator.malloc st (nmemb * size % 2 ^ 64) os with
      | abort =>
        rw [hm] at hret
        exact MallocRes.noConfusion hret
      | ret optr stM =>
        rw [hm] at hret
        cases optr with
        | none =>
          dsimp only at hret
          rw [MallocRes.ret.injEq] at hret
          exact Option.noConfusion hret.1
        | some p0 =>
          dsimp only at hret
          rw [MallocRes.ret.injEq, Option.some_inj] at hret
          obtain ⟨hp0, hst1⟩ := hret
          subst hp0
          rw [← hst1]
          show memset stM.mem p0 0 (nmemb * size % 2 ^ 64) (p0 + i) = 0
          unfold memset
          rw [if_pos ⟨Nat.le_add_right _ _, by omega⟩]

/-- C7: freeing the null pointer is a success no-op (the state is returned
unchanged), and freeing a non-null pointer from an initialized allocator
whose preceding bytes match neither a valid chunk header (chunk magic and a
non-null owner page) nor an XL header (XL magic) aborts the process. -/
theorem claim_C7_free_null_and_miss (st : AllocSt) (ptr : Nat) :
    Allocator.free st 0 = MallocRes.ret none st ∧
    (ptr ≠ 0 → st.initialized = true →
      (∀ hc, st.heap.hdrs (ptr - CHUNK_HEADER_SIZE) = some hc →
        hc.magic ≠ CHUNK_MAGIC ∨ hc.owner = none) →
      (∀ xh, st.heap.xl_hdrs (ptr - XL_HEADER_SIZE) = some xh →
        xh.magic ≠ XL_MAGIC) →
      Allocator.free st ptr = MallocRes.abort) := by
  constructor
  · unfold Allocator.free
    rw [if_pos rfl]
  · intro hp0 hinit hcm hxm
    have hfb : st.heap.free_fallback_xl st.tc ptr = HFreeRes.notFound :=
      free_fallback_xl_miss st.heap st.tc ptr hxm
    have hfp : st.heap.free_ptr st.tc ptr = HFreeRes.notFound := by
      unfold HeapState.free_ptr
      rw [if_neg hp0]
      cases hh : st.heap.hdrs (ptr - CHUNK_HEADER_SIZE) with
      | none =>
        dsimp only
        exact hfb
      | some hc =>
        dsimp only
        cases ho : hc.owner with
        | none =>
          dsimp only
          exact hfb
        | some pr =>
          cases pr with
          | mk si pi =>
            dsimp only
            rcases hcm hc hh with hmag | hown
            · rw [if_pos hmag]
              exact hfb
            · rw [ho] at hown
              exact Option.noConfusion hown
    unfold Allocator.free
    rw [if_neg hp0]
    simp only [hinit, Bool.true_eq_false, if_false]
    rw [hfp]

/-- C10: a free from a thread that is not the page's owner, with room in the
page's deferred ring, succeeds reporting the chunk's usable size while
leaving the page's `used` count, bitmap and status untouched — only the ring
is extended by the pointer; and whenever the page's ring is later drained far
enough to reach that pointer, the slot's bitmap bit is clear afterwards. -/
theorem claim_C10_remote_free_deferred (hp : HeapState) (tc : ThreadCache)
    (ptr si pi : Nat) (chdr : ChunkHeader)
    (hptr : ptr ≠ 0)
    (hh : hp.hdrs (ptr - CHUNK_HEADER_SIZE) = some chdr)
    (howner : chdr.owner = some (si, pi))
    (hmagic : chdr.magic = CHUNK_MAGIC)
    (hsi : si < hp.layout.length)
    (hrem1 : ((hp.layout.getD si Segment.mk0).pages.getD pi
      Page.mk0).owner_tid ≠ 0)
    (hrem2 : ((hp.layout.getD si Segment.mk0).pages.getD pi
      Page.mk0).owner_tid ≠ tc.tid)
    (hcont : ((hp.layout.getD si Segment.mk0).pages.getD pi
      Page.mk0).contains_ptr ptr = true)
    (hok : ((hp.layout.getD si Segment.mk0).pages.getD pi
      Page.mk0).hdr_ok (si, pi) chdr ptr = true)
    (hring : ((hp.layout.getD si Segment.mk0).pages.getD pi
      Page.mk0).deferred_frees.length < RING_CAP) :
    ∃ hp1 tc1,
      hp.free_ptr tc ptr = HFreeRes.ok
        ((hp.layout.getD si Segment.mk0).pages.getD pi Page.mk0).chunk_usable
        hp1 tc1 ∧
      (hp1.layout.getD si Segment.mk0).pages.getD pi Page.mk0
        = { (hp.layout.getD si Segment.mk0).pages.getD pi Page.mk0 with
            deferred_frees := ((hp.layout.getD si Segment.mk0).pages.getD pi
              Page.mk0).deferred_frees ++ [ptr] } ∧
      ((hp1.layout.getD si Segment.mk0).pages.getD pi Page.mk0).used
        = ((hp.layout.getD si Segment.mk0).pages.getD pi Page.mk0).used ∧
      ((hp1.layout.getD si Segment.mk0).pages.getD pi Page.mk0).used_bitmap
        = ((hp.layout.getD si Segment.mk0).pages.getD pi Page.mk0).used_bitmap ∧
      ((hp1.layout.getD si Segment.mk0).pages.getD pi Page.mk0).status
        = ((hp.layout.getD si Segment.mk0).pages.getD pi Page.mk0).status ∧
      ∀ m pg2,
        ((hp1.layout.getD si Segment.mk0).pages.getD pi
          Page.mk0).drain_deferred_locked (si, pi) hp.hdrs m = some pg2 →
        ptr ∈ ((hp1.layout.getD si Segment.mk0).pages.getD pi
          Page.mk0).deferred_frees.take m →
        bit_is_set pg2.used_bitmap chdr.slot = false := by
  have hpi : pi < (hp.layout.getD si Segment.mk0).pages.length := by
    by_contra hge
    push_neg at hge
    have hdef : (hp.layout.getD si Segment.mk0).pages.getD pi Page.mk0
        = Page.mk0 := by
      rw [List.getD_eq_getElem?_getD, List.getElem?_eq_none (by omega)]
      rfl
    rw [hdef] at hcont
    simp [Page.contains_ptr, Page.mk0] at hcont
  have henq : ((hp.layout.getD si Segment.mk0).pages.getD pi
      Page.mk0).enqueue_deferred_free (si, pi) hp.hdrs ptr
      = EnqRes.pushed
          ((hp.layout.getD si Segment.mk0).pages.getD pi Page.mk0).chunk_usable
          { (hp.layout.getD si Segment.mk0).pages.getD pi Page.mk0 with
            deferred_frees := ((hp.layout.getD si Segment.mk0).pages.getD pi
              Page.mk0).deferred_frees ++ [ptr] } := by
    unfold Page.enqueue_deferred_free
    rw [if_neg (by rw [hcont]; simp)]
    rw [if_neg (by
      unfold Page.validate_header
      rw [hh]
      dsimp only
      rw [hok]
      simp)]
    rw [if_pos hring]
  have hfp : hp.free_ptr tc ptr = HFreeRes.ok
      ((hp.layout.getD si Segment.mk0).pages.getD pi Page.mk0).chunk_usable
      { hp with layout := (hp.layout.set si
          { hp.layout.getD si Segment.mk0 with
            pages := ((hp.layout.getD si Segment.mk0).pages.set pi
              { (hp.layout.getD si Segment.mk0).pages.getD pi Page.mk0 with
                deferred_frees := (((hp.layout.getD si Segment.mk0).pages.getD
                  pi Page.mk0).deferred_frees ++ [ptr]) }) }) }
      (free_tc_update
        { hp with layout := (hp.layout.set si
            { hp.layout.getD si Segment.mk0 with
              pages := ((hp.layout.getD si Segment.mk0).pages.set pi
                { (hp.layout.getD si Segment.mk0).pages.getD pi Page.mk0 with
                  deferred_frees := (((hp.layout.getD si Segment.mk0).pages.getD
                    pi Page.mk0).deferred_frees ++ [ptr]) }) }) }
        tc ((hp.layout.getD si Segment.mk0).pages.getD pi Page.mk0).size_class
        (si, pi)) := by
    unfold HeapState.free_ptr
    rw [if_neg hptr, hh]
    dsimp only
    rw [howner]
    dsimp only
    rw [if_neg (by rw [hmagic]; simp)]
    rw [if_neg (by omega)]
    rw [if_pos ⟨hrem1, hrem2⟩]
    rw [henq]
  have hpage : (({ hp with layout := (hp.layout.set si
        { hp.layout.getD si Segment.mk0 with
          pages := ((hp.layout.getD si Segment.mk0).pages.set pi
            { (hp.layout.getD si Segment.mk0).pages.getD pi Page.mk0 with
              deferred_frees := (((hp.layout.getD si Segment.mk0).pages.getD
                pi Page.mk0).deferred_frees ++ [ptr]) }) }) }
      : HeapState).layout.getD si Segment.mk0).pages.getD pi Page.mk0
      = { (hp.layout.getD si Segment.mk0).pages.getD pi Page.mk0 with
          deferred_frees := (((hp.layout.getD si Segment.mk0).pages.getD pi
            Page.mk0).deferred_frees ++ [ptr]) } := by
    dsimp only
    rw [getD_set_self_any _ _ _ _ hsi]
    dsimp only
    rw [getD_set_self_any _ _ _ _ hpi]
  refine ⟨_, _, hfp, hpage, by rw [hpage], by rw [hpage], by rw [hpage], ?_⟩
  intro m pg2 hdr hmem
  rw [hpage] at hdr hmem
  obtain ⟨_, _, hclr⟩ := Page.drain_clears (si, pi) hp.hdrs m _ pg2 hdr
  exact hclr ptr chdr hmem hh hcont hok

/-- Witness for C10: thread 7 frees thread 5's chunk at 4112; the free
succeeds with the ring extended and the page metadata untouched. -/
theorem claim_C10_remote_free_deferred_witness :
    ∃ hp1 tc1,
      hpC10.free_ptr tcW 4112 = HFreeRes.ok
        ((hpC10.layout.getD 0 Segment.mk0).pages.getD 0 Page.mk0).chunk_usable
        hp1 tc1 ∧
      (hp1.layout.getD 0 Segment.mk0).pages.getD 0 Page.mk0
        = { (hpC10.layout.getD 0 Segment.mk0).pages.getD 0 Page.mk0 with
            deferred_frees := ((hpC10.layout.getD 0 Segment.mk0).pages.getD 0
              Page.mk0).deferred_frees ++ [4112] } ∧
      ((hp1.layout.getD 0 Segment.mk0).pages.getD 0 Page.mk0).used
        = ((hpC10.layout.getD 0 Segment.mk0).pages.getD 0 Page.mk0).used ∧
      ((hp1.layout.getD 0 Segment.mk0).pages.getD 0 Page.mk0).used_bitmap
        = ((hpC10.layout.getD 0 Segment.mk0).pages.getD 0 Page.mk0).used_bitmap ∧
      ((hp1.layout.getD 0 Segment.mk0).pages.getD 0 Page.mk0).status
        = ((hpC10.layout.getD 0 Segment.mk0).pages.getD 0 Page.mk0).status ∧
      ∀ m pg2,
        ((hp1.layout.getD 0 Segment.mk0).pages.getD 0
          Page.mk0).drain_deferred_locked (0, 0) hpC10.hdrs m = some pg2 →
        4112 ∈ ((hp1.layout.getD 0 Segment.mk0).pages.getD 0
          Page.mk0).deferred_frees.take m →
        bit_is_set pg2.used_bitmap 0 = false :=
  claim_C10_remote_free_deferred hpC10 tcW 4112 0 0
    ⟨some (0, 0), 0, CHUNK_MAGIC⟩ (by decide) rfl rfl rfl (by decide)
    (by decide) (by decide) (by decide) (by decide) (by decide)

end Zialloc
